import Mathlib

/-!
# Vermeer core: traversal, accumulation and render-context properties

A shallow embedding of the parts of `core/primitive.go`, `core/rendercontext.go`
and `core/scene.go` that the properties below are about.

Conventions of the embedding:

* `float32` values that are only compared (ray parameters) range over an arbitrary
  linearly ordered type `α`; accumulator arithmetic is done in `ℚ`.
* Go slices are lists; an access outside a slice is a run-time panic and is
  modelled by the result `none`.
* The fixed array `ray.Supp.TopLevelStack` has `Accel.StackCap` entries; a push beyond
  them is an access outside the array.
* Loops whose termination depends on the data take a fuel argument; running out of
  fuel also gives `none`. For `Render` the record `RenderRun` tells a call that has
  not ended within the fuel from one that has failed.
-/

namespace Vermeer

/-! ## Definitions -/

/-! ### Running-mean accumulation (`renderFunc`) -/

/-- Modelled from the spec: `m.Clamp(x, lo, hi)` of the math package, which is not
part of the sources at hand; it limits `x` to the interval `[lo, hi]`. -/
def Clamp (x lo hi : ℚ) : ℚ :=
  if x < lo then lo else if hi < x then hi else x

/-- The value `renderFunc` stores into one channel of one pixel in iteration `n`
(rendercontext.go:285): `(acc*float32(n) + Clamp(s*1000, 0, 255)) / float32(n+1)`. -/
def renderFuncChannel (n : ℕ) (acc s : ℚ) : ℚ :=
  (acc * (n : ℚ) + Clamp (s * 1000) 0 255) / (((n + 1 : ℕ)) : ℚ)

/-- The content of one channel after iterations `0, …, k`, starting from the buffer
content `buf` and receiving sample `s n` in iteration `n`. -/
def accAfter (buf : ℚ) (s : ℕ → ℚ) : ℕ → ℚ
  | 0 => renderFuncChannel 0 buf (s 0)
  | k + 1 => renderFuncChannel (k + 1) (accAfter buf s k) (s (k + 1))


/-! ### Scene traversal (`Scene.traceRayAccel`, `Scene.visRayAccel`) -/

/-- Modelled from the spec: the struct `Ray`, whose declaration is not part of the
sources at hand, with the fields the traversal reads: the direction `D` and the
closest-hit parameter `Tclosest`. -/
structure Ray (α : Type) where
  D : Fin 3 → α
  Tclosest : α

/-- Modelled from the spec: the struct `RayData`, whose declaration is not part of the
sources at hand, with what the traversal reads or writes besides its scratch area: the
ray and `Result.Prim`, the latter as a position in `scene.prims`. -/
structure RayData (α : Type) where
  Ray : Ray α
  ResultPrim : Option ℕ

/-- Modelled from the spec: `m.BoundingBox` of the math package, an axis-aligned pair
of 3-vectors. -/
structure BoundingBox where
  Min : Fin 3 → ℚ
  Max : Fin 3 → ℚ

/-- Modelled from the spec: `BoundingBox.Centroid` of the math package, the midpoint of
the box. -/
def BoundingBox.Centroid (b : BoundingBox) : Fin 3 → ℚ :=
  fun a => (b.Min a + b.Max a) / 2

/-- The `Primitive` interface (primitive.go:13). `TraceRay` returns the updated ray
data and the shader id (`-1` for no hit); the shader globals it also fills in are not
read by the traversal and are left out. -/
structure Primitive (α : Type) where
  TraceRay : RayData α → RayData α × ℤ
  VisRay : RayData α → RayData α
  WorldBounds : BoundingBox
  Visible : Bool

/-- Modelled from the spec: the interface `Light`, whose declaration is not part of
the sources at hand. Its method `SampleArea` enters only through the per-bounce values
of `samplePixel`; a light is represented by a tag. -/
structure Light where
  Tag : ℕ

/-- Modelled from the spec: `qbvh.Node` (package qbvh is not part of the sources at
hand): four child references as signed 32-bit indices and the three split axes. The
child boxes are only read by the box test, which is a parameter here. -/
structure qbvh.Node where
  Children : Fin 4 → ℤ
  Axis0 : Fin 3
  Axis1 : Fin 3
  Axis2 : Fin 3

/-- The struct `Scene` (scene.go:18). -/
structure Scene (α : Type) where
  prims : List (Primitive α)
  nodes : List qbvh.Node
  bounds : BoundingBox
  lights : List Light

/-- Modelled from the spec: what the traversal uses and the sources at hand do not
contain: the four-lane box test `rayNodeIntersectAllASM` (an assembly routine; it
receives the ray and the node, the node being given by its index, and yields `Hits[4]`
and `T[4]`), the leaf decoders `qbvh.LeafBase` and `qbvh.LeafCount`, and
`RayData.IsVis`, which tells whether a visibility ray is still unoccluded. All four
are left open. So is `StackCap`, the number of entries of the fixed-capacity array
`ray.Supp.TopLevelStack`: writing the entry with index `StackCap` or beyond is an
out-of-range access, which stops the program. -/
structure Accel (α : Type) where
  rayNodeIntersectAllASM : Ray α → ℕ → (Fin 4 → ℤ) × (Fin 4 → α)
  LeafBase : ℤ → ℕ
  LeafCount : ℤ → ℕ
  IsVis : RayData α → Bool
  StackCap : ℕ

/-- Modelled from the spec: one entry of `ray.Supp.TopLevelStack`, a node reference
and the entry parameter of its box. -/
structure StackEntry (α : Type) where
  Node : ℤ
  T : α

/-- The array `order` of `traceRayAccel` (primitive.go:61-94), as the list
`[order[0], order[1], order[2], order[3]]`. For `D[Axis0] < 0` the source sets
`order[0], order[1]` from `Axis1` (0,1 when negative, else 1,0) and `order[2], order[3]`
from `Axis2` (2,3 when negative, else 3,2); otherwise `order[0], order[1]` from `Axis2`
and `order[2], order[3]` from `Axis1`. -/
def pushOrder {α : Type} [LinearOrder α] [Zero α] (D : Fin 3 → α) (pnode : qbvh.Node) :
    List (Fin 4) :=
  if D pnode.Axis0 < 0 then
    (if D pnode.Axis1 < 0 then [0, 1] else [1, 0]) ++
      (if D pnode.Axis2 < 0 then [2, 3] else [3, 2])
  else
    (if D pnode.Axis2 < 0 then [2, 3] else [3, 2]) ++
      (if D pnode.Axis1 < 0 then [0, 1] else [1, 0])

/-- The push loop (primitive.go:96-108 and 151-158): the children `k` of `pnode`
taken in the order `ks`, each pushed when `Hits[k] != 0`. The head of the list is
the top of the stack. -/
def pushChildren {α : Type} (pnode : qbvh.Node) (hits : Fin 4 → ℤ) (ts : Fin 4 → α) :
    List (Fin 4) → List (StackEntry α) → List (StackEntry α)
  | [], stack => stack
  | k :: ks, stack =>
    if hits k ≠ 0 then pushChildren pnode hits ts ks (⟨pnode.Children k, ts k⟩ :: stack)
    else pushChildren pnode hits ts ks stack

/-- The leaf loop of `traceRayAccel` (primitive.go:115-122) over the positions `is`
of `scene.prims`. -/
def traceLeaf {α : Type} (sc : Scene α) :
    List ℕ → RayData α → ℤ → Option (RayData α × ℤ)
  | [], ray, mtlid => some (ray, mtlid)
  | i :: is, ray, mtlid =>
    match sc.prims[i]? with
    | none => none
    | some p =>
      let r := p.TraceRay ray
      if -1 < r.2 then traceLeaf sc is { r.1 with ResultPrim := some i } r.2
      else traceLeaf sc is r.1 mtlid

/-- The positions `leafBase, …, leafBase+leafCount-1` a leaf reference stands for. -/
def leafRange {α : Type} (ac : Accel α) (node : ℤ) : List ℕ :=
  List.range' (ac.LeafBase node) (ac.LeafCount node)

/-- The main loop of `traceRayAccel` (primitive.go:45-124), one iteration per unit of
fuel. The stack is the list of the entries `TopLevelStack[stackTop], …,
TopLevelStack[0]`, so its length is `stackTop + 1`. The pushes of one iteration
(primitive.go:99-102) only raise `stackTop`, so one of them writes beyond the array
exactly when the stack after the last push holds more than `StackCap` entries; the
result is then `none`, as it is for an index out of range in `scene.nodes` or
`scene.prims` and when the fuel runs out. -/
def traceLoop {α : Type} [LinearOrder α] [Zero α] (ac : Accel α) (sc : Scene α) :
    ℕ → List (StackEntry α) → RayData α → ℤ → Option (RayData α × ℤ)
  | _, [], ray, mtlid => some (ray, mtlid)
  | 0, _ :: _, _, _ => none
  | fuel + 1, e :: stack, ray, mtlid =>
    let node : ℤ := if ray.Ray.Tclosest < e.T then -1 else e.Node
    if 0 ≤ node then
      match sc.nodes[node.toNat]? with
      | none => none
      | some pnode =>
        let ht := ac.rayNodeIntersectAllASM ray.Ray node.toNat
        let pushed := pushChildren pnode ht.1 ht.2 (pushOrder ray.Ray.D pnode) stack
        if ac.StackCap < pushed.length then none
        else traceLoop ac sc fuel pushed ray mtlid
    else if node < -1 then
      match traceLeaf sc (leafRange ac node) ray mtlid with
      | none => none
      | some r => traceLoop ac sc fuel stack r.1 r.2
    else traceLoop ac sc fuel stack ray mtlid

/-- The method `Scene.traceRayAccel` (primitive.go:38): the root, node 0, is written to
`TopLevelStack[0]` with `T = ray.Ray.Tclosest`, which is out of range for an array
without entries, and `mtlid` starts at `-1`. The result is the final ray data and the
returned `mtlid`. -/
def traceRayAccel {α : Type} [LinearOrder α] [Zero α] (ac : Accel α) (sc : Scene α)
    (fuel : ℕ) (ray : RayData α) : Option (RayData α × ℤ) :=
  if ac.StackCap < 1 then none
  else traceLoop ac sc fuel [⟨0, ray.Ray.Tclosest⟩] ray (-1)

/-- The primitives referenced by the leaves below a child reference, in the order of
the node array, for a tree of height at most `h`. -/
def subtreePrims {α : Type} (ac : Accel α) (sc : Scene α) : ℕ → ℤ → List ℕ
  | 0, ref => if ref < -1 then leafRange ac ref else []
  | h + 1, ref =>
    if 0 ≤ ref then
      match sc.nodes[ref.toNat]? with
      | none => []
      | some pnode => (List.finRange 4).flatMap fun k => subtreePrims ac sc h (pnode.Children k)
    else if ref < -1 then leafRange ac ref else []

/-- A child reference is well formed for height `h`: it is `-1`, or a leaf over a
range of `scene.prims`, or the index of an inner node whose four children are well
formed for height `h - 1`. A bounded height excludes cycles. -/
def wellFormedRef {α : Type} (ac : Accel α) (sc : Scene α) : ℕ → ℤ → Bool
  | 0, ref => decide (ref < 0) &&
      (decide (ref = -1) || decide (ac.LeafBase ref + ac.LeafCount ref ≤ sc.prims.length))
  | h + 1, ref =>
    if 0 ≤ ref then
      match sc.nodes[ref.toNat]? with
      | none => false
      | some pnode => (List.finRange 4).all fun k => wellFormedRef ac sc h (pnode.Children k)
    else decide (ref = -1) || decide (ac.LeafBase ref + ac.LeafCount ref ≤ sc.prims.length)

/-- The linear scan of the specification: `TraceRay` is called on the primitives at
the positions `is` one after the other, keeping the last shader id that was not
`-1`. -/
def linearScan {α : Type} (sc : Scene α) (is : List ℕ) (ray : RayData α) :
    Option (RayData α × ℤ) :=
  traceLeaf sc is ray (-1)

/-- The minimum of `c` and the hit parameters of the primitives at the positions
`is`, where `hit i` is the parameter at which the ray hits primitive `i`, if it
does. -/
def minHit {α : Type} [LinearOrder α] (hit : ℕ → Option α) : List ℕ → α → α
  | [], c => c
  | i :: is, c =>
    match hit i with
    | none => minHit hit is c
    | some t => minHit hit is (min c t)

/-- The assumption on primitives: primitive `i` tightens `Tclosest` to its hit
parameter exactly when that is strictly closer, and returns a shader id other than
`-1` exactly then. -/
def PrimsTighten {α : Type} [LinearOrder α] (sc : Scene α) (hit : ℕ → Option α) : Prop :=
  ∀ i p, sc.prims[i]? = some p → ∀ ray : RayData α,
    match hit i with
    | none => (p.TraceRay ray).1.Ray.Tclosest = ray.Ray.Tclosest ∧ (p.TraceRay ray).2 = -1
    | some t =>
      if t < ray.Ray.Tclosest then
        (p.TraceRay ray).1.Ray.Tclosest = t ∧ -1 < (p.TraceRay ray).2
      else (p.TraceRay ray).1.Ray.Tclosest = ray.Ray.Tclosest ∧ (p.TraceRay ray).2 = -1

/-- The assumption on the box test: a child whose subtree holds a primitive hit at a
parameter `t ≤ Tclosest` is reported with non-zero occupancy and entry `T ≤ t`. -/
def BoxTestConservative {α : Type} [LinearOrder α] (ac : Accel α) (sc : Scene α)
    (hit : ℕ → Option α) : Prop :=
  ∀ n pnode, sc.nodes[n]? = some pnode → ∀ (r : Ray α) (k : Fin 4) (h : ℕ) (i : ℕ) (t : α),
    i ∈ subtreePrims ac sc h (pnode.Children k) → hit i = some t → t ≤ r.Tclosest →
      (ac.rayNodeIntersectAllASM r n).1 k ≠ 0 ∧ (ac.rayNodeIntersectAllASM r n).2 k ≤ t

/-- What the any-hit traversal does, in order: it pops a stack entry (with the node
reference it held) or applies `VisRay` of the primitive at a position of
`scene.prims`. Used to record the course of `visRayAccel`. -/
inductive Visit where
  | pop (ref : ℤ)
  | test (i : ℕ)
  deriving DecidableEq

/-- The leaf loop of `visRayAccel` (primitive.go:165-171) over the positions `is`. The
last component tells whether the loop left the function through `return`. Every
`VisRay` call is appended to the record `log`. -/
def visLeaf {α : Type} (ac : Accel α) (sc : Scene α) :
    List ℕ → RayData α → List Visit → Option (RayData α × List Visit × Bool)
  | [], ray, log => some (ray, log, false)
  | i :: is, ray, log =>
    match sc.prims[i]? with
    | none => none
    | some p =>
      let ray' := p.VisRay ray
      if !ac.IsVis ray' then some (ray', log ++ [Visit.test i], true)
      else visLeaf ac sc is ray' (log ++ [Visit.test i])

/-- The main loop of `visRayAccel` (primitive.go:135-173), one iteration per unit of
fuel; children are pushed in the order 0, 1, 2, 3. Every pop is appended to the record
`log`. As in `traceLoop`, the pushes of an iteration (primitive.go:152-155) that leave
more than `StackCap` entries on the stack write beyond `TopLevelStack`, and the result
is `none`. -/
def visLoop {α : Type} [LinearOrder α] (ac : Accel α) (sc : Scene α) :
    ℕ → List (StackEntry α) → RayData α → List Visit → Option (RayData α × List Visit)
  | _, [], ray, log => some (ray, log)
  | 0, _ :: _, _, _ => none
  | fuel + 1, e :: stack, ray, log =>
    let node : ℤ := if ray.Ray.Tclosest < e.T then -1 else e.Node
    let log := log ++ [Visit.pop e.Node]
    if 0 ≤ node then
      match sc.nodes[node.toNat]? with
      | none => none
      | some pnode =>
        let ht := ac.rayNodeIntersectAllASM ray.Ray node.toNat
        let pushed := pushChildren pnode ht.1 ht.2 (List.finRange 4) stack
        if ac.StackCap < pushed.length then none
        else visLoop ac sc fuel pushed ray log
    else if node < -1 then
      match visLeaf ac sc (leafRange ac node) ray log with
      | none => none
      | some (ray', log', true) => some (ray', log')
      | some (ray', log', false) => visLoop ac sc fuel stack ray' log'
    else visLoop ac sc fuel stack ray log

/-- The method `Scene.visRayAccel` (primitive.go:129): the root, node 0, is written to
`TopLevelStack[0]` with `T = ray.Ray.Tclosest`, which is out of range for an array
without entries. The result is the final ray data and the record of pops and
primitive tests. -/
def visRayAccel {α : Type} [LinearOrder α] (ac : Accel α) (sc : Scene α)
    (fuel : ℕ) (ray : RayData α) : Option (RayData α × List Visit) :=
  if ac.StackCap < 1 then none
  else visLoop ac sc fuel [⟨0, ray.Ray.Tclosest⟩] ray []

/-- The primitive at position `i` marks `ray` occluded when its `VisRay` is applied. -/
def Occludes {α : Type} (ac : Accel α) (sc : Scene α) (ray : RayData α) (i : ℕ) : Prop :=
  ∃ p, sc.prims[i]? = some p ∧ ac.IsVis (p.VisRay ray) = false

/-- No primitive test in the record is one that marks `ray` occluded. -/
def CleanLog {α : Type} (ac : Accel α) (sc : Scene α) (ray : RayData α)
    (l : List Visit) : Prop :=
  ∀ i, Visit.test i ∈ l → ¬ Occludes ac sc ray i

/-- The entries `es` on top of any stack that leaves `room` entries of `TopLevelStack`
free are worked off without the ray being marked occluded: the loop continues below
them with the same ray. -/
def VisPass {α : Type} [LinearOrder α] (ac : Accel α) (sc : Scene α) (ray : RayData α)
    (room : ℕ) (es : List (StackEntry α)) : Prop :=
  ∃ n l, CleanLog ac sc ray l ∧ ∀ fuel stack log, stack.length + room ≤ ac.StackCap →
    visLoop ac sc (fuel + n) (es ++ stack) ray log = visLoop ac sc fuel stack ray (log ++ l)

/-- While the entries `es` on top of any stack that leaves `room` entries of
`TopLevelStack` free are worked off, a primitive marks the ray occluded and the
function returns at once; that test is the last in the record. -/
def VisStop {α : Type} [LinearOrder α] (ac : Accel α) (sc : Scene α) (ray : RayData α)
    (room : ℕ) (es : List (StackEntry α)) : Prop :=
  ∃ n l ray' i, CleanLog ac sc ray l ∧ ac.IsVis ray' = false ∧ Occludes ac sc ray i ∧
    ∀ fuel stack log, stack.length + room ≤ ac.StackCap →
      visLoop ac sc (fuel + n) (es ++ stack) ray log = some (ray', log ++ l ++ [Visit.test i])

/-- The course of the any-hit traversal over entries `es` whose subtrees reference the
primitives `S`: it passes when none of them occludes and stops when one does. -/
def VisOutcome {α : Type} [LinearOrder α] (ac : Accel α) (sc : Scene α) (ray : RayData α)
    (room : ℕ) (S : List ℕ) (es : List (StackEntry α)) : Prop :=
  ((∀ i ∈ S, ¬ Occludes ac sc ray i) ∧ VisPass ac sc ray room es) ∨
  ((∃ i ∈ S, Occludes ac sc ray i) ∧ VisStop ac sc ray room es)

/-- The assumption on the box test for visibility rays: a child whose subtree holds a
primitive that marks the ray occluded is reported with non-zero occupancy and an entry
parameter not beyond `Tclosest`. -/
def BoxTestConservativeVis {α : Type} [LinearOrder α] (ac : Accel α) (sc : Scene α)
    (ray : RayData α) : Prop :=
  ∀ n pnode, sc.nodes[n]? = some pnode → ∀ (k : Fin 4) (h : ℕ) (i : ℕ),
    i ∈ subtreePrims ac sc h (pnode.Children k) → Occludes ac sc ray i →
      (ac.rayNodeIntersectAllASM ray.Ray n).1 k ≠ 0 ∧
      (ac.rayNodeIntersectAllASM ray.Ray n).2 k ≤ ray.Ray.Tclosest

/-- The assumption on primitives for visibility rays (`VisRay` updates the ray if it
is hit): a primitive that does not mark `ray` occluded leaves it as it is. -/
def VisRayKeeps {α : Type} (ac : Accel α) (sc : Scene α) (ray : RayData α) : Prop :=
  ∀ (i : ℕ) (p : Primitive α), sc.prims[i]? = some p →
    ac.IsVis (p.VisRay ray) = true → p.VisRay ray = ray

/-! ### Tile scheduling (`RenderContext.Render`, `renderFunc`) -/

/-- The constant `TILESIZE` (rendercontext.go:18). -/
def TILESIZE : ℕ := 64

/-- The struct `WorkItem` (rendercontext.go:119) without its `samples` slice, which is
the whole accumulator buffer for every item. -/
structure WorkItem where
  x : ℕ
  y : ℕ
  w : ℕ
  h : ℕ
  deriving DecidableEq

/-- The values taken by the counter of `for i := 0; i < limit; i += TILESIZE`, from the
value `i` on; `fuel` bounds the number of iterations. -/
def tileStarts (limit : ℕ) : ℕ → ℕ → List ℕ
  | 0, _ => []
  | fuel + 1, i => if i < limit then i :: tileStarts limit fuel (i + TILESIZE) else []

/-- The work items `Render` sends in one iteration (rendercontext.go:382-387), in
order: the outer loop runs over `j` up to `frame.h`, the inner over `i` up to
`frame.w`, and every item has `w = h = TILESIZE`. -/
def renderWorkItems (XRes YRes : ℕ) : List WorkItem :=
  (tileStarts YRes YRes 0).flatMap fun j =>
    (tileStarts XRes XRes 0).map fun i => { x := i, y := j, w := TILESIZE, h := TILESIZE }

/-- The index `((i+w.x)+(j+w.y)*frame.w)*3+c` of `w.samples` that `renderFunc` writes
for pixel `(i, j)` of the item and channel `c` (rendercontext.go:285-287). -/
def sampleIndex (frameW : ℕ) (w : WorkItem) (i j c : ℕ) : ℕ :=
  ((i + w.x) + (j + w.y) * frameW) * 3 + c

/-- All indices of the accumulator that `renderFunc` writes for one work item
(rendercontext.go:281-287): `j` runs below `w.h`, `i` below `w.w`, and the three
channels are written for each pixel. -/
def writtenIndices (frameW : ℕ) (w : WorkItem) : List ℕ :=
  (List.range w.h).flatMap fun j =>
    (List.range w.w).flatMap fun i =>
      [sampleIndex frameW w i j 0, sampleIndex frameW w i j 1, sampleIndex frameW w i j 2]

/-! ### The render context (`RenderContext`) -/

/-- The conversion `int32(i)` of a non-negative `int`. -/
def toInt32 (i : ℕ) : ℤ :=
  ((i + 2 ^ 31) % 2 ^ 32 : ℕ) - 2 ^ 31

/-- Modelled from the spec: the record `Globals`, whose declaration is not part of the
sources at hand: image dimensions, worker count and the progress switch. -/
structure Globals where
  XRes : ℤ
  YRes : ℤ
  MaxGoRoutines : ℤ
  UseProgress : Bool

/-- Modelled from the spec: the interface `Material`, whose declaration is not part of
the sources at hand, with what the functions embedded here use of a material: its
name, the id stored by `SetId`, and the answers of `HasEDF` and `HasBumpMap`. -/
structure Material where
  Name : String
  Id : ℤ
  HasEDF : Bool
  HasBumpMap : Bool

/-- The case of the type switch in `AddNode` (rendercontext.go:466-477) that the
dynamic type of a node selects, with the node seen at that type. A node is a `Camera`
exactly when the first case is selected. -/
inductive NodeCase (α : Type) where
  | Camera
  | Primitive (p : Primitive α)
  | Light (l : Light)
  | Material (mtl : Material)
  | Globals (g : Globals)
  | Other

/-- A value of the interface `Node` (rendercontext.go:494): its name and its dynamic
type. What its `PreRender` does is given separately, see `PreRender`. -/
structure Node (α : Type) where
  Name : String
  Case : NodeCase α

/-- The struct `RenderContext` (rendercontext.go:55). `frames` is the length of the
slice `rc.frames`, `finish` tells whether the channel `rc.finish`, of capacity 1, holds
a value; the image buffer `imgbuf`, which `Render` only assigns, and the preview, an
outside collaborator, are left out. -/
structure RenderContext (α : Type) where
  globals : Globals
  frames : ℕ
  nodes : List (Node α)
  scene : Scene α
  cameras : List (Node α)
  materials : List Material
  finish : Bool

/-- The function `NewRenderContext` (rendercontext.go:76). -/
def NewRenderContext (α : Type) : RenderContext α where
  globals := { XRes := 256, YRes := 256, MaxGoRoutines := 5, UseProgress := false }
  frames := 0
  nodes := []
  scene := { prims := [], nodes := [], bounds := { Min := fun _ => 0, Max := fun _ => 0 },
             lights := [] }
  cameras := []
  materials := []
  finish := false

/-- The method `RenderContext.addMaterial` (rendercontext.go:454): the material is appended and
`SetId(int32(id))` stores its position in it. -/
def addMaterial {α : Type} (rc : RenderContext α) (mtl : Material) : RenderContext α :=
  { rc with materials := rc.materials ++ [{ mtl with Id := toInt32 rc.materials.length }] }

/-- The method `RenderContext.AddNode` (rendercontext.go:463). For a material the node appended to
`rc.nodes` is the object on which `SetId` is called, so it carries the new id. -/
def AddNode {α : Type} (rc : RenderContext α) (node : Node α) : RenderContext α :=
  match node.Case with
  | .Camera => { rc with nodes := rc.nodes ++ [node], cameras := rc.cameras ++ [node] }
  | .Primitive p =>
    { rc with nodes := rc.nodes ++ [node],
              scene := { rc.scene with prims := rc.scene.prims ++ [p] } }
  | .Light l =>
    { rc with nodes := rc.nodes ++ [node],
              scene := { rc.scene with lights := rc.scene.lights ++ [l] } }
  | .Material mtl =>
    addMaterial
      { rc with nodes := rc.nodes ++
          [{ node with Case := .Material { mtl with Id := toInt32 rc.materials.length } }] }
      mtl
  | .Globals g => { rc with nodes := rc.nodes ++ [node], globals := g }
  | .Other => { rc with nodes := rc.nodes ++ [node] }

/-- The method `RenderContext.FindNode` (rendercontext.go:480): the first node with the given
name, `none` for `nil`. -/
def FindNode {α : Type} (rc : RenderContext α) (name : String) : Option (Node α) :=
  rc.nodes.find? fun node => node.Name == name

/-- How a call of `Render` ends. -/
inductive RenderOutcome (α : Type) where
  /-- The call returns `ErrNoCamera`, before the first iteration. -/
  | ErrNoCamera
  /-- The type assertion `node.(Camera)` fails. -/
  | panic
  /-- The call `rc.Finish()` in `Render` blocks because the finish channel is full. -/
  | blocked
  /-- The call returns `nil` after the given number of iterations, rendered with
  `camera`. -/
  | done (camera : Node α) (iterations : ℕ)

/-- The camera selection of `Render` (rendercontext.go:320-328): `none` stands for the
failing type assertion, `some none` for `frame.camera == nil`. -/
def renderCamera {α : Type} (rc : RenderContext α) : Option (Option (Node α)) :=
  if rc.frames = 0 then
    match FindNode rc "camera" with
    | none => some none
    | some node =>
      match node.Case with
      | .Camera => some (some node)
      | _ => none
  else some none

/-- The render context obtained from `NewRenderContext` by calling `AddNode` for the
nodes `ns` in order. -/
def buildContext {α : Type} (ns : List (Node α)) : RenderContext α :=
  ns.foldl AddNode (NewRenderContext α)

/-- Whether `Render` itself calls `Finish` at the start of iteration `k`
(rendercontext.go:349) or `Finish` is called from outside during that iteration. -/
def finishSignal (maxIter : ℤ) (ext : ℕ → Bool) (k : ℕ) : Bool :=
  (decide (0 ≤ maxIter) && decide (maxIter - 1 ≤ (k : ℤ))) || ext k

/-- Whether the node is a `Camera`, that is, whether the type assertion
`node.(Camera)` succeeds. -/
def isCamera {α : Type} (node : Node α) : Bool :=
  match node.Case with
  | .Camera => true
  | _ => false

/-- The node `n'` stored in `rc.nodes` by `AddNode` for the node `n`: it is `n` itself,
except that for a material it carries the id set by `SetId`. -/
def StoredAs {α : Type} (n n' : Node α) : Prop :=
  n' = n ∨ ∃ mtl id, n.Case = .Material mtl ∧
    n' = { n with Case := .Material { mtl with Id := id } }

/-! ### Pre-render (`RenderContext.PreRender`, `Scene.initAccel`) -/

/-- The first loop of `initAccel` (scene.go:106-114) from position `i` on: the boxes,
indices and centroids of the visible primitives. -/
def initAccelCollect {α : Type} :
    List (Primitive α) → ℕ → List BoundingBox × List ℤ × List (Fin 3 → ℚ)
  | [], _ => ([], [], [])
  | p :: ps, i =>
    let r := initAccelCollect ps (i + 1)
    if !p.Visible then r
    else (p.WorldBounds :: r.1, toInt32 i :: r.2.1, p.WorldBounds.Centroid :: r.2.2)

/-- The element `prims[ix]` for an `int32` index; `none` stands for the run-time panic
of an index out of range. -/
def primAt {α : Type} (prims : List (Primitive α)) (ix : ℤ) : Option (Primitive α) :=
  if 0 ≤ ix then prims[ix.toNat]? else none

/-- Modelled from the spec: the type of `qbvh.BuildAccel`, which is not part of the
sources at hand: from the boxes, centroids, indices and the leaf size it yields the
node array, the bounds and the content it leaves in the slice `indices`. -/
abbrev BuildAccelFn : Type :=
  List BoundingBox → List (Fin 3 → ℚ) → List ℤ → ℤ → List qbvh.Node × BoundingBox × List ℤ

/-- The method `Scene.initAccel` (scene.go:101); `none` stands for a run-time panic. -/
def initAccel {α : Type} (BuildAccel : BuildAccelFn) (scene : Scene α) : Option (Scene α) :=
  let c := initAccelCollect scene.prims 0
  let r := BuildAccel c.1 c.2.2 c.2.1 1
  match r.2.2.mapM (primAt scene.prims) with
  | none => none
  | some nprims => some { scene with nodes := r.1, prims := nprims, bounds := r.2.1 }

/-- The record of a `PreRender` run: the nodes whose `PreRender` was invoked and the
nodes passed to `AddNode` meanwhile, each in order. -/
structure PreRenderLog (α : Type) where
  calls : List (Node α)
  added : List (Node α)

/-- The inner loop of `PreRender` (rendercontext.go:107-111) over the nodes of one
round. `pre node rc` is what `node.PreRender(rc)` does: it fails with an error or
calls `rc.AddNode` for the nodes of the list it yields. -/
def preRenderNodes {α : Type} (pre : Node α → RenderContext α → Except String (List (Node α))) :
    List (Node α) → RenderContext α → PreRenderLog α →
      Except String (RenderContext α × PreRenderLog α)
  | [], rc, log => .ok (rc, log)
  | node :: rest, rc, log =>
    match pre node rc with
    | .error err => .error err
    | .ok new =>
      preRenderNodes pre rest (new.foldl AddNode rc)
        { calls := log.calls ++ [node], added := log.added ++ new }

/-- The outer loop of `PreRender` (rendercontext.go:101-112), one round per unit of
fuel, followed by `rc.nodes = allnodes`. -/
def preRenderLoop {α : Type} (pre : Node α → RenderContext α → Except String (List (Node α))) :
    ℕ → List (Node α) → RenderContext α → PreRenderLog α →
      Option (Except String (RenderContext α × PreRenderLog α))
  | 0, _, _, _ => none
  | fuel + 1, allnodes, rc, log =>
    match rc.nodes with
    | [] => some (.ok ({ rc with nodes := allnodes }, log))
    | nodes =>
      match preRenderNodes pre nodes { rc with nodes := [] } log with
      | .error err => some (.error err)
      | .ok (rc', log') => preRenderLoop pre fuel (allnodes ++ nodes) rc' log'

/-- The method `RenderContext.PreRender` (rendercontext.go:94). The outer `none` means
that the fuel did not suffice or that `initAccel` panicked; on success the context is
returned together with the record of the run. -/
def PreRender {α : Type} (pre : Node α → RenderContext α → Except String (List (Node α)))
    (BuildAccel : BuildAccelFn) (fuel : ℕ) (rc : RenderContext α) :
    Option (Except String (RenderContext α × PreRenderLog α)) :=
  match preRenderLoop pre fuel [] rc { calls := [], added := [] } with
  | none => none
  | some (.error err) => some (.error err)
  | some (.ok (rc', log)) =>
    match initAccel BuildAccel rc'.scene with
    | none => none
    | some scene => some (.ok ({ rc' with scene := scene }, log))

/-- The positions of the visible primitives of a list whose first element has
position `i`, in increasing order. -/
def visiblePositions {α : Type} : List (Primitive α) → ℕ → List ℕ
  | [], _ => []
  | p :: ps, i =>
    if p.Visible then i :: visiblePositions ps (i + 1) else visiblePositions ps (i + 1)

/-- The assumption on `qbvh.BuildAccel`: it only permutes the index array it is
given. -/
def BuildAccelPermutes (BuildAccel : BuildAccelFn) : Prop :=
  ∀ boxes centroids indices leafsize,
    List.Perm (BuildAccel boxes centroids indices leafsize).2.2 indices

/-! ### The path integrator (`samplePixel`) -/

/-- The method `RenderContext.GetMaterial` (rendercontext.go:69). The outer `none`
stands for the run-time panic of an index out of range, `some none` for `nil`. -/
def GetMaterial {α : Type} (rc : RenderContext α) (id : ℤ) : Option (Option Material) :=
  if !rc.materials.isEmpty && decide (id ≠ -1) && decide (id < (rc.materials.length : ℤ)) then
    (if 0 ≤ id then
      match rc.materials[id.toNat]? with
      | none => none
      | some mtl => some (some mtl)
    else none)
  else some none

/-- The outcome of a successful direct-lighting sample at one hit: the material id of
the sampled light point and the value `Le * rho * geom / (pdf * nls)` that is multiplied
by the throughput and added to the sample. -/
structure LightSample where
  MtlId : ℤ
  value : ℚ

/-- Modelled from the spec: what the collaborators of `samplePixel` (scene, ray data,
material, light and vector arithmetic, none of them part of the sources at hand) yield
at one depth. A spectrum of the colour package is a number here, the radiance at the
single wavelength of the path.

* `hit`: `ray.GetHitSurface(&surf) == nil` after `TraceRay`;
* `MtlId`: `surf.MtlId`;
* `Le`: the spectrum written by `mtl.EvalEDF`;
* `IsDelta`: `mtl.IsDelta(&surf)`;
* `light`: `some` when `SampleArea` succeeds, the three tests on `V` pass and the
  visibility ray stays unoccluded;
* `rho`, `scale`: the reflectance written by `SampleBSDF` and `omega_o[2] / pdf`;
* `below`: `m.Vec3Dot(D, surf.N) < 0` for the sampled direction. -/
structure Bounce where
  hit : Bool
  MtlId : ℤ
  Le : ℚ
  IsDelta : Bool
  light : Option LightSample
  rho : ℚ
  scale : ℚ
  below : Bool

/-- The local variables `fullsample`, `contrib` and `direct` of `samplePixel`. -/
structure PathState where
  fullsample : ℚ
  contrib : ℚ
  direct : Bool

/-- The direct-lighting block of `samplePixel` (rendercontext.go:195-242): the new
`fullsample` and `direct`; `none` stands for the panic of calling `EvalEDF` on a light
material that `GetMaterial` does not find. -/
def directLighting {α : Type} (rc : RenderContext α) (b : Bounce) (fullsample contrib : ℚ)
    (direct : Bool) : Option (ℚ × Bool) :=
  if !b.IsDelta then
    if 0 < rc.scene.lights.length then
      match b.light with
      | none => some (fullsample, false)
      | some ls =>
        match GetMaterial rc ls.MtlId with
        | some (some _) => some (fullsample + ls.value * contrib, false)
        | _ => none
    else some (fullsample, direct)
  else some (fullsample, true)

/-- How one iteration of the loop of `samplePixel` ends: with a run-time panic, with a
`return` of the given value, or with the state for the next depth. -/
inductive PathStep where
  | panic
  | result (rgb : ℚ × ℚ × ℚ)
  | next (st : PathState)

/-- One iteration of the loop of `samplePixel` (rendercontext.go:144-268) for the
values `b` of the collaborators. `ToRGB` is the conversion of the colour package; a bare
`return` yields the zero values of the named results, and leaving the loop through
`break` leads to `return fullsample.ToRGB()`. -/
def samplePixelStep {α : Type} (rc : RenderContext α) (ToRGB : ℚ → ℚ × ℚ × ℚ) (b : Bounce)
    (st : PathState) : PathStep :=
  if b.hit then
    match GetMaterial rc b.MtlId with
    | none => .panic
    | some none => .result (0, 0, 0)
    | some (some mtl) =>
      let fullsample :=
        if (true || st.direct) && mtl.HasEDF then st.fullsample + b.Le * st.contrib
        else st.fullsample
      match directLighting rc b fullsample st.contrib st.direct with
      | none => .panic
      | some (fullsample, direct) =>
        if b.below then .result (0, 0, 0)
        else
          .next { fullsample := fullsample, contrib := st.contrib * b.rho * b.scale,
                  direct := direct }
  else .result (ToRGB st.fullsample)

/-- The loop of `samplePixel` (rendercontext.go:142-270) from depth `depth` on, with
`n` iterations left up to the depth limit; `bounce depth` are the values of the
collaborators at that depth. `none` stands for a run-time panic. -/
def samplePixelFrom {α : Type} (rc : RenderContext α) (ToRGB : ℚ → ℚ × ℚ × ℚ)
    (bounce : ℕ → Bounce) : ℕ → ℕ → PathState → Option (ℚ × ℚ × ℚ)
  | 0, _, st => some (ToRGB st.fullsample)
  | n + 1, depth, st =>
    match samplePixelStep rc ToRGB (bounce depth) st with
    | .panic => none
    | .result rgb => some rgb
    | .next st' => samplePixelFrom rc ToRGB bounce n (depth + 1) st'

/-- The function `samplePixel` (rendercontext.go:125): four depths at most, starting
with `fullsample = 0`, `contrib = 1` and `direct = true`. -/
def samplePixel {α : Type} (rc : RenderContext α) (ToRGB : ℚ → ℚ × ℚ × ℚ)
    (bounce : ℕ → Bounce) : Option (ℚ × ℚ × ℚ) :=
  samplePixelFrom rc ToRGB bounce 4 0 { fullsample := 0, contrib := 1, direct := true }

/-! ### The iterations of `Render` (`renderFunc`, `RenderContext.Render`) -/

/-- A `for` loop over the values `xs` whose body may end in a run-time panic (`none`),
which ends the loop. -/
def forEach {σ ι : Type} (body : ι → σ → Option σ) : List ι → σ → Option σ
  | [], s => some s
  | x :: xs, s =>
    match body x s with
    | none => none
    | some s' => forEach body xs s'

/-- One of the three assignments of `renderFunc` to `w.samples` (rendercontext.go:285-287)
in iteration `n`, for the sample value `s`; `none` stands for the panic of an index out
of range. -/
def writeSample (n : ℕ) (buf : List ℚ) (idx : ℕ) (s : ℚ) : Option (List ℚ) :=
  match buf[idx]? with
  | none => none
  | some acc => some (buf.set idx (renderFuncChannel n acc s))

/-- The body of the pixel loops of `renderFunc` (rendercontext.go:283-287) for pixel
`(i, j)` of the item `w` in iteration `n`: the call of `samplePixel`, whose result is
`sample` (`none` for a panic), and then the assignments to the three channels. -/
def renderFuncPixel (sample : Option (ℚ × ℚ × ℚ)) (n frameW : ℕ) (w : WorkItem) (i j : ℕ)
    (buf : List ℚ) : Option (List ℚ) :=
  match sample with
  | none => none
  | some (r, g, b) =>
    match writeSample n buf (sampleIndex frameW w i j 0) r with
    | none => none
    | some buf =>
      match writeSample n buf (sampleIndex frameW w i j 1) g with
      | none => none
      | some buf => writeSample n buf (sampleIndex frameW w i j 2) b

/-- What `renderFunc` does for one work item `w` in iteration `n`
(rendercontext.go:280-292): `j` runs below `w.h`, `i` below `w.w`, and `pix x y` is the
result of `samplePixel` for the pixel `(x, y) = (i+w.x, j+w.y)`. The buffer `w.samples`
is the accumulator `buf` of `Render` for every item. -/
def renderFuncItem (pix : ℕ → ℕ → Option (ℚ × ℚ × ℚ)) (n frameW : ℕ) (w : WorkItem)
    (buf : List ℚ) : Option (List ℚ) :=
  forEach
    (fun j buf =>
      forEach (fun i buf => renderFuncPixel (pix (i + w.x) (j + w.y)) n frameW w i j buf)
        (List.range w.w) buf)
    (List.range w.h) buf

/-- The tiles of iteration `n` of `Render` (rendercontext.go:352-391): `MaxGoRoutines`
workers run `renderFunc` and take the work items from the unbuffered channel `workChan`,
to which `Render` sends the items of `renderWorkItems`. Without a worker the first send
blocks for ever. With a worker every item is rendered by some worker, and a panic in a
worker ends the program; the items are rendered here one after the other, in the order
in which they are sent. `none` stands for both the blocked send and the panic. For
`frame.w <= 0` or `frame.h <= 0` there is no item. -/
def renderIteration (g : Globals) (pix : ℕ → ℕ → Option (ℚ × ℚ × ℚ)) (n : ℕ)
    (buf : List ℚ) : Option (List ℚ) :=
  let items := renderWorkItems g.XRes.toNat g.YRes.toNat
  if decide (g.MaxGoRoutines ≤ 0) && !items.isEmpty then none
  else forEach (fun w buf => renderFuncItem pix n g.XRes.toNat w buf) items buf

/-- How far a call of `Render` has come when it has ended or `fuel` iterations are
over. -/
inductive RenderRun (α : Type) where
  /-- The call has ended as `out` tells. -/
  | ended (out : RenderOutcome α)
  /-- The call has not returned and will not: `make` was called with a negative length, a
  worker ran into a panic (an accumulator index out of range, a panic of `samplePixel`),
  or the work items were sent with no worker to receive them. -/
  | failed
  /-- The iterations before `k` are complete, none of them saw the finish signal, and
  the fuel is used up. -/
  | running (k : ℕ)

/-- The iteration loop of `Render` (rendercontext.go:346-424) from iteration `k` on, one
iteration per unit of fuel. `finish` is the state of the finish channel, `buf` the
accumulator, and `ext k` tells whether `Finish` is called from outside while iteration
`k` is rendered. In iteration `k` the pixel `(x, y)` is sampled by `samplePixel` with
the values `bounce k x y` of its collaborators. The progress bar and the preview,
outside collaborators, are taken to return. -/
def renderLoop {α : Type} (rc : RenderContext α) (ToRGB : ℚ → ℚ × ℚ × ℚ)
    (bounce : ℕ → ℕ → ℕ → ℕ → Bounce) (camera : Node α) (maxIter : ℤ) (ext : ℕ → Bool) :
    ℕ → ℕ → Bool → List ℚ → RenderRun α
  | 0, k, _, _ => .running k
  | fuel + 1, k, finish, buf =>
    let send : Bool := decide (0 ≤ maxIter) && decide (maxIter - 1 ≤ (k : ℤ))
    if send && finish then .ended .blocked
    else
      match renderIteration rc.globals (fun x y => samplePixel rc ToRGB (bounce k x y)) k buf with
      | none => .failed
      | some buf =>
        let finish := finish || send || ext k
        if finish then .ended (.done camera (k + 1))
        else renderLoop rc ToRGB bounce camera maxIter ext fuel (k + 1) finish buf

/-- The method `RenderContext.Render` (rendercontext.go:316) with the record of how far it
has come: the camera selection, the two calls of `make` (rendercontext.go:339 and 342),
which panic for a negative length, and the iteration loop on the accumulator of
`frame.w*frame.h*3` zeros. -/
def renderRun {α : Type} (rc : RenderContext α) (ToRGB : ℚ → ℚ × ℚ × ℚ)
    (bounce : ℕ → ℕ → ℕ → ℕ → Bounce) (maxIter : ℤ) (ext : ℕ → Bool) (fuel : ℕ) :
    RenderRun α :=
  match renderCamera rc with
  | none => .ended .panic
  | some none => .ended .ErrNoCamera
  | some (some camera) =>
    if rc.globals.XRes * rc.globals.YRes * 3 < 0 ∨ rc.globals.MaxGoRoutines < 0 then .failed
    else
      renderLoop rc ToRGB bounce camera maxIter ext fuel 0 rc.finish
        (List.replicate (rc.globals.XRes * rc.globals.YRes * 3).toNat 0)

/-- The method `RenderContext.Render` (rendercontext.go:316): how the call ends, `none` when
it does not end within `fuel` iterations or fails in the way of `RenderRun.failed`. -/
def Render {α : Type} (rc : RenderContext α) (ToRGB : ℚ → ℚ × ℚ × ℚ)
    (bounce : ℕ → ℕ → ℕ → ℕ → Bounce) (maxIter : ℤ) (ext : ℕ → Bool) (fuel : ℕ) :
    Option (RenderOutcome α) :=
  match renderRun rc ToRGB bounce maxIter ext fuel with
  | .ended out => some out
  | _ => none

/-! ### Traversal order and stack depth -/

/-- The order in which the children of an inner node are to be visited according to
the specification: first the two children of the half the ray enters first along
`Axis0` (children 0, 1 when `D[Axis0] >= 0`, children 2, 3 otherwise), and within the
lower half (split on `Axis1`) and the upper half (split on `Axis2`) the child with the
lower index first exactly when `D` on that axis is `>= 0`. -/
def nearFirstOrder {α : Type} [LinearOrder α] [Zero α] (D : Fin 3 → α) (pnode : qbvh.Node) :
    List (Fin 4) :=
  let lower : List (Fin 4) := if D pnode.Axis1 < 0 then [1, 0] else [0, 1]
  let upper : List (Fin 4) := if D pnode.Axis2 < 0 then [3, 2] else [2, 3]
  if D pnode.Axis0 < 0 then upper ++ lower else lower ++ upper

/-- The array `order` as a function of the three signs `D[Axis0] < 0`, `D[Axis1] < 0`
and `D[Axis2] < 0`. -/
def orderOfSigns (s0 s1 s2 : Bool) : List (Fin 4) :=
  if s0 then (if s1 then [0, 1] else [1, 0]) ++ (if s2 then [2, 3] else [3, 2])
  else (if s2 then [2, 3] else [3, 2]) ++ (if s1 then [0, 1] else [1, 0])

/-- The main loop of `traceRayAccel` as in `traceLoop`, keeping in addition the largest
number of entries the stack held at the head of an iteration (`peak`; the pushes of an
iteration are seen at the head of the next) and yielding it with the stack left at
the end. Pushes beyond the `StackCap` entries of `TopLevelStack` give `none`. -/
def traceLoopStack {α : Type} [LinearOrder α] [Zero α] (ac : Accel α) (sc : Scene α) :
    ℕ → List (StackEntry α) → RayData α → ℤ → ℕ →
      Option (RayData α × ℤ × ℕ × List (StackEntry α))
  | _, [], ray, mtlid, peak => some (ray, mtlid, peak, [])
  | 0, _ :: _, _, _, _ => none
  | fuel + 1, e :: stack, ray, mtlid, peak =>
    let peak := max peak (stack.length + 1)
    let node : ℤ := if ray.Ray.Tclosest < e.T then -1 else e.Node
    if 0 ≤ node then
      match sc.nodes[node.toNat]? with
      | none => none
      | some pnode =>
        let ht := ac.rayNodeIntersectAllASM ray.Ray node.toNat
        let pushed := pushChildren pnode ht.1 ht.2 (pushOrder ray.Ray.D pnode) stack
        if ac.StackCap < pushed.length then none
        else traceLoopStack ac sc fuel pushed ray mtlid peak
    else if node < -1 then
      match traceLeaf sc (leafRange ac node) ray mtlid with
      | none => none
      | some r => traceLoopStack ac sc fuel stack r.1 r.2 peak
    else traceLoopStack ac sc fuel stack ray mtlid peak

/-- The method `Scene.traceRayAccel` with the record of its stack: the final ray data,
the returned `mtlid`, the largest number of stack entries and the final stack. -/
def traceRayAccelStack {α : Type} [LinearOrder α] [Zero α] (ac : Accel α) (sc : Scene α)
    (fuel : ℕ) (ray : RayData α) : Option (RayData α × ℤ × ℕ × List (StackEntry α)) :=
  if ac.StackCap < 1 then none
  else traceLoopStack ac sc fuel [⟨0, ray.Ray.Tclosest⟩] ray (-1) 0

/-- The main loop of `visRayAccel` as in `visLoop`, keeping the largest number of
entries the stack held at the head of an iteration instead of the record of pops and
tests, and yielding it with the stack left at the end: the empty stack, or the entries
still on the stack when the leaf loop leaves the function through `return`. Pushes
beyond the `StackCap` entries of `TopLevelStack` give `none`. -/
def visLoopStack {α : Type} [LinearOrder α] (ac : Accel α) (sc : Scene α) :
    ℕ → List (StackEntry α) → RayData α → ℕ →
      Option (RayData α × ℕ × List (StackEntry α))
  | _, [], ray, peak => some (ray, peak, [])
  | 0, _ :: _, _, _ => none
  | fuel + 1, e :: stack, ray, peak =>
    let peak := max peak (stack.length + 1)
    let node : ℤ := if ray.Ray.Tclosest < e.T then -1 else e.Node
    if 0 ≤ node then
      match sc.nodes[node.toNat]? with
      | none => none
      | some pnode =>
        let ht := ac.rayNodeIntersectAllASM ray.Ray node.toNat
        let pushed := pushChildren pnode ht.1 ht.2 (List.finRange 4) stack
        if ac.StackCap < pushed.length then none
        else visLoopStack ac sc fuel pushed ray peak
    else if node < -1 then
      match visLeaf ac sc (leafRange ac node) ray [] with
      | none => none
      | some (ray', _, true) => some (ray', peak, stack)
      | some (ray', _, false) => visLoopStack ac sc fuel stack ray' peak
    else visLoopStack ac sc fuel stack ray peak

/-- The method `Scene.visRayAccel` with the record of its stack: the final ray data, the
largest number of stack entries and the final stack. -/
def visRayAccelStack {α : Type} [LinearOrder α] (ac : Accel α) (sc : Scene α)
    (fuel : ℕ) (ray : RayData α) : Option (RayData α × ℕ × List (StackEntry α)) :=
  if ac.StackCap < 1 then none
  else visLoopStack ac sc fuel [⟨0, ray.Ray.Tclosest⟩] ray 0

/-- The entries `es` on top of the stack `rest` are worked off by `visLoopStack` with
the largest number of stack entries staying within `max p bound`: either the loop
continues below them, or a leaf loop leaves the function with the ray marked
occluded. -/
def VisStackRun {α : Type} [LinearOrder α] (ac : Accel α) (sc : Scene α)
    (es rest : List (StackEntry α)) (ray : RayData α) (p bound : ℕ) : Prop :=
  ∃ n p', p' ≤ max p bound ∧
    ((∃ ray', ∀ fuel, visLoopStack ac sc (fuel + n) (es ++ rest) ray p
        = visLoopStack ac sc fuel rest ray' p') ∨
     (∃ ray' final, ac.IsVis ray' = false ∧
        ∀ fuel, visLoopStack ac sc (fuel + n) (es ++ rest) ray p = some (ray', p', final)))

/-! ### Scene queries (`TraceProbe`, `Trace`) -/

/-- Modelled from the spec: the record `ShaderGlobals`, whose declaration is not part of
the sources at hand, with the one field that `Trace` tests: the resolved shader,
`none` for `nil`. -/
structure ShaderGlobals where
  Shader : Option Material

/-- The function `TraceProbe` (scene.go:42) on the scene of the global render context.
`shadow` is the test `ray.Type&RayShadow != 0` and `getMaterial` the package-level
function `GetMaterial`, which is not part of the sources at hand (`none` for `nil`).
The result is the returned flag, the ray data and the shader globals; the outer `none`
means that the traversal did not return. -/
def TraceProbe {α : Type} [LinearOrder α] [Zero α] (ac : Accel α)
    (getMaterial : ℤ → Option Material) (sc : Scene α) (fuel : ℕ) (shadow : Bool)
    (ray : RayData α) (sg : ShaderGlobals) : Option (Bool × RayData α × ShaderGlobals) :=
  if shadow then
    match visRayAccel ac sc fuel ray with
    | none => none
    | some r => some (!ac.IsVis r.1, r.1, sg)
  else
    match traceRayAccel ac sc fuel ray with
    | none => none
    | some r =>
      if r.2 ≠ -1 then some (true, r.1, { sg with Shader := getMaterial r.2 })
      else some (false, r.1, sg)

/-- The function `Trace` (scene.go:70): the shader globals are built without a shader,
and after a successful probe the function returns `false` when `sg.Shader` is `nil` and
`true` after evaluating the shader otherwise. -/
def Trace {α : Type} [LinearOrder α] [Zero α] (ac : Accel α)
    (getMaterial : ℤ → Option Material) (sc : Scene α) (fuel : ℕ) (shadow : Bool)
    (ray : RayData α) : Option Bool :=
  match TraceProbe ac getMaterial sc fuel shadow ray { Shader := none } with
  | none => none
  | some r =>
    if r.1 then
      (if r.2.2.Shader.isNone then some false else some true)
    else some false

/-! ### Triangle meshes (`Mesh`) -/

/-- The struct `FaceGeom` (mesh.go:18), with `m.Vec3` as a triple of rationals. -/
structure FaceGeom where
  V : Fin 3 → (Fin 3 → ℚ)
  N : Fin 3 → ℚ
  Vi : Fin 3 → ℤ
  MtlID : ℤ

/-- The struct `Mesh` (mesh.go:42) without its vertex normals and UV sets. `faceindex`
is `none` for a `nil` slice. -/
structure Mesh where
  Name : String
  Faces : List FaceGeom
  nodes : List qbvh.Node
  faceindex : Option (List ℤ)
  bounds : BoundingBox
  RayBias : ℚ
  UseIndexedFaces : Bool

/-- The four specialised traversals of a mesh for each kind of query (the methods
`traceRayAccel`, `traceRayAccelEpsilon`, `traceRayAccelIndexed`,
`traceRayAccelIndexedEpsilon` and their `visRay` counterparts), which are declared in
files that are not part of the sources at hand. -/
inductive MeshVariant where
  | Accel
  | AccelEpsilon
  | AccelIndexed
  | AccelIndexedEpsilon
  deriving DecidableEq

/-- The method `Mesh.TraceRay` (mesh.go:80). `trace v` is the closest-hit traversal of
variant `v`; the result is what the variant called returns, together with the list of
the variants that were called. -/
def Mesh.TraceRay {α : Type} (trace : MeshVariant → RayData α → RayData α × ℤ) (mesh : Mesh)
    (ray : RayData α) : (RayData α × ℤ) × List MeshVariant :=
  if mesh.faceindex.isSome then
    if mesh.RayBias = 0 then (trace .AccelIndexed ray, [.AccelIndexed])
    else (trace .AccelIndexedEpsilon ray, [.AccelIndexedEpsilon])
  else
    if mesh.RayBias = 0 then (trace .Accel ray, [.Accel])
    else (trace .AccelEpsilon ray, [.AccelEpsilon])

/-- The method `Mesh.VisRay` (mesh.go:99). `vis v` is the any-hit traversal of variant
`v`; the result is the ray data after the calls, together with the list of the
variants that were called, in order. The call of the epsilon variant is not in an
`else` branch. -/
def Mesh.VisRay {α : Type} (vis : MeshVariant → RayData α → RayData α) (mesh : Mesh)
    (ray : RayData α) : RayData α × List MeshVariant :=
  if mesh.faceindex.isSome then
    let r : RayData α × List MeshVariant :=
      if mesh.RayBias = 0 then (vis .AccelIndexed ray, [.AccelIndexed]) else (ray, [])
    (vis .AccelIndexedEpsilon r.1, r.2 ++ [.AccelIndexedEpsilon])
  else
    let r : RayData α × List MeshVariant :=
      if mesh.RayBias = 0 then (vis .Accel ray, [.Accel]) else (ray, [])
    (vis .AccelEpsilon r.1, r.2 ++ [.AccelEpsilon])

/-- Modelled from the spec: `BoundingBox.GrowVec3` of the math package on a box under
construction, where `none` is the box after `Reset`, which encloses nothing. -/
def GrowVec3 (box : Option BoundingBox) (v : Fin 3 → ℚ) : Option BoundingBox :=
  match box with
  | none => some { Min := v, Max := v }
  | some b => some { Min := fun a => min (b.Min a) (v a), Max := fun a => max (b.Max a) (v a) }

/-- The function `calcBox` (mesh.go:271): `Reset` followed by `GrowVec3` for every
vertex. -/
def calcBox (verts : List (Fin 3 → ℚ)) : Option BoundingBox :=
  verts.foldl GrowVec3 none

/-- The centroid `trisplit` computes (mesh.go:318-323): the sum of the vertices scaled
by `1 / len(top)`. -/
def vertsCentroid (top : List (Fin 3 → ℚ)) : Fin 3 → ℚ :=
  fun a => (1 / (top.length : ℚ)) * (top.foldl (fun c v => c + v a) 0)

/-- Modelled from the spec: what the disabled branch of `trisplit` calls and the sources
at hand do not contain: `BoundingBox.MaxDim` and the clipping functions
`qbvh.ClipLeft` and `qbvh.ClipRight`. -/
structure SplitOps where
  MaxDim : BoundingBox → Fin 3
  ClipLeft : ℚ → Fin 3 → List (Fin 3 → ℚ) → List (Fin 3 → ℚ)
  ClipRight : ℚ → Fin 3 → List (Fin 3 → ℚ) → List (Fin 3 → ℚ)

/-- The three slices `trisplit` appends to. -/
structure SplitOut where
  indexes : List ℤ
  boxes : List BoundingBox
  centroids : List (Fin 3 → ℚ)

/-- The loop of `trisplit` (mesh.go:288-328), one iteration per unit of fuel; the head of
the list is the top of the stack. The condition of the split is the constant `false`
(the surface-area test is commented out). `none` stands for `panic("<1")` or for fuel
that does not suffice. -/
def trisplitLoop (ops : SplitOps) (idx : ℤ) :
    ℕ → List (List (Fin 3 → ℚ)) → SplitOut → Option SplitOut
  | _, [], out => some out
  | 0, _ :: _, _ => none
  | fuel + 1, top :: stack, out =>
    if top.length < 1 then none
    else
      match calcBox top with
      | none => none
      | some box =>
        if false then
          let axis := ops.MaxDim box
          let d := box.Centroid axis
          let primng := ops.ClipLeft d axis top
          let primpv := ops.ClipRight d axis top
          trisplitLoop ops idx fuel (primpv :: primng :: stack) out
        else
          trisplitLoop ops idx fuel stack
            { indexes := out.indexes ++ [idx], boxes := out.boxes ++ [box],
              centroids := out.centroids ++ [vertsCentroid top] }

/-- The function `trisplit` (mesh.go:285). -/
def trisplit (ops : SplitOps) (fuel : ℕ) (verts : List (Fin 3 → ℚ)) (idx : ℤ)
    (out : SplitOut) : Option SplitOut :=
  trisplitLoop ops idx fuel [verts] out

/-- The first loop of `Mesh.initAccel` (mesh.go:345-364) from face position `i` on. -/
def meshCollect (ops : SplitOps) (fuel : ℕ) : List FaceGeom → ℕ → SplitOut → Option SplitOut
  | [], _, out => some out
  | f :: fs, i, out =>
    match trisplit ops fuel [f.V 0, f.V 1, f.V 2] (toInt32 i) out with
    | none => none
    | some out' => meshCollect ops fuel fs (i + 1) out'

/-- The zero value of `FaceGeom`. -/
def FaceGeom.zero : FaceGeom :=
  { V := fun _ _ => 0, N := fun _ => 0, Vi := fun _ => 0, MtlID := 0 }

/-- The loop `newfaces[i] = mesh.Faces[indxs[i]]` of `Mesh.initAccel` (mesh.go:379-381)
from position `i` on; `none` stands for an index out of range. -/
def rearrangeFaces (faces : List FaceGeom) : List ℤ → ℕ → List FaceGeom → Option (List FaceGeom)
  | [], _, newfaces => some newfaces
  | ix :: rest, i, newfaces =>
    if 0 ≤ ix then
      match faces[ix.toNat]? with
      | none => none
      | some f =>
        if i < newfaces.length then rearrangeFaces faces rest (i + 1) (newfaces.set i f)
        else none
    else none

/-- The method `Mesh.initAccel` (mesh.go:339), with leaf size 16; `none` stands for a
run-time panic or for fuel that does not suffice. -/
def Mesh.initAccel (ops : SplitOps) (BuildAccel : BuildAccelFn) (fuel : ℕ) (mesh : Mesh) :
    Option Mesh :=
  match meshCollect ops fuel mesh.Faces 0 { indexes := [], boxes := [], centroids := [] } with
  | none => none
  | some out =>
    let r := BuildAccel out.boxes out.centroids out.indexes 16
    if !mesh.UseIndexedFaces then
      match rearrangeFaces mesh.Faces r.2.2 0 (List.replicate mesh.Faces.length FaceGeom.zero) with
      | none => none
      | some newfaces => some { mesh with nodes := r.1, bounds := r.2.1, Faces := newfaces }
    else some { mesh with nodes := r.1, bounds := r.2.1, faceindex := some r.2.2 }

/-! ### A small scene used to instantiate the traversal theorems -/

/-- A primitive that the example ray hits at parameter 5, with shader id 7. -/
def examplePrim : Primitive ℤ where
  TraceRay := fun ray =>
    if 5 < ray.Ray.Tclosest then ({ ray with Ray := { ray.Ray with Tclosest := 5 } }, 7)
    else (ray, -1)
  VisRay := fun ray =>
    if 5 < ray.Ray.Tclosest then { ray with Ray := { ray.Ray with Tclosest := 0 } } else ray
  WorldBounds := { Min := fun _ => 0, Max := fun _ => 1 }
  Visible := true

/-- An inner node whose child 0 is the leaf `-2` and whose other children are empty. -/
def exampleRootNode : qbvh.Node :=
  { Children := fun k => if k = 0 then -2 else -1, Axis0 := 0, Axis1 := 1, Axis2 := 2 }

/-- The scene of the one inner node `exampleRootNode` and the one primitive
`examplePrim`. -/
def exampleScene : Scene ℤ where
  prims := [examplePrim]
  nodes := [exampleRootNode]
  bounds := { Min := fun _ => 0, Max := fun _ => 1 }
  lights := []

/-- A box test that reports every child with entry parameter 0, and leaf decoders
that send every leaf reference to the range `[0, 1)`. -/
def exampleAccel : Accel ℤ where
  rayNodeIntersectAllASM := fun _ _ => (fun _ => 1, fun _ => 0)
  LeafBase := fun _ => 0
  LeafCount := fun _ => 1
  IsVis := fun ray => decide (0 < ray.Ray.Tclosest)
  StackCap := 64

/-- The hit parameters of the example ray: primitive 0 is hit at 5. -/
def exampleHit : ℕ → Option ℤ := fun i => if i = 0 then some 5 else none

/-- The example ray, with `Tclosest = 100`. -/
def exampleRay : RayData ℤ where
  Ray := { D := fun _ => 1, Tclosest := 100 }
  ResultPrim := none

/-- A camera node registered under the name the renderer looks up. -/
def exampleCamera : Node ℤ := { Name := "camera", Case := .Camera }

/-- A camera node registered under another name. -/
def exampleCameraOtherName : Node ℤ := { Name := "cam1", Case := .Camera }

/-- A node whose `PreRender` registers the node `exampleChild`. -/
def exampleParent : Node ℤ := { Name := "parent", Case := .Other }

/-- A node whose `PreRender` registers nothing. -/
def exampleChild : Node ℤ := { Name := "child", Case := .Other }

/-- The `PreRender` methods of the example nodes. -/
def examplePre : Node ℤ → RenderContext ℤ → Except String (List (Node ℤ)) :=
  fun node _ => if node.Name == "parent" then .ok [exampleChild] else .ok []

/-- A builder that leaves the indices as they are and yields no nodes. -/
def exampleBuildAccel : BuildAccelFn :=
  fun _ _ indices _ => ([], { Min := fun _ => 0, Max := fun _ => 0 }, indices)

/-- An invisible primitive. -/
def exampleHiddenPrim : Primitive ℤ := { examplePrim with Visible := false }

/-- A scene with a visible, an invisible and another visible primitive and no
acceleration structure yet. -/
def exampleUnbuiltScene : Scene ℤ where
  prims := [examplePrim, exampleHiddenPrim, examplePrim]
  nodes := []
  bounds := { Min := fun _ => 0, Max := fun _ => 0 }
  lights := []

/-- A builder that reverses the indices and yields no nodes. -/
def exampleReverseBuildAccel : BuildAccelFn :=
  fun _ _ indices _ => ([], { Min := fun _ => 0, Max := fun _ => 0 }, indices.reverse)

/-- A context with one emitting, non-delta material (id 0) and one light. -/
def exampleLitContext : RenderContext ℤ :=
  buildContext
    [{ Name := "emitter",
       Case := .Material { Name := "emitter", Id := 0, HasEDF := true, HasBumpMap := false } },
     { Name := "light", Case := .Light { Tag := 0 } }]

/-- A path that hits the emitting material at depths 0 and 1 and then leaves the scene:
at each hit the emitted radiance is 1, the material is not a delta material, the light
sample contributes nothing, and the sampled direction is above the surface with
throughput factor 1. -/
def examplePath : ℕ → Bounce := fun depth =>
  { hit := decide (depth < 2), MtlId := 0, Le := 1, IsDelta := false, light := none,
    rho := 1, scale := 1, below := false }

/-- A conversion to RGB that repeats the value in each channel. -/
def exampleToRGB : ℚ → ℚ × ℚ × ℚ := fun v => (v, v, v)

/-- One inner node whose child 3, the first to be popped by `visRayAccel`, is the leaf
`-2`; the other children are empty but reported by the example box test. -/
def exampleSceneLastChild : Scene ℤ where
  prims := [examplePrim]
  nodes := [{ Children := fun k => if k = 3 then -2 else -1, Axis0 := 0, Axis1 := 1, Axis2 := 2 }]
  bounds := { Min := fun _ => 0, Max := fun _ => 1 }
  lights := []

/-- A path that hits the emitting material of `exampleLitContext` at depth 0, with
emitted radiance 1 and a sampled direction above the surface, and at every further depth
a surface with the material id 5, which `exampleLitContext` does not have. -/
def exampleNoMaterialPath : ℕ → Bounce := fun depth =>
  { hit := true, MtlId := if depth = 0 then 0 else 5, Le := 1, IsDelta := false,
    light := none, rho := 1, scale := 1, below := false }

/-- The values of `fullsample`, `contrib` and `direct` at the head of the iterations of
`samplePixel` along `exampleNoMaterialPath`: the initial ones at depth 0, and the
emission of the first hit accumulated from depth 1 on. -/
def exampleNoMaterialStates : ℕ → PathState := fun depth =>
  if depth = 0 then { fullsample := 0, contrib := 1, direct := true }
  else { fullsample := 1, contrib := 1, direct := false }

/-- A material that is found for every id. -/
def exampleMaterial : Material :=
  { Name := "m", Id := 7, HasEDF := false, HasBumpMap := false }

/-- A mesh without face index table and with `RayBias = 0`. -/
def exampleMesh : Mesh where
  Name := "mesh"
  Faces := []
  nodes := []
  faceindex := none
  bounds := { Min := fun _ => 0, Max := fun _ => 0 }
  RayBias := 0
  UseIndexedFaces := false

/-- A thin triangle that is 1000 units long: its vertices are (0, 0, 0), (1000, 1, 0)
and (0, 0, 1). -/
def exampleThinFace : FaceGeom where
  V := fun k a =>
    if k = 1 then (if a = 0 then 1000 else if a = 1 then 1 else 0)
    else if k = 2 then (if a = 2 then 1 else 0)
    else 0
  N := fun _ => 0
  Vi := fun _ => 0
  MtlID := 0

/-- Clipping functions that return their input, for the branch that is never taken. -/
def exampleSplitOps : SplitOps where
  MaxDim := fun _ => 0
  ClipLeft := fun _ _ verts => verts
  ClipRight := fun _ _ verts => verts

/-- A primitive whose `VisRay` records a hit at parameter 3 by shortening the ray to
it, which does not mark the ray occluded. -/
def exampleShorteningPrim : Primitive ℤ where
  TraceRay := fun ray =>
    if 3 < ray.Ray.Tclosest then ({ ray with Ray := { ray.Ray with Tclosest := 3 } }, 8)
    else (ray, -1)
  VisRay := fun ray =>
    if 3 < ray.Ray.Tclosest then { ray with Ray := { ray.Ray with Tclosest := 3 } } else ray
  WorldBounds := { Min := fun _ => 0, Max := fun _ => 1 }
  Visible := true

/-- The box test and visibility test of `exampleAccel`, with leaf decoders that send the
leaf reference `-2 - i` to the range `[i, i + 1)`. -/
def exampleAccelTwoLeaves : Accel ℤ :=
  { exampleAccel with LeafBase := fun ref => (-ref - 2).toNat }

/-- One inner node whose child 0 is the leaf `-2` over the primitive at position 0,
whose child 3 is the leaf `-3` over the primitive at position 1 and whose other children
are empty. -/
def exampleSceneTwoLeaves : Scene ℤ where
  prims := [examplePrim, exampleShorteningPrim]
  nodes := [{ Children := fun k => if k = 0 then -2 else if k = 3 then -3 else -1,
              Axis0 := 0, Axis1 := 1, Axis2 := 2 }]
  bounds := { Min := fun _ => 0, Max := fun _ => 1 }
  lights := []

/-- One inner node without children and no primitives. -/
def exampleSceneNoLeaves : Scene ℤ where
  prims := []
  nodes := [{ Children := fun _ => -1, Axis0 := 0, Axis1 := 1, Axis2 := 2 }]
  bounds := { Min := fun _ => 0, Max := fun _ => 1 }
  lights := []

/-- A ray that is marked occluded before the traversal starts (`Tclosest = 0`). -/
def exampleOccludedRay : RayData ℤ where
  Ray := { D := fun _ => 1, Tclosest := 0 }
  ResultPrim := none

/-- The values of the collaborators of `samplePixel` for camera rays that leave the
scene, in every iteration and for every pixel. -/
def exampleMissBounce : ℕ → ℕ → ℕ → ℕ → Bounce := fun _ _ _ _ =>
  { hit := false, MtlId := -1, Le := 0, IsDelta := false, light := none,
    rho := 1, scale := 1, below := false }

/-- The value `c'` is the minimum of `c` and the hit parameters of the primitives at
the positions in `S`. -/
def IsMinOver {α : Type} [LinearOrder α] (hit : ℕ → Option α) (S : List ℕ) (c c' : α) :
    Prop :=
  c' ≤ c ∧ (∀ i ∈ S, ∀ t, hit i = some t → c' ≤ t) ∧ (c' = c ∨ ∃ i ∈ S, hit i = some c')

/-- The shader id follows the closest-hit parameter: from `(c, m)` to `(c', m')` either
nothing changed, or the parameter was tightened and the id is not `-1`. -/
def Tracks {α : Type} [LinearOrder α] (c : α) (m : ℤ) (c' : α) (m' : ℤ) : Prop :=
  (m' = m ∧ c' = c) ∨ (-1 < m' ∧ c' < c)

/-! ## Theorems -/

section Traversal

variable {α : Type} [LinearOrder α]

theorem isMinOver_unique {hit : ℕ → Option α} {S : List ℕ} {c a b : α}
    (ha : IsMinOver hit S c a) (hb : IsMinOver hit S c b) : a = b := by
  obtain ⟨ha1, ha2, ha3⟩ := ha
  obtain ⟨hb1, hb2, hb3⟩ := hb
  apply le_antisymm
  · rcases hb3 with rfl | ⟨i, hi, hit_i⟩
    · exact ha1
    · exact ha2 i hi _ hit_i
  · rcases ha3 with rfl | ⟨i, hi, hit_i⟩
    · exact hb1
    · exact hb2 i hi _ hit_i

theorem minHit_isMinOver (hit : ℕ → Option α) :
    ∀ (S : List ℕ) (c : α), IsMinOver hit S c (minHit hit S c) := by
  intro S
  induction S with
  | nil => intro c; exact ⟨le_refl _, by simp, Or.inl rfl⟩
  | cons i S ih =>
    intro c
    cases hi : hit i with
    | none =>
      obtain ⟨h1, h2, h3⟩ := ih c
      simp only [minHit, hi]
      refine ⟨h1, ?_, ?_⟩
      · intro j hj t ht
        rcases List.mem_cons.1 hj with rfl | hj
        · rw [hi] at ht; cases ht
        · exact h2 j hj t ht
      · rcases h3 with h | ⟨j, hj, hjt⟩
        · exact Or.inl h
        · exact Or.inr ⟨j, List.mem_cons_of_mem _ hj, hjt⟩
    | some t =>
      obtain ⟨h1, h2, h3⟩ := ih (min c t)
      simp only [minHit, hi]
      refine ⟨le_trans h1 (min_le_left _ _), ?_, ?_⟩
      · intro j hj u hu
        rcases List.mem_cons.1 hj with rfl | hj
        · rw [hi] at hu
          cases hu
          exact le_trans h1 (min_le_right _ _)
        · exact h2 j hj u hu
      · rcases h3 with h | ⟨j, hj, hjt⟩
        · rcases le_total c t with hct | hct
          · left; rw [h, min_eq_left hct]
          · right
            refine ⟨i, List.mem_cons_self _ _, ?_⟩
            rw [h, min_eq_right hct, hi]
        · exact Or.inr ⟨j, List.mem_cons_of_mem _ hj, hjt⟩

theorem tracks_trans {c c' c'' : α} {m m' m'' : ℤ} (h1 : Tracks c m c' m')
    (h2 : Tracks c' m' c'' m'') : Tracks c m c'' m'' := by
  rcases h1 with ⟨rfl, rfl⟩ | ⟨hm, hc⟩
  · exact h2
  · rcases h2 with ⟨rfl, rfl⟩ | ⟨hm2, hc2⟩
    · exact Or.inr ⟨hm, hc⟩
    · exact Or.inr ⟨hm2, lt_trans hc2 hc⟩

theorem traceLeaf_spec {sc : Scene α} {hit : ℕ → Option α} (hp : PrimsTighten sc hit) :
    ∀ (S : List ℕ) (ray : RayData α) (m : ℤ), (∀ i ∈ S, i < sc.prims.length) →
      ∃ ray' m', traceLeaf sc S ray m = some (ray', m') ∧
        ray'.Ray.Tclosest = minHit hit S ray.Ray.Tclosest ∧
        Tracks ray.Ray.Tclosest m ray'.Ray.Tclosest m' := by
  intro S
  induction S with
  | nil => intro ray m _; exact ⟨ray, m, rfl, rfl, Or.inl ⟨rfl, rfl⟩⟩
  | cons i S ih =>
    intro ray m hS
    have hi : i < sc.prims.length := hS i (List.mem_cons_self _ _)
    have hS' : ∀ j ∈ S, j < sc.prims.length := fun j hj => hS j (List.mem_cons_of_mem _ hj)
    have hget : sc.prims[i]? = some sc.prims[i] := List.getElem?_eq_getElem hi
    have hpi := hp i _ hget ray
    cases hh : hit i with
    | none =>
      rw [hh] at hpi
      obtain ⟨e1, e2⟩ := hpi
      obtain ⟨ray', m', h1, h2, h3⟩ := ih (sc.prims[i].TraceRay ray).1 m hS'
      refine ⟨ray', m', ?_, ?_, ?_⟩
      · simp only [traceLeaf, hget, e2, lt_irrefl, if_false]; exact h1
      · simp only [minHit, hh]; rw [h2, e1]
      · rw [e1] at h3; exact h3
    | some t =>
      rw [hh] at hpi
      by_cases htc : t < ray.Ray.Tclosest
      · simp only [htc, if_true] at hpi
        obtain ⟨e1, e2⟩ := hpi
        obtain ⟨ray', m', h1, h2, h3⟩ :=
          ih { (sc.prims[i].TraceRay ray).1 with ResultPrim := some i }
            (sc.prims[i].TraceRay ray).2 hS'
        refine ⟨ray', m', ?_, ?_, ?_⟩
        · simp only [traceLeaf, hget, e2, if_true]; exact h1
        · simp only [minHit, hh]; rw [h2, min_eq_right (le_of_lt htc)]; simp only [e1]
        · simp only [e1] at h3
          exact tracks_trans (Or.inr ⟨e2, htc⟩) h3
      · simp only [htc, if_false] at hpi
        obtain ⟨e1, e2⟩ := hpi
        obtain ⟨ray', m', h1, h2, h3⟩ := ih (sc.prims[i].TraceRay ray).1 m hS'
        refine ⟨ray', m', ?_, ?_, ?_⟩
        · simp only [traceLeaf, hget, e2, lt_irrefl, if_false]; exact h1
        · simp only [minHit, hh]; rw [h2, e1, min_eq_left (not_lt.1 htc)]
        · rw [e1] at h3; exact h3

theorem isMinOver_append {hit : ℕ → Option α} {S₁ S₂ : List ℕ} {c c₁ c₂ : α}
    (h1 : IsMinOver hit S₁ c c₁) (h2 : IsMinOver hit S₂ c₁ c₂) :
    IsMinOver hit (S₁ ++ S₂) c c₂ := by
  obtain ⟨a1, a2, a3⟩ := h1
  obtain ⟨b1, b2, b3⟩ := h2
  refine ⟨le_trans b1 a1, ?_, ?_⟩
  · intro i hi t ht
    rcases List.mem_append.1 hi with hi | hi
    · exact le_trans b1 (a2 i hi t ht)
    · exact b2 i hi t ht
  · rcases b3 with rfl | ⟨i, hi, hit_i⟩
    · rcases a3 with rfl | ⟨i, hi, hit_i⟩
      · exact Or.inl rfl
      · exact Or.inr ⟨i, List.mem_append_left _ hi, hit_i⟩
    · exact Or.inr ⟨i, List.mem_append_right _ hi, hit_i⟩

theorem isMinOver_of_no_closer {hit : ℕ → Option α} {S : List ℕ} {c : α}
    (h : ∀ i ∈ S, ∀ t, hit i = some t → c ≤ t) : IsMinOver hit S c c :=
  ⟨le_refl _, h, Or.inl rfl⟩

omit [LinearOrder α] in
theorem pushChildren_eq (pnode : qbvh.Node) (hits : Fin 4 → ℤ) (ts : Fin 4 → α) :
    ∀ (ks : List (Fin 4)) (stack : List (StackEntry α)),
      pushChildren pnode hits ts ks stack
        = ((ks.filter fun k => decide (hits k ≠ 0)).reverse.map
            fun k => (⟨pnode.Children k, ts k⟩ : StackEntry α)) ++ stack := by
  intro ks
  induction ks with
  | nil => intro stack; rfl
  | cons k ks ih =>
    intro stack
    by_cases hk : hits k ≠ 0
    · simp [pushChildren, hk, ih, List.filter_cons]
    · simp [pushChildren, hk, ih, List.filter_cons]

omit [LinearOrder α] in
theorem pushed_length_le (pnode : qbvh.Node) (hits : Fin 4 → ℤ) (ts : Fin 4 → α)
    (ks : List (Fin 4)) :
    (((ks.filter fun k => decide (hits k ≠ 0)).reverse.map
      fun k => (⟨pnode.Children k, ts k⟩ : StackEntry α))).length ≤ ks.length := by
  rw [List.length_map, List.length_reverse]
  exact List.length_filter_le _ _

omit [LinearOrder α] in
theorem pushChildren_length_le (pnode : qbvh.Node) (hits : Fin 4 → ℤ) (ts : Fin 4 → α)
    (ks : List (Fin 4)) (stack : List (StackEntry α)) :
    (pushChildren pnode hits ts ks stack).length ≤ stack.length + ks.length := by
  rw [pushChildren_eq, List.length_append]
  have := pushed_length_le pnode hits ts ks
  omega

section Order

variable [Zero α]

theorem mem_pushOrder (D : Fin 3 → α) (pnode : qbvh.Node) (k : Fin 4) :
    k ∈ pushOrder D pnode := by
  unfold pushOrder
  split_ifs <;> fin_cases k <;> simp

theorem pushOrder_reverse_length (D : Fin 3 → α) (pnode : qbvh.Node) :
    (4 : ℕ) = (pushOrder D pnode).length := by
  unfold pushOrder
  by_cases h0 : D pnode.Axis0 < 0 <;> by_cases h1 : D pnode.Axis1 < 0 <;>
    by_cases h2 : D pnode.Axis2 < 0 <;> simp [h0, h1, h2]

theorem traceLoop_pruned (ac : Accel α) (sc : Scene α) (fuel : ℕ) (e : StackEntry α)
    (stack : List (StackEntry α)) (ray : RayData α) (m : ℤ) (h : ray.Ray.Tclosest < e.T) :
    traceLoop ac sc (fuel + 1) (e :: stack) ray m = traceLoop ac sc fuel stack ray m := by
  simp [traceLoop, h]

theorem traceLoop_empty (ac : Accel α) (sc : Scene α) (fuel : ℕ) (e : StackEntry α)
    (stack : List (StackEntry α)) (ray : RayData α) (m : ℤ) (h : e.Node = -1) :
    traceLoop ac sc (fuel + 1) (e :: stack) ray m = traceLoop ac sc fuel stack ray m := by
  simp [traceLoop, h]

theorem traceLoop_leaf (ac : Accel α) (sc : Scene α) (fuel : ℕ) (e : StackEntry α)
    (stack : List (StackEntry α)) (ray ray' : RayData α) (m m' : ℤ)
    (hT : ¬ ray.Ray.Tclosest < e.T) (h : e.Node < -1)
    (hl : traceLeaf sc (leafRange ac e.Node) ray m = some (ray', m')) :
    traceLoop ac sc (fuel + 1) (e :: stack) ray m = traceLoop ac sc fuel stack ray' m' := by
  have h0 : ¬ (0 ≤ e.Node) := by omega
  simp [traceLoop, hT, h, h0, hl]

theorem traceLoop_inner (ac : Accel α) (sc : Scene α) (fuel : ℕ) (e : StackEntry α)
    (stack : List (StackEntry α)) (ray : RayData α) (m : ℤ) (pnode : qbvh.Node)
    (hT : ¬ ray.Ray.Tclosest < e.T) (h : 0 ≤ e.Node)
    (hn : sc.nodes[e.Node.toNat]? = some pnode) (hcap : stack.length + 4 ≤ ac.StackCap) :
    traceLoop ac sc (fuel + 1) (e :: stack) ray m
      = traceLoop ac sc fuel
          (pushChildren pnode (ac.rayNodeIntersectAllASM ray.Ray e.Node.toNat).1
            (ac.rayNodeIntersectAllASM ray.Ray e.Node.toNat).2
            (pushOrder ray.Ray.D pnode) stack) ray m := by
  have hlen := pushChildren_length_le pnode (ac.rayNodeIntersectAllASM ray.Ray e.Node.toNat).1
    (ac.rayNodeIntersectAllASM ray.Ray e.Node.toNat).2 (pushOrder ray.Ray.D pnode) stack
  rw [← pushOrder_reverse_length] at hlen
  simp only [traceLoop, hT, h, hn, if_false, if_true]
  rw [if_neg (by omega)]

theorem traceLoop_entries {ac : Accel α} {sc : Scene α} {hit : ℕ → Option α} (h : ℕ)
    (single : ∀ (e : StackEntry α) (stack : List (StackEntry α)) (ray : RayData α) (m : ℤ),
      stack.length + 1 + 3 * h ≤ ac.StackCap →
      wellFormedRef ac sc h e.Node = true →
      (ray.Ray.Tclosest < e.T →
        ∀ i ∈ subtreePrims ac sc h e.Node, ∀ t, hit i = some t → ray.Ray.Tclosest ≤ t) →
      ∃ n ray' m',
        (∀ fuel, traceLoop ac sc (fuel + n) (e :: stack) ray m
          = traceLoop ac sc fuel stack ray' m') ∧
        IsMinOver hit (subtreePrims ac sc h e.Node) ray.Ray.Tclosest ray'.Ray.Tclosest ∧
        Tracks ray.Ray.Tclosest m ray'.Ray.Tclosest m') :
    ∀ (es stack : List (StackEntry α)) (ray : RayData α) (m : ℤ),
      stack.length + es.length + 3 * h ≤ ac.StackCap →
      (∀ e ∈ es, wellFormedRef ac sc h e.Node = true ∧
        ∀ i ∈ subtreePrims ac sc h e.Node, ∀ t, hit i = some t →
          t < ray.Ray.Tclosest → e.T ≤ t) →
      ∃ n ray' m',
        (∀ fuel, traceLoop ac sc (fuel + n) (es ++ stack) ray m
          = traceLoop ac sc fuel stack ray' m') ∧
        IsMinOver hit (es.flatMap fun e => subtreePrims ac sc h e.Node)
          ray.Ray.Tclosest ray'.Ray.Tclosest ∧
        Tracks ray.Ray.Tclosest m ray'.Ray.Tclosest m' := by
  intro es
  induction es with
  | nil =>
    intro stack ray m _ _
    exact ⟨0, ray, m, fun _ => rfl, isMinOver_of_no_closer (by simp), Or.inl ⟨rfl, rfl⟩⟩
  | cons e es ih =>
    intro stack ray m hcap hes
    have hcap1 : (es ++ stack).length + 1 + 3 * h ≤ ac.StackCap := by
      rw [List.length_append]; rw [List.length_cons] at hcap; omega
    have hcap2 : stack.length + es.length + 3 * h ≤ ac.StackCap := by
      rw [List.length_cons] at hcap; omega
    obtain ⟨hwf, hinv⟩ := hes e (List.mem_cons_self _ _)
    have hweak : ray.Ray.Tclosest < e.T →
        ∀ i ∈ subtreePrims ac sc h e.Node, ∀ t, hit i = some t → ray.Ray.Tclosest ≤ t := by
      intro hlt i hi t ht
      by_contra hcon
      have := hinv i hi t ht (not_le.1 hcon)
      exact absurd (lt_of_le_of_lt this (not_le.1 hcon)) (not_lt.2 (le_of_lt hlt))
    obtain ⟨n1, ray1, m1, run1, min1, tr1⟩ := single e (es ++ stack) ray m hcap1 hwf hweak
    have hes' : ∀ e' ∈ es, wellFormedRef ac sc h e'.Node = true ∧
        ∀ i ∈ subtreePrims ac sc h e'.Node, ∀ t, hit i = some t →
          t < ray1.Ray.Tclosest → e'.T ≤ t := by
      intro e' he'
      obtain ⟨w, inv⟩ := hes e' (List.mem_cons_of_mem _ he')
      exact ⟨w, fun i hi t ht hlt => inv i hi t ht (lt_of_lt_of_le hlt min1.1)⟩
    obtain ⟨n2, ray2, m2, run2, min2, tr2⟩ := ih stack ray1 m1 hcap2 hes'
    refine ⟨n2 + n1, ray2, m2, ?_, ?_, tracks_trans tr1 tr2⟩
    · intro fuel
      rw [← Nat.add_assoc, List.cons_append, run1, run2]
    · rw [List.flatMap_cons]
      exact isMinOver_append min1 min2

theorem traceLoop_subtree {ac : Accel α} {sc : Scene α} {hit : ℕ → Option α}
    (hp : PrimsTighten sc hit) (hb : BoxTestConservative ac sc hit) :
    ∀ (h : ℕ) (e : StackEntry α) (stack : List (StackEntry α)) (ray : RayData α) (m : ℤ),
      stack.length + 1 + 3 * h ≤ ac.StackCap →
      wellFormedRef ac sc h e.Node = true →
      (ray.Ray.Tclosest < e.T →
        ∀ i ∈ subtreePrims ac sc h e.Node, ∀ t, hit i = some t → ray.Ray.Tclosest ≤ t) →
      ∃ n ray' m',
        (∀ fuel, traceLoop ac sc (fuel + n) (e :: stack) ray m
          = traceLoop ac sc fuel stack ray' m') ∧
        IsMinOver hit (subtreePrims ac sc h e.Node) ray.Ray.Tclosest ray'.Ray.Tclosest ∧
        Tracks ray.Ray.Tclosest m ray'.Ray.Tclosest m' := by
  -- entries that are not inner nodes, at any height
  have leafCase : ∀ (e : StackEntry α) (stack : List (StackEntry α)) (ray : RayData α)
      (m : ℤ) (S : List ℕ),
      e.Node < 0 → (e.Node = -1 ∨ ac.LeafBase e.Node + ac.LeafCount e.Node ≤ sc.prims.length) →
      S = (if e.Node < -1 then leafRange ac e.Node else []) →
      (ray.Ray.Tclosest < e.T → ∀ i ∈ S, ∀ t, hit i = some t → ray.Ray.Tclosest ≤ t) →
      ∃ n ray' m',
        (∀ fuel, traceLoop ac sc (fuel + n) (e :: stack) ray m
          = traceLoop ac sc fuel stack ray' m') ∧
        IsMinOver hit S ray.Ray.Tclosest ray'.Ray.Tclosest ∧
        Tracks ray.Ray.Tclosest m ray'.Ray.Tclosest m' := by
    intro e stack ray m S hneg hrange hS hinv
    by_cases hT : ray.Ray.Tclosest < e.T
    · exact ⟨1, ray, m, fun fuel => traceLoop_pruned ac sc fuel e stack ray m hT,
        isMinOver_of_no_closer (hinv hT), Or.inl ⟨rfl, rfl⟩⟩
    · by_cases hleaf : e.Node < -1
      · have hle : ac.LeafBase e.Node + ac.LeafCount e.Node ≤ sc.prims.length := by
          rcases hrange with h1 | h1
          · omega
          · exact h1
        rw [if_pos hleaf] at hS
        have hvalid : ∀ i ∈ leafRange ac e.Node, i < sc.prims.length := by
          intro i hi
          unfold leafRange at hi
          rw [List.mem_range'_1] at hi
          omega
        obtain ⟨ray', m', hl, hc, htr⟩ := traceLeaf_spec hp (leafRange ac e.Node) ray m hvalid
        refine ⟨1, ray', m', fun fuel => traceLoop_leaf ac sc fuel e stack ray ray' m m' hT hleaf hl,
          ?_, htr⟩
        rw [hS, hc]
        exact minHit_isMinOver hit _ _
      · have hm1 : e.Node = -1 := by omega
        rw [if_neg hleaf] at hS
        refine ⟨1, ray, m, fun fuel => traceLoop_empty ac sc fuel e stack ray m hm1,
          isMinOver_of_no_closer ?_, Or.inl ⟨rfl, rfl⟩⟩
        rw [hS]; simp
  intro h
  induction h with
  | zero =>
    intro e stack ray m _ hwf hinv
    simp only [wellFormedRef, Bool.and_eq_true, Bool.or_eq_true, decide_eq_true_eq] at hwf
    exact leafCase e stack ray m _ hwf.1 hwf.2 (by simp [subtreePrims]) hinv
  | succ h ih =>
    intro e stack ray m hcap hwf hinv
    by_cases hinner : 0 ≤ e.Node
    · rw [wellFormedRef, if_pos hinner] at hwf
      cases hn : sc.nodes[e.Node.toNat]? with
      | none => rw [hn] at hwf; cases hwf
      | some pnode =>
        rw [hn] at hwf
        simp only [List.all_eq_true] at hwf
        have hsub : subtreePrims ac sc (h + 1) e.Node
            = (List.finRange 4).flatMap fun k => subtreePrims ac sc h (pnode.Children k) := by
          rw [subtreePrims, if_pos hinner, hn]
        rw [hsub] at hinv ⊢
        by_cases hT : ray.Ray.Tclosest < e.T
        · exact ⟨1, ray, m, fun fuel => traceLoop_pruned ac sc fuel e stack ray m hT,
            isMinOver_of_no_closer (hinv hT), Or.inl ⟨rfl, rfl⟩⟩
        · -- the children that are pushed
          have hes : ∀ e' ∈ ((pushOrder ray.Ray.D pnode).filter fun k =>
                decide ((ac.rayNodeIntersectAllASM ray.Ray e.Node.toNat).1 k ≠ 0)).reverse.map
                fun k => (⟨pnode.Children k,
                  (ac.rayNodeIntersectAllASM ray.Ray e.Node.toNat).2 k⟩ : StackEntry α),
              wellFormedRef ac sc h e'.Node = true ∧
              ∀ i ∈ subtreePrims ac sc h e'.Node, ∀ t, hit i = some t →
                t < ray.Ray.Tclosest → e'.T ≤ t := by
            intro e' he'
            obtain ⟨k, _, rfl⟩ := List.mem_map.1 he'
            refine ⟨hwf k (List.mem_finRange k), ?_⟩
            intro i hi t ht hlt
            exact (hb _ pnode hn ray.Ray k h i t hi ht (le_of_lt hlt)).2
          have hlen := pushed_length_le pnode
            (ac.rayNodeIntersectAllASM ray.Ray e.Node.toNat).1
            (ac.rayNodeIntersectAllASM ray.Ray e.Node.toNat).2 (pushOrder ray.Ray.D pnode)
          rw [← pushOrder_reverse_length] at hlen
          obtain ⟨n, ray', m', run, hmin, htr⟩ :=
            traceLoop_entries h (ih) _ stack ray m (by omega) hes
          refine ⟨n + 1, ray', m', ?_, ?_, htr⟩
          · intro fuel
            rw [← Nat.add_assoc, traceLoop_inner ac sc (fuel + n) e stack ray m pnode hT hinner hn
              (by omega), pushChildren_eq, run]
          · obtain ⟨a1, a2, a3⟩ := hmin
            refine ⟨a1, ?_, ?_⟩
            · intro i hi t ht
              obtain ⟨k, _, hik⟩ := List.mem_flatMap.1 hi
              by_cases hk : (ac.rayNodeIntersectAllASM ray.Ray e.Node.toNat).1 k ≠ 0
              · refine a2 i ?_ t ht
                refine List.mem_flatMap.2 ⟨⟨pnode.Children k,
                  (ac.rayNodeIntersectAllASM ray.Ray e.Node.toNat).2 k⟩, ?_, hik⟩
                refine List.mem_map.2 ⟨k, ?_, rfl⟩
                rw [List.mem_reverse, List.mem_filter]
                exact ⟨mem_pushOrder _ _ k, by simpa using hk⟩
              · by_contra hcon
                have hlt : t < ray.Ray.Tclosest := lt_of_lt_of_le (not_le.1 hcon) a1
                exact hk (hb _ pnode hn ray.Ray k h i t hik ht (le_of_lt hlt)).1
            · rcases a3 with h3 | ⟨i, hi, hit_i⟩
              · exact Or.inl h3
              · right
                obtain ⟨e', he', hie'⟩ := List.mem_flatMap.1 hi
                obtain ⟨k, _, rfl⟩ := List.mem_map.1 he'
                exact ⟨i, List.mem_flatMap.2 ⟨k, List.mem_finRange k, hie'⟩, hit_i⟩
    · have hneg : e.Node < 0 := not_le.1 hinner
      rw [wellFormedRef, if_neg hinner] at hwf
      simp only [Bool.or_eq_true, decide_eq_true_eq] at hwf
      exact leafCase e stack ray m _ hneg hwf (by rw [subtreePrims, if_neg hinner]) hinv

omit [LinearOrder α] [Zero α] in
theorem subtreePrims_lt {ac : Accel α} {sc : Scene α} :
    ∀ (h : ℕ) (ref : ℤ), wellFormedRef ac sc h ref = true →
      ∀ i ∈ subtreePrims ac sc h ref, i < sc.prims.length := by
  have leafCase : ∀ ref : ℤ,
      (ref = -1 ∨ ac.LeafBase ref + ac.LeafCount ref ≤ sc.prims.length) →
      ∀ i ∈ (if ref < -1 then leafRange ac ref else []), i < sc.prims.length := by
    intro ref hr i hi
    by_cases hleaf : ref < -1
    · rw [if_pos hleaf] at hi
      unfold leafRange at hi
      rw [List.mem_range'_1] at hi
      rcases hr with h1 | h1 <;> omega
    · rw [if_neg hleaf] at hi; cases hi
  intro h
  induction h with
  | zero =>
    intro ref hwf i hi
    simp only [wellFormedRef, Bool.and_eq_true, Bool.or_eq_true, decide_eq_true_eq] at hwf
    exact leafCase ref hwf.2 i (by simpa [subtreePrims] using hi)
  | succ h ih =>
    intro ref hwf i hi
    by_cases hinner : 0 ≤ ref
    · rw [wellFormedRef, if_pos hinner] at hwf
      rw [subtreePrims, if_pos hinner] at hi
      cases hn : sc.nodes[ref.toNat]? with
      | none => rw [hn] at hwf; cases hwf
      | some pnode =>
        rw [hn] at hwf hi
        simp only [List.all_eq_true] at hwf
        obtain ⟨k, hk, hik⟩ := List.mem_flatMap.1 hi
        exact ih _ (hwf k hk) i hik
    · rw [wellFormedRef, if_neg hinner] at hwf
      simp only [Bool.or_eq_true, decide_eq_true_eq] at hwf
      rw [subtreePrims, if_neg hinner] at hi
      exact leafCase ref hwf i hi

omit [Zero α] in
theorem tracks_unchanged_iff {hit : ℕ → Option α} {S : List ℕ} {c c' : α} {m' : ℤ}
    (hmin : IsMinOver hit S c c') (htr : Tracks c (-1) c' m') :
    m' = -1 ↔ ∀ i ∈ S, ∀ t, hit i = some t → c ≤ t := by
  obtain ⟨a1, a2, a3⟩ := hmin
  constructor
  · intro hm
    rcases htr with ⟨_, hc⟩ | ⟨hlt, _⟩
    · intro i hi t ht
      rw [← hc]; exact a2 i hi t ht
    · omega
  · intro hall
    rcases htr with ⟨hm, _⟩ | ⟨_, hc⟩
    · exact hm
    · rcases a3 with h3 | ⟨i, hi, hit_i⟩
      · exact absurd hc (by rw [h3]; exact lt_irrefl _)
      · exact absurd (hall i hi _ hit_i) (not_le.2 hc)

end Order

end Traversal


section Visibility

variable {α : Type} [LinearOrder α]

omit [LinearOrder α] in
theorem cleanLog_append {ac : Accel α} {sc : Scene α} {ray : RayData α} {l₁ l₂ : List Visit}
    (h1 : CleanLog ac sc ray l₁) (h2 : CleanLog ac sc ray l₂) :
    CleanLog ac sc ray (l₁ ++ l₂) := by
  intro i hi
  rcases List.mem_append.1 hi with hi | hi
  · exact h1 i hi
  · exact h2 i hi

omit [LinearOrder α] in
theorem cleanLog_pop (ac : Accel α) (sc : Scene α) (ray : RayData α) (ref : ℤ) :
    CleanLog ac sc ray [Visit.pop ref] := by
  intro i hi
  simp at hi

omit [LinearOrder α] in
theorem visLeaf_spec {ac : Accel α} {sc : Scene α} {ray : RayData α}
    (hprim : ∀ (i : ℕ) (p : Primitive α), sc.prims[i]? = some p →
      ac.IsVis (p.VisRay ray) = true → p.VisRay ray = ray) :
    ∀ (S : List ℕ), (∀ i ∈ S, i < sc.prims.length) →
      ((∀ i ∈ S, ¬ Occludes ac sc ray i) ∧
        ∃ l, CleanLog ac sc ray l ∧
          ∀ log, visLeaf ac sc S ray log = some (ray, log ++ l, false)) ∨
      ((∃ i ∈ S, Occludes ac sc ray i) ∧
        ∃ l ray' i, CleanLog ac sc ray l ∧ ac.IsVis ray' = false ∧ Occludes ac sc ray i ∧
          ∀ log, visLeaf ac sc S ray log = some (ray', log ++ l ++ [Visit.test i], true)) := by
  intro S
  induction S with
  | nil =>
    intro _
    exact Or.inl ⟨by simp, [], by intro i hi; simp at hi, by simp [visLeaf]⟩
  | cons i S ih =>
    intro hS
    have hi : i < sc.prims.length := hS i (List.mem_cons_self _ _)
    have hS' : ∀ j ∈ S, j < sc.prims.length := fun j hj => hS j (List.mem_cons_of_mem _ hj)
    have hget : sc.prims[i]? = some sc.prims[i] := List.getElem?_eq_getElem hi
    cases hv : ac.IsVis (sc.prims[i].VisRay ray) with
    | false =>
      right
      refine ⟨⟨i, List.mem_cons_self _ _, _, hget, hv⟩, [], _, i, ?_, hv, ⟨_, hget, hv⟩, ?_⟩
      · intro j hj; simp at hj
      · intro log; simp [visLeaf, hget, hv]
    | true =>
      have hsame := hprim i _ hget hv
      have hnot : ¬ Occludes ac sc ray i := by
        rintro ⟨p, hp, hpv⟩
        rw [hget] at hp
        cases hp
        rw [hv] at hpv
        cases hpv
      have hstep : ∀ log, visLeaf ac sc (i :: S) ray log
          = visLeaf ac sc S ray (log ++ [Visit.test i]) := by
        intro log
        have hv' : ac.IsVis ray = true := by rw [← hsame]; exact hv
        simp [visLeaf, hget, hsame, hv']
      have hclean : CleanLog ac sc ray [Visit.test i] := by
        intro j hj
        simp only [List.mem_singleton, Visit.test.injEq] at hj
        rw [hj]; exact hnot
      rcases ih hS' with ⟨hno, l, hl, hrun⟩ | ⟨hex, l, ray', j, hl, hr, hj, hrun⟩
      · left
        refine ⟨?_, [Visit.test i] ++ l, cleanLog_append hclean hl, ?_⟩
        · intro j hj
          rcases List.mem_cons.1 hj with rfl | hj
          · exact hnot
          · exact hno j hj
        · intro log
          rw [hstep, hrun]
          simp only [List.append_assoc]
      · right
        obtain ⟨j', hj', hocc⟩ := hex
        refine ⟨⟨j', List.mem_cons_of_mem _ hj', hocc⟩, [Visit.test i] ++ l, ray', j,
          cleanLog_append hclean hl, hr, hj, ?_⟩
        intro log
        rw [hstep, hrun]
        simp only [List.append_assoc]

theorem visOutcome_nil (ac : Accel α) (sc : Scene α) (ray : RayData α) (room : ℕ) :
    VisOutcome ac sc ray room [] [] :=
  Or.inl ⟨by simp, 0, [], by intro i hi; simp at hi, by intro fuel stack log _; simp⟩

theorem visOutcome_cons {ac : Accel α} {sc : Scene α} {ray : RayData α} {S₁ S₂ : List ℕ}
    {e : StackEntry α} {es : List (StackEntry α)} {room₁ room₂ room : ℕ}
    (hr1 : room₁ + es.length ≤ room) (hr2 : room₂ ≤ room)
    (h1 : VisOutcome ac sc ray room₁ S₁ [e]) (h2 : VisOutcome ac sc ray room₂ S₂ es) :
    VisOutcome ac sc ray room (S₁ ++ S₂) (e :: es) := by
  have hroom1 : ∀ stack : List (StackEntry α), stack.length + room ≤ ac.StackCap →
      (es ++ stack).length + room₁ ≤ ac.StackCap := by
    intro stack hs
    rw [List.length_append]; omega
  rcases h1 with ⟨no1, n1, l1, c1, run1⟩ | ⟨ex1, n1, l1, ray1, i1, c1, v1, o1, run1⟩
  · rcases h2 with ⟨no2, n2, l2, c2, run2⟩ | ⟨ex2, n2, l2, ray2, i2, c2, v2, o2, run2⟩
    · left
      refine ⟨?_, n2 + n1, l1 ++ l2, cleanLog_append c1 c2, ?_⟩
      · intro i hi
        rcases List.mem_append.1 hi with hi | hi
        · exact no1 i hi
        · exact no2 i hi
      · intro fuel stack log hs
        have := run1 (fuel + n2) (es ++ stack) log (hroom1 stack hs)
        simp only [List.singleton_append] at this
        rw [← Nat.add_assoc, List.cons_append, this, run2 _ _ _ (by omega)]
        simp only [List.append_assoc]
    · right
      obtain ⟨i, hi, hocc⟩ := ex2
      refine ⟨⟨i, List.mem_append_right _ hi, hocc⟩, n2 + n1, l1 ++ l2, ray2, i2,
        cleanLog_append c1 c2, v2, o2, ?_⟩
      intro fuel stack log hs
      have := run1 (fuel + n2) (es ++ stack) log (hroom1 stack hs)
      simp only [List.singleton_append] at this
      rw [← Nat.add_assoc, List.cons_append, this, run2 _ _ _ (by omega)]
      simp only [List.append_assoc]
  · right
    obtain ⟨i, hi, hocc⟩ := ex1
    refine ⟨⟨i, List.mem_append_left _ hi, hocc⟩, n1, l1, ray1, i1, c1, v1, o1, ?_⟩
    intro fuel stack log hs
    have := run1 fuel (es ++ stack) log (hroom1 stack hs)
    simp only [List.singleton_append] at this
    rw [List.cons_append, this]

theorem visOutcome_step {ac : Accel α} {sc : Scene α} {ray : RayData α} {S S' : List ℕ}
    {e : StackEntry α} {es : List (StackEntry α)} {room room' : ℕ} (hr : room ≤ room')
    (hstep : ∀ fuel stack log, stack.length + room' ≤ ac.StackCap →
      visLoop ac sc (fuel + 1) (e :: stack) ray log
        = visLoop ac sc fuel (es ++ stack) ray (log ++ [Visit.pop e.Node]))
    (hS : ∀ i, Occludes ac sc ray i → (i ∈ S ↔ i ∈ S'))
    (h : VisOutcome ac sc ray room S es) : VisOutcome ac sc ray room' S' [e] := by
  rcases h with ⟨no, n, l, c, run⟩ | ⟨ex, n, l, ray', i, c, v, o, run⟩
  · left
    refine ⟨fun i hi hocc => no i ((hS i hocc).2 hi) hocc, n + 1, [Visit.pop e.Node] ++ l,
      cleanLog_append (cleanLog_pop ac sc ray _) c, ?_⟩
    intro fuel stack log hs
    rw [← Nat.add_assoc, List.singleton_append, hstep _ _ _ hs, run _ _ _ (by omega)]
    simp only [List.append_assoc]
  · right
    obtain ⟨j, hj, hocc⟩ := ex
    refine ⟨⟨j, (hS j hocc).1 hj, hocc⟩, n + 1, [Visit.pop e.Node] ++ l, ray', i,
      cleanLog_append (cleanLog_pop ac sc ray _) c, v, o, ?_⟩
    intro fuel stack log hs
    rw [← Nat.add_assoc, List.singleton_append, hstep _ _ _ hs, run _ _ _ (by omega)]
    simp only [List.append_assoc]

theorem visLoop_pruned (ac : Accel α) (sc : Scene α) (fuel : ℕ) (e : StackEntry α)
    (stack : List (StackEntry α)) (ray : RayData α) (log : List Visit)
    (h : ray.Ray.Tclosest < e.T) :
    visLoop ac sc (fuel + 1) (e :: stack) ray log
      = visLoop ac sc fuel ([] ++ stack) ray (log ++ [Visit.pop e.Node]) := by
  simp [visLoop, h]

theorem visLoop_empty (ac : Accel α) (sc : Scene α) (fuel : ℕ) (e : StackEntry α)
    (stack : List (StackEntry α)) (ray : RayData α) (log : List Visit) (h : e.Node = -1) :
    visLoop ac sc (fuel + 1) (e :: stack) ray log
      = visLoop ac sc fuel ([] ++ stack) ray (log ++ [Visit.pop e.Node]) := by
  simp [visLoop, h]

theorem visLoop_inner (ac : Accel α) (sc : Scene α) (fuel : ℕ) (e : StackEntry α)
    (stack : List (StackEntry α)) (ray : RayData α) (log : List Visit) (pnode : qbvh.Node)
    (hT : ¬ ray.Ray.Tclosest < e.T) (h : 0 ≤ e.Node)
    (hn : sc.nodes[e.Node.toNat]? = some pnode) (hcap : stack.length + 4 ≤ ac.StackCap) :
    visLoop ac sc (fuel + 1) (e :: stack) ray log
      = visLoop ac sc fuel
          (((List.finRange 4).filter fun k =>
              decide ((ac.rayNodeIntersectAllASM ray.Ray e.Node.toNat).1 k ≠ 0)).reverse.map
            (fun k => (⟨pnode.Children k,
              (ac.rayNodeIntersectAllASM ray.Ray e.Node.toNat).2 k⟩ : StackEntry α)) ++ stack)
          ray (log ++ [Visit.pop e.Node]) := by
  have hlen := pushChildren_length_le pnode (ac.rayNodeIntersectAllASM ray.Ray e.Node.toNat).1
    (ac.rayNodeIntersectAllASM ray.Ray e.Node.toNat).2 (List.finRange 4) stack
  rw [List.length_finRange] at hlen
  simp only [visLoop, hT, h, hn, if_false, if_true]
  rw [if_neg (by omega), pushChildren_eq]

theorem visLoop_leaf (ac : Accel α) (sc : Scene α) (fuel : ℕ) (e : StackEntry α)
    (stack : List (StackEntry α)) (ray : RayData α) (log : List Visit)
    (hT : ¬ ray.Ray.Tclosest < e.T) (h : e.Node < -1) :
    visLoop ac sc (fuel + 1) (e :: stack) ray log
      = match visLeaf ac sc (leafRange ac e.Node) ray (log ++ [Visit.pop e.Node]) with
        | none => none
        | some (ray', log', true) => some (ray', log')
        | some (ray', log', false) => visLoop ac sc fuel stack ray' log' := by
  have h0 : ¬ (0 ≤ e.Node) := by omega
  simp [visLoop, hT, h, h0]

theorem visLoop_entries {ac : Accel α} {sc : Scene α} {ray : RayData α} (h : ℕ)
    (single : ∀ e : StackEntry α, wellFormedRef ac sc h e.Node = true →
      (ray.Ray.Tclosest < e.T → ∀ i ∈ subtreePrims ac sc h e.Node, ¬ Occludes ac sc ray i) →
      VisOutcome ac sc ray (1 + 3 * h) (subtreePrims ac sc h e.Node) [e]) :
    ∀ es : List (StackEntry α),
      (∀ e ∈ es, wellFormedRef ac sc h e.Node = true ∧
        (ray.Ray.Tclosest < e.T →
          ∀ i ∈ subtreePrims ac sc h e.Node, ¬ Occludes ac sc ray i)) →
      VisOutcome ac sc ray (es.length + 3 * h)
        (es.flatMap fun e => subtreePrims ac sc h e.Node) es := by
  intro es
  induction es with
  | nil => intro _; exact visOutcome_nil ac sc ray _
  | cons e es ih =>
    intro hes
    obtain ⟨hwf, hinv⟩ := hes e (List.mem_cons_self _ _)
    rw [List.flatMap_cons]
    exact visOutcome_cons (by rw [List.length_cons]; omega) (by rw [List.length_cons]; omega)
      (single e hwf hinv) (ih fun e' he' => hes e' (List.mem_cons_of_mem _ he'))

theorem visLoop_subtree {ac : Accel α} {sc : Scene α} {ray : RayData α}
    (hp : VisRayKeeps ac sc ray) (hb : BoxTestConservativeVis ac sc ray) :
    ∀ (h : ℕ) (e : StackEntry α), wellFormedRef ac sc h e.Node = true →
      (ray.Ray.Tclosest < e.T → ∀ i ∈ subtreePrims ac sc h e.Node, ¬ Occludes ac sc ray i) →
      VisOutcome ac sc ray (1 + 3 * h) (subtreePrims ac sc h e.Node) [e] := by
  have leafCase : ∀ (e : StackEntry α) (S : List ℕ) (room : ℕ),
      e.Node < 0 → (e.Node = -1 ∨ ac.LeafBase e.Node + ac.LeafCount e.Node ≤ sc.prims.length) →
      S = (if e.Node < -1 then leafRange ac e.Node else []) →
      (ray.Ray.Tclosest < e.T → ∀ i ∈ S, ¬ Occludes ac sc ray i) →
      VisOutcome ac sc ray room S [e] := by
    intro e S room hneg hrange hS hinv
    by_cases hT : ray.Ray.Tclosest < e.T
    · exact visOutcome_step (le_refl room)
        (fun fuel stack log _ => visLoop_pruned ac sc fuel e stack ray log hT)
        (fun i hocc => ⟨fun hi => by simp at hi, fun hi => absurd hocc (hinv hT i hi)⟩)
        (visOutcome_nil ac sc ray room)
    · by_cases hleaf : e.Node < -1
      · have hle : ac.LeafBase e.Node + ac.LeafCount e.Node ≤ sc.prims.length := by
          rcases hrange with h1 | h1
          · omega
          · exact h1
        rw [if_pos hleaf] at hS
        have hvalid : ∀ i ∈ leafRange ac e.Node, i < sc.prims.length := by
          intro i hi
          unfold leafRange at hi
          rw [List.mem_range'_1] at hi
          omega
        rw [hS]
        rcases visLeaf_spec hp (leafRange ac e.Node) hvalid with
          ⟨hno, l, hl, hrun⟩ | ⟨hex, l, ray', j, hl, hr, hj, hrun⟩
        · left
          refine ⟨hno, 1, [Visit.pop e.Node] ++ l,
            cleanLog_append (cleanLog_pop ac sc ray _) hl, ?_⟩
          intro fuel stack log _
          rw [List.singleton_append, visLoop_leaf ac sc fuel e stack ray log hT hleaf, hrun]
          simp only [List.append_assoc]
        · right
          refine ⟨hex, 1, [Visit.pop e.Node] ++ l, ray', j,
            cleanLog_append (cleanLog_pop ac sc ray _) hl, hr, hj, ?_⟩
          intro fuel stack log _
          rw [List.singleton_append, visLoop_leaf ac sc fuel e stack ray log hT hleaf, hrun]
          simp only [List.append_assoc]
      · have hm1 : e.Node = -1 := by omega
        rw [if_neg hleaf] at hS
        rw [hS]
        exact visOutcome_step (le_refl room)
          (fun fuel stack log _ => visLoop_empty ac sc fuel e stack ray log hm1)
          (fun i _ => Iff.rfl) (visOutcome_nil ac sc ray room)
  intro h
  induction h with
  | zero =>
    intro e hwf hinv
    simp only [wellFormedRef, Bool.and_eq_true, Bool.or_eq_true, decide_eq_true_eq] at hwf
    exact leafCase e _ _ hwf.1 hwf.2 (by simp [subtreePrims]) hinv
  | succ h ih =>
    intro e hwf hinv
    by_cases hinner : 0 ≤ e.Node
    · rw [wellFormedRef, if_pos hinner] at hwf
      cases hn : sc.nodes[e.Node.toNat]? with
      | none => rw [hn] at hwf; cases hwf
      | some pnode =>
        rw [hn] at hwf
        simp only [List.all_eq_true] at hwf
        have hsub : subtreePrims ac sc (h + 1) e.Node
            = (List.finRange 4).flatMap fun k => subtreePrims ac sc h (pnode.Children k) := by
          rw [subtreePrims, if_pos hinner, hn]
        rw [hsub] at hinv ⊢
        by_cases hT : ray.Ray.Tclosest < e.T
        · exact visOutcome_step (le_refl _)
            (fun fuel stack log _ => visLoop_pruned ac sc fuel e stack ray log hT)
            (fun i hocc => ⟨fun hi => by simp at hi, fun hi => absurd hocc (hinv hT i hi)⟩)
            (visOutcome_nil ac sc ray _)
        · have hlen := pushed_length_le pnode
            (ac.rayNodeIntersectAllASM ray.Ray e.Node.toNat).1
            (ac.rayNodeIntersectAllASM ray.Ray e.Node.toNat).2 (List.finRange 4)
          rw [List.length_finRange] at hlen
          refine visOutcome_step (by omega)
            (fun fuel stack log hs =>
              visLoop_inner ac sc fuel e stack ray log pnode hT hinner hn (by omega))
            ?_ (visLoop_entries h ih _ ?_)
          · intro i hocc
            constructor
            · intro hi
              obtain ⟨e', he', hie'⟩ := List.mem_flatMap.1 hi
              obtain ⟨k, _, rfl⟩ := List.mem_map.1 he'
              exact List.mem_flatMap.2 ⟨k, List.mem_finRange k, hie'⟩
            · intro hi
              obtain ⟨k, _, hik⟩ := List.mem_flatMap.1 hi
              have hk := (hb _ pnode hn k h i hik hocc).1
              refine List.mem_flatMap.2 ⟨⟨pnode.Children k,
                (ac.rayNodeIntersectAllASM ray.Ray e.Node.toNat).2 k⟩, ?_, hik⟩
              refine List.mem_map.2 ⟨k, ?_, rfl⟩
              rw [List.mem_reverse, List.mem_filter]
              exact ⟨List.mem_finRange k, by simpa using hk⟩
          · intro e' he'
            obtain ⟨k, _, rfl⟩ := List.mem_map.1 he'
            refine ⟨hwf k (List.mem_finRange k), ?_⟩
            intro hlt i hi hocc
            exact absurd hlt (not_lt.2 (hb _ pnode hn k h i hi hocc).2)
    · have hneg : e.Node < 0 := not_le.1 hinner
      rw [wellFormedRef, if_neg hinner] at hwf
      simp only [Bool.or_eq_true, decide_eq_true_eq] at hwf
      exact leafCase e _ _ hneg hwf (by rw [subtreePrims, if_neg hinner]) hinv

omit [LinearOrder α] in
theorem cleanLog_last_test {ac : Accel α} {sc : Scene α} {ray : RayData α}
    {l pre post : List Visit} {i j : ℕ} (hl : CleanLog ac sc ray l)
    (hocc : Occludes ac sc ray j)
    (heq : l ++ [Visit.test i] = pre ++ Visit.test j :: post) : post = [] := by
  rcases List.eq_nil_or_concat post with hnil | ⟨post', z, hpost⟩
  · exact hnil
  · exfalso
    rw [hpost, List.concat_eq_append, ← List.cons_append, ← List.append_assoc] at heq
    have := (List.append_inj' heq rfl).1
    exact hl j (by rw [this]; simp) hocc

end Visibility

/-- C1: for a well-formed QBVH of height at most `h`, primitives that tighten
`Tclosest` exactly when hit strictly closer, a conservative box test, and a
`TopLevelStack` of at least `3 * h + 1` entries,
`Scene.traceRayAccel` returns (for every sufficient amount of fuel), its final
`Tclosest` equals the one of the linear scan over all primitives referenced by a leaf,
which is the minimum of the initial `Tclosest` and all hit parameters, and it returns
`-1` exactly when the scan does, which is exactly when no primitive is hit strictly
closer than the initial `Tclosest`. -/
theorem C1_traceRayAccel_eq_linearScan {α : Type} [LinearOrder α] [Zero α]
    (ac : Accel α) (sc : Scene α) (hit : ℕ → Option α) (h : ℕ) (ray : RayData α)
    (hwf : wellFormedRef ac sc h 0 = true) (hp : PrimsTighten sc hit)
    (hb : BoxTestConservative ac sc hit) (hcap : 3 * h + 1 ≤ ac.StackCap) :
    ∃ ray' mtlid rayS mtlidS,
      (∃ n, ∀ fuel, n ≤ fuel → traceRayAccel ac sc fuel ray = some (ray', mtlid)) ∧
      linearScan sc (subtreePrims ac sc h 0) ray = some (rayS, mtlidS) ∧
      ray'.Ray.Tclosest = rayS.Ray.Tclosest ∧
      ray'.Ray.Tclosest = minHit hit (subtreePrims ac sc h 0) ray.Ray.Tclosest ∧
      (mtlid = -1 ↔ mtlidS = -1) ∧
      (mtlid = -1 ↔
        ∀ i ∈ subtreePrims ac sc h 0, ∀ t, hit i = some t → ray.Ray.Tclosest ≤ t) := by
  obtain ⟨n, ray', m', run, hmin, htr⟩ :=
    traceLoop_subtree hp hb h ⟨0, ray.Ray.Tclosest⟩ [] ray (-1)
      (by simp only [List.length_nil]; omega) hwf (fun hlt => absurd hlt (lt_irrefl _))
  obtain ⟨rayS, mS, hscan, hcS, htrS⟩ :=
    traceLeaf_spec hp (subtreePrims ac sc h 0) ray (-1) (subtreePrims_lt h 0 hwf)
  have hminS : IsMinOver hit (subtreePrims ac sc h 0) ray.Ray.Tclosest rayS.Ray.Tclosest := by
    rw [hcS]; exact minHit_isMinOver hit _ _
  have heq : ray'.Ray.Tclosest = rayS.Ray.Tclosest := isMinOver_unique hmin hminS
  refine ⟨ray', m', rayS, mS, ⟨n, ?_⟩, hscan, heq, by rw [heq, hcS], ?_, ?_⟩
  · intro fuel hfuel
    have hrun := run (fuel - n)
    rw [Nat.sub_add_cancel hfuel] at hrun
    unfold traceRayAccel
    rw [if_neg (by omega), hrun]
    cases (fuel - n) <;> rfl
  · rw [tracks_unchanged_iff hmin htr, tracks_unchanged_iff hminS htrS]
  · exact tracks_unchanged_iff hmin htr

theorem examplePrimsTighten : PrimsTighten exampleScene exampleHit := by
  intro i p hget ray
  cases i with
  | zero =>
    simp only [exampleScene, List.getElem?_cons_zero, Option.some.injEq] at hget
    subst hget
    simp only [exampleHit, if_true]
    by_cases h5 : 5 < ray.Ray.Tclosest
    · simp [examplePrim, h5]
    · simp [examplePrim, h5]
  | succ j => simp [exampleScene] at hget

theorem exampleBoxTestConservative : BoxTestConservative exampleAccel exampleScene exampleHit := by
  intro n pnode _ r k h i t _ hhit _
  refine ⟨by simp [exampleAccel], ?_⟩
  have ht : t = 5 := by
    unfold exampleHit at hhit
    split at hhit
    · exact (Option.some.inj hhit).symm
    · cases hhit
  simp [exampleAccel, ht]

/-- Witness for C1 on the example scene. -/
theorem C1_traceRayAccel_eq_linearScan_witness :
    (wellFormedRef exampleAccel exampleScene 1 0 = true ∧
      PrimsTighten exampleScene exampleHit ∧
      BoxTestConservative exampleAccel exampleScene exampleHit ∧
      3 * 1 + 1 ≤ exampleAccel.StackCap) ∧
    ∃ ray' mtlid rayS mtlidS,
      (∃ n, ∀ fuel, n ≤ fuel →
        traceRayAccel exampleAccel exampleScene fuel exampleRay = some (ray', mtlid)) ∧
      linearScan exampleScene (subtreePrims exampleAccel exampleScene 1 0) exampleRay
        = some (rayS, mtlidS) ∧
      ray'.Ray.Tclosest = rayS.Ray.Tclosest ∧
      ray'.Ray.Tclosest
        = minHit exampleHit (subtreePrims exampleAccel exampleScene 1 0)
            exampleRay.Ray.Tclosest ∧
      (mtlid = -1 ↔ mtlidS = -1) ∧
      (mtlid = -1 ↔
        ∀ i ∈ subtreePrims exampleAccel exampleScene 1 0, ∀ t, exampleHit i = some t →
          exampleRay.Ray.Tclosest ≤ t) :=
  ⟨⟨by decide, examplePrimsTighten, exampleBoxTestConservative, by decide⟩,
    C1_traceRayAccel_eq_linearScan exampleAccel exampleScene exampleHit 1 exampleRay
      (by decide) examplePrimsTighten exampleBoxTestConservative (by decide)⟩

/-- C2 (the claim fails as worded): on a well-formed tree without primitives and with a
conservative box test, a ray that is marked occluded before the call is still marked
occluded after `visRayAccel`, although no primitive referenced by a leaf marks it. And
on a well-formed tree with a conservative box test whose child 3 is a leaf over a
primitive that shortens the ray without marking it occluded and whose child 0 is a leaf
over a primitive that marks the initial ray occluded, `visRayAccel` pops child 3 first,
tests both primitives and leaves the ray unoccluded. -/
theorem C2_visRayAccel_differs_from_scan :
    (wellFormedRef exampleAccel exampleSceneNoLeaves 1 0 = true ∧
      BoxTestConservativeVis exampleAccel exampleSceneNoLeaves exampleOccludedRay ∧
      subtreePrims exampleAccel exampleSceneNoLeaves 1 0 = [] ∧
      (visRayAccel exampleAccel exampleSceneNoLeaves 10 exampleOccludedRay).map
        (fun r => exampleAccel.IsVis r.1) = some false) ∧
    (wellFormedRef exampleAccelTwoLeaves exampleSceneTwoLeaves 1 0 = true ∧
      BoxTestConservativeVis exampleAccelTwoLeaves exampleSceneTwoLeaves exampleRay ∧
      exampleAccelTwoLeaves.IsVis exampleRay = true ∧
      subtreePrims exampleAccelTwoLeaves exampleSceneTwoLeaves 1 0 = [0, 1] ∧
      Occludes exampleAccelTwoLeaves exampleSceneTwoLeaves exampleRay 0 ∧
      (visRayAccel exampleAccelTwoLeaves exampleSceneTwoLeaves 10 exampleRay).map
        (fun r => (exampleAccelTwoLeaves.IsVis r.1, r.2))
        = some (true, [Visit.pop 0, Visit.pop (-3), Visit.test 1, Visit.pop (-1),
            Visit.pop (-1), Visit.pop (-2), Visit.test 0])) := by
  refine ⟨⟨by decide, ?_, by decide, by decide⟩,
    ⟨by decide, ?_, by decide, by decide, ⟨examplePrim, rfl, by decide⟩, by decide⟩⟩
  · intro n pnode _ k h i _ _
    simp [exampleAccel, exampleOccludedRay]
  · intro n pnode _ k h i _ _
    simp [exampleAccelTwoLeaves, exampleAccel, exampleRay]

/-- C2 (amended): for a well-formed QBVH of height at most `h`, a ray that is unoccluded
at the start, primitives whose `VisRay` leaves the ray as it is unless it marks it
occluded, a conservative box test, and a `TopLevelStack` of at least `3 * h + 1`
entries, `Scene.visRayAccel` returns (for every sufficient amount
of fuel) with the ray marked occluded if and only if some primitive referenced by a
leaf marks the ray occluded; and in the record of its pops and primitive tests
nothing follows the test of a primitive that marks the ray occluded. -/
theorem C2_visRayAccel_occluded_iff {α : Type} [LinearOrder α]
    (ac : Accel α) (sc : Scene α) (h : ℕ) (ray : RayData α)
    (hwf : wellFormedRef ac sc h 0 = true) (hvis : ac.IsVis ray = true)
    (hp : VisRayKeeps ac sc ray) (hb : BoxTestConservativeVis ac sc ray)
    (hcap : 3 * h + 1 ≤ ac.StackCap) :
    ∃ ray' log,
      (∃ n, ∀ fuel, n ≤ fuel → visRayAccel ac sc fuel ray = some (ray', log)) ∧
      (ac.IsVis ray' = false ↔ ∃ i ∈ subtreePrims ac sc h 0, Occludes ac sc ray i) ∧
      (∀ pre i post, log = pre ++ Visit.test i :: post → Occludes ac sc ray i →
        post = []) := by
  have hroot := visLoop_subtree hp hb h ⟨0, ray.Ray.Tclosest⟩ hwf
    (fun hlt => absurd hlt (lt_irrefl _))
  rcases hroot with ⟨hno, n, l, hl, run⟩ | ⟨hex, n, l, ray', j, hl, hr, hj, run⟩
  · refine ⟨ray, l, ⟨n, ?_⟩, ?_, ?_⟩
    · intro fuel hfuel
      have hrun := run (fuel - n) [] [] (by simp only [List.length_nil]; omega)
      rw [Nat.sub_add_cancel hfuel] at hrun
      unfold visRayAccel
      rw [List.append_nil] at hrun
      rw [if_neg (by omega), hrun, List.nil_append]
      cases (fuel - n) <;> rfl
    · constructor
      · intro hfalse; rw [hvis] at hfalse; cases hfalse
      · rintro ⟨i, hi, hocc⟩; exact absurd hocc (hno i hi)
    · intro pre i post heq hocc
      exact absurd hocc (hl i (by rw [heq]; simp))
  · refine ⟨ray', l ++ [Visit.test j], ⟨n, ?_⟩, ?_, ?_⟩
    · intro fuel hfuel
      have hrun := run (fuel - n) [] [] (by simp only [List.length_nil]; omega)
      rw [Nat.sub_add_cancel hfuel] at hrun
      unfold visRayAccel
      rw [List.append_nil] at hrun
      rw [if_neg (by omega), hrun, List.nil_append]
    · exact ⟨fun _ => hex, fun _ => hr⟩
    · intro pre i post heq hocc
      exact cleanLog_last_test hl hocc heq

theorem exampleVisRayKeeps : VisRayKeeps exampleAccel exampleScene exampleRay := by
  intro i p hget hv
  cases i with
  | zero =>
    simp only [exampleScene, List.getElem?_cons_zero, Option.some.injEq] at hget
    subst hget
    simp [examplePrim, exampleAccel, exampleRay] at hv
  | succ j => simp [exampleScene] at hget

theorem exampleBoxTestConservativeVis :
    BoxTestConservativeVis exampleAccel exampleScene exampleRay := by
  intro n pnode _ k h i _ _
  simp [exampleAccel, exampleRay]

/-- Witness for C2 on the example scene. -/
theorem C2_visRayAccel_occluded_iff_witness :
    (wellFormedRef exampleAccel exampleScene 1 0 = true ∧
      exampleAccel.IsVis exampleRay = true ∧
      VisRayKeeps exampleAccel exampleScene exampleRay ∧
      BoxTestConservativeVis exampleAccel exampleScene exampleRay ∧
      3 * 1 + 1 ≤ exampleAccel.StackCap) ∧
    ∃ ray' log,
      (∃ n, ∀ fuel, n ≤ fuel →
        visRayAccel exampleAccel exampleScene fuel exampleRay = some (ray', log)) ∧
      (exampleAccel.IsVis ray' = false ↔
        ∃ i ∈ subtreePrims exampleAccel exampleScene 1 0,
          Occludes exampleAccel exampleScene exampleRay i) ∧
      (∀ pre i post, log = pre ++ Visit.test i :: post →
        Occludes exampleAccel exampleScene exampleRay i → post = []) :=
  ⟨⟨by decide, by decide, exampleVisRayKeeps, exampleBoxTestConservativeVis, by decide⟩,
    C2_visRayAccel_occluded_iff exampleAccel exampleScene 1 exampleRay
      (by decide) (by decide) exampleVisRayKeeps exampleBoxTestConservativeVis (by decide)⟩

/-- C3: in exact rational arithmetic the accumulator of a channel after iteration `k`
is the arithmetic mean of the clamped, scaled samples of iterations `0..k`, whatever
the buffer held before iteration 0. -/
theorem C3_running_mean (buf : ℚ) (s : ℕ → ℚ) (k : ℕ) :
    accAfter buf s k
      = (∑ n in Finset.range (k + 1), Clamp (s n * 1000) 0 255) / (((k + 1 : ℕ)) : ℚ) := by
  induction k with
  | zero => simp [accAfter, renderFuncChannel]
  | succ k ih =>
    rw [accAfter, ih, renderFuncChannel, Finset.sum_range_succ _ (k + 1)]
    have h1 : (((k + 1 : ℕ)) : ℚ) ≠ 0 := by positivity
    rw [div_mul_cancel₀ _ h1]

/-- C4: for a 100x100 image `Render` enqueues the work item (64, 64, 64, 64), which is
not clipped (64 + 64 > 100), and `renderFunc` writes for its pixel (63, 63) the
accumulator index ((63+64) + (63+64)*100)*3, which is not below 100*100*3. -/
theorem C4_border_tile_not_clipped :
    ({ x := 64, y := 64, w := 64, h := 64 } : WorkItem) ∈ renderWorkItems 100 100 ∧
    ¬ (64 + 64 ≤ 100) ∧
    sampleIndex 100 { x := 64, y := 64, w := 64, h := 64 } 63 63 0
      ∈ writtenIndices 100 { x := 64, y := 64, w := 64, h := 64 } ∧
    ¬ (sampleIndex 100 { x := 64, y := 64, w := 64, h := 64 } 63 63 0 < 100 * 100 * 3) := by
  refine ⟨by decide, by decide, ?_, by decide⟩
  refine List.mem_flatMap.2 ⟨63, by simp, List.mem_flatMap.2 ⟨63, by simp, ?_⟩⟩
  simp

/-- C5: for a 100x100 image the distinct work items (0, 0, 64, 64) and (64, 0, 64, 64)
of one iteration both write accumulator index 300: the first for its pixel (0, 1), the
second for its pixel (36, 0), whose column 100 lies outside the image. -/
theorem C5_tiles_overlap :
    ({ x := 0, y := 0, w := 64, h := 64 } : WorkItem) ∈ renderWorkItems 100 100 ∧
    ({ x := 64, y := 0, w := 64, h := 64 } : WorkItem) ∈ renderWorkItems 100 100 ∧
    ({ x := 0, y := 0, w := 64, h := 64 } : WorkItem) ≠ { x := 64, y := 0, w := 64, h := 64 } ∧
    300 ∈ writtenIndices 100 { x := 0, y := 0, w := 64, h := 64 } ∧
    300 ∈ writtenIndices 100 { x := 64, y := 0, w := 64, h := 64 } := by
  refine ⟨by decide, by decide, by decide, ?_, ?_⟩
  · refine List.mem_flatMap.2 ⟨1, by simp, List.mem_flatMap.2 ⟨0, by simp, ?_⟩⟩
    simp [sampleIndex]
  · refine List.mem_flatMap.2 ⟨0, by simp, List.mem_flatMap.2 ⟨36, by simp, ?_⟩⟩
    simp [sampleIndex]

section RenderLoop

variable {α : Type}

theorem forEach_inv {σ ι : Type} (P : σ → Prop) (body : ι → σ → Option σ) :
    ∀ (xs : List ι), (∀ x ∈ xs, ∀ s, P s → ∃ s', body x s = some s' ∧ P s') →
      ∀ s, P s → ∃ s', forEach body xs s = some s' ∧ P s' := by
  intro xs
  induction xs with
  | nil => intro _ s hs; exact ⟨s, rfl, hs⟩
  | cons x xs ih =>
    intro h s hs
    obtain ⟨s1, h1, hp1⟩ := h x (List.mem_cons_self _ _) s hs
    obtain ⟨s2, h2, hp2⟩ := ih (fun y hy => h y (List.mem_cons_of_mem _ hy)) s1 hp1
    exact ⟨s2, by rw [forEach, h1]; exact h2, hp2⟩

theorem writeSample_length (n : ℕ) (buf : List ℚ) (idx : ℕ) (s : ℚ) (h : idx < buf.length) :
    ∃ buf', writeSample n buf idx s = some buf' ∧ buf'.length = buf.length := by
  refine ⟨buf.set idx (renderFuncChannel n buf[idx] s), ?_, List.length_set _ _ _⟩
  unfold writeSample
  rw [List.getElem?_eq_getElem h]

theorem renderFuncPixel_length (rgb : ℚ × ℚ × ℚ) (n frameW : ℕ) (w : WorkItem) (i j : ℕ)
    (buf : List ℚ) (h : sampleIndex frameW w i j 2 < buf.length) :
    ∃ buf', renderFuncPixel (some rgb) n frameW w i j buf = some buf' ∧
      buf'.length = buf.length := by
  obtain ⟨r, g, b⟩ := rgb
  have h0 : sampleIndex frameW w i j 0 < buf.length := by unfold sampleIndex at h ⊢; omega
  obtain ⟨b0, e0, l0⟩ := writeSample_length n buf _ r h0
  have h1 : sampleIndex frameW w i j 1 < b0.length := by
    rw [l0]; unfold sampleIndex at h ⊢; omega
  obtain ⟨b1, e1, l1⟩ := writeSample_length n b0 _ g h1
  have h2 : sampleIndex frameW w i j 2 < b1.length := by rw [l1, l0]; exact h
  obtain ⟨b2, e2, l2⟩ := writeSample_length n b1 _ b h2
  refine ⟨b2, ?_, by rw [l2, l1, l0]⟩
  simp only [renderFuncPixel, e0, e1, e2]

theorem tileStarts_mem (limit : ℕ) :
    ∀ (fuel i s : ℕ), s ∈ tileStarts limit fuel i → s < limit ∧ s % 64 = i % 64 := by
  intro fuel
  induction fuel with
  | zero => intro i s hs; simp [tileStarts] at hs
  | succ fuel ih =>
    intro i s hs
    rw [tileStarts] at hs
    by_cases hi : i < limit
    · rw [if_pos hi] at hs
      rcases List.mem_cons.1 hs with rfl | hs
      · exact ⟨hi, rfl⟩
      · obtain ⟨h1, h2⟩ := ih (i + TILESIZE) s hs
        refine ⟨h1, ?_⟩
        rw [h2]
        unfold TILESIZE
        omega
    · rw [if_neg hi] at hs
      cases hs

theorem renderWorkItems_mem (X Y : ℕ) (w : WorkItem) (hw : w ∈ renderWorkItems X Y) :
    w.w = 64 ∧ w.h = 64 ∧ w.x < X ∧ w.x % 64 = 0 ∧ w.y < Y ∧ w.y % 64 = 0 := by
  unfold renderWorkItems at hw
  obtain ⟨j, hj, hw⟩ := List.mem_flatMap.1 hw
  obtain ⟨i, hi, rfl⟩ := List.mem_map.1 hw
  obtain ⟨i1, i2⟩ := tileStarts_mem X X 0 i hi
  obtain ⟨j1, j2⟩ := tileStarts_mem Y Y 0 j hj
  exact ⟨rfl, rfl, i1, i2, j1, j2⟩

theorem sampleIndex_lt (X Y : ℕ) (w : WorkItem) (i j : ℕ) (hX : X % 64 = 0)
    (hY : Y % 64 = 0) (hx : w.x < X) (hx64 : w.x % 64 = 0) (hy : w.y < Y)
    (hy64 : w.y % 64 = 0) (hi : i < 64) (hj : j < 64) :
    sampleIndex X w i j 2 < X * Y * 3 := by
  unfold sampleIndex
  have hrow : (j + w.y + 1) * X ≤ Y * X := Nat.mul_le_mul_right X (by omega)
  rw [Nat.add_mul, Nat.one_mul] at hrow
  have hcol : i + w.x < X := by omega
  rw [Nat.mul_comm X Y]
  omega

theorem renderFuncItem_length (pix : ℕ → ℕ → Option (ℚ × ℚ × ℚ)) (n X Y : ℕ) (w : WorkItem)
    (hpix : ∀ x y, pix x y ≠ none) (hX : X % 64 = 0) (hY : Y % 64 = 0)
    (hw : w ∈ renderWorkItems X Y) (buf : List ℚ) (hbuf : buf.length = X * Y * 3) :
    ∃ buf', renderFuncItem pix n X w buf = some buf' ∧ buf'.length = X * Y * 3 := by
  obtain ⟨w1, w2, hx, hx64, hy, hy64⟩ := renderWorkItems_mem X Y w hw
  unfold renderFuncItem
  apply forEach_inv (fun b => b.length = X * Y * 3) _ _ _ buf hbuf
  intro j hj b hb
  apply forEach_inv (fun b => b.length = X * Y * 3) _ _ _ b hb
  intro i hi b' hb'
  rw [List.mem_range] at hi hj
  obtain ⟨rgb, hrgb⟩ := Option.ne_none_iff_exists'.1 (hpix (i + w.x) (j + w.y))
  rw [hrgb]
  obtain ⟨b'', e, l⟩ := renderFuncPixel_length rgb n X w i j b'
    (by rw [hb']; exact sampleIndex_lt X Y w i j hX hY hx hx64 hy hy64 (by omega) (by omega))
  refine ⟨b'', e, ?_⟩
  show b''.length = X * Y * 3
  rw [l, hb']

theorem renderIteration_length (g : Globals) (pix : ℕ → ℕ → Option (ℚ × ℚ × ℚ)) (n : ℕ)
    (hpix : ∀ x y, pix x y ≠ none) (hX : g.XRes.toNat % 64 = 0) (hY : g.YRes.toNat % 64 = 0)
    (hworkers : 1 ≤ g.MaxGoRoutines) (buf : List ℚ)
    (hbuf : buf.length = g.XRes.toNat * g.YRes.toNat * 3) :
    ∃ buf', renderIteration g pix n buf = some buf' ∧
      buf'.length = g.XRes.toNat * g.YRes.toNat * 3 := by
  unfold renderIteration
  have hno : decide (g.MaxGoRoutines ≤ 0) = false := by
    rw [decide_eq_false_iff_not]; omega
  simp only [hno, Bool.false_and, Bool.false_eq_true, if_false]
  apply forEach_inv (fun b => b.length = g.XRes.toNat * g.YRes.toNat * 3) _ _ _ buf hbuf
  intro w hw b hb
  exact renderFuncItem_length pix n _ _ w hpix hX hY hw b hb

theorem renderLoop_ended (rc : RenderContext α) (ToRGB : ℚ → ℚ × ℚ × ℚ)
    (bounce : ℕ → ℕ → ℕ → ℕ → Bounce) (camera : Node α) (maxIter : ℤ) (ext : ℕ → Bool) :
    ∀ (fuel k : ℕ) (buf : List ℚ) (out : RenderOutcome α),
      renderLoop rc ToRGB bounce camera maxIter ext fuel k false buf = .ended out →
      ∃ j, k ≤ j ∧ out = .done camera (j + 1) ∧ finishSignal maxIter ext j = true ∧
        ∀ i, k ≤ i → i < j → finishSignal maxIter ext i = false := by
  intro fuel
  induction fuel with
  | zero => intro k buf out h; cases h
  | succ fuel ih =>
    intro k buf out h
    rw [renderLoop] at h
    simp only [Bool.false_or, Bool.and_false, Bool.false_eq_true, if_false] at h
    cases hb : renderIteration rc.globals (fun x y => samplePixel rc ToRGB (bounce k x y)) k buf with
    | none => rw [hb] at h; cases h
    | some buf' =>
      rw [hb] at h
      simp only at h
      cases hs : finishSignal maxIter ext k with
      | true =>
        have hs' := hs
        unfold finishSignal at hs'
        rw [hs', if_pos rfl] at h
        refine ⟨k, le_refl _, ?_, hs, fun i h1 h2 => by omega⟩
        cases h; rfl
      | false =>
        have hs' := hs
        unfold finishSignal at hs'
        rw [hs'] at h
        simp only [Bool.false_eq_true, if_false] at h
        obtain ⟨j, hj, ho, hsig, hbefore⟩ := ih (k + 1) buf' out h
        refine ⟨j, by omega, ho, hsig, ?_⟩
        intro i h1 h2
        by_cases hik : i = k
        · rw [hik]; exact hs
        · exact hbefore i (by omega) h2

theorem renderLoop_signal (rc : RenderContext α) (ToRGB : ℚ → ℚ × ℚ × ℚ)
    (bounce : ℕ → ℕ → ℕ → ℕ → Bounce) (camera : Node α) (maxIter : ℤ) (ext : ℕ → Bool)
    (L : ℕ)
    (hbody : ∀ k buf, buf.length = L →
      ∃ buf', renderIteration rc.globals (fun x y => samplePixel rc ToRGB (bounce k x y)) k buf
        = some buf' ∧ buf'.length = L) :
    ∀ (d k fuel : ℕ) (buf : List ℚ), buf.length = L →
      (∀ i, k ≤ i → i < k + d → finishSignal maxIter ext i = false) →
      finishSignal maxIter ext (k + d) = true → d + 1 ≤ fuel →
      renderLoop rc ToRGB bounce camera maxIter ext fuel k false buf
        = .ended (.done camera (k + d + 1)) := by
  intro d
  induction d with
  | zero =>
    intro k fuel buf hbuf _ hsig hfuel
    obtain ⟨fuel, rfl⟩ : ∃ f, fuel = f + 1 := ⟨fuel - 1, by omega⟩
    obtain ⟨buf', hb, _⟩ := hbody k buf hbuf
    simp only [finishSignal, Nat.add_zero] at hsig
    rw [renderLoop]
    simp only [Bool.false_or, Bool.and_false, Bool.false_eq_true, if_false, hb, hsig, if_true,
      Nat.add_zero]
  | succ d ih =>
    intro k fuel buf hbuf hno hsig hfuel
    obtain ⟨fuel, rfl⟩ : ∃ f, fuel = f + 1 := ⟨fuel - 1, by omega⟩
    obtain ⟨buf', hb, hl⟩ := hbody k buf hbuf
    have hk := hno k (le_refl _) (by omega)
    simp only [finishSignal] at hk
    have hnext := ih (k + 1) fuel buf' hl (fun i h1 h2 => hno i (by omega) (by omega))
      (by rw [show k + 1 + d = k + (d + 1) by omega]; exact hsig) (by omega)
    rw [renderLoop]
    simp only [Bool.false_or, Bool.and_false, Bool.false_eq_true, if_false, hb, hk]
    rw [hnext, show k + (d + 1) + 1 = k + 1 + d + 1 by omega]

theorem renderLoop_running (rc : RenderContext α) (ToRGB : ℚ → ℚ × ℚ × ℚ)
    (bounce : ℕ → ℕ → ℕ → ℕ → Bounce) (camera : Node α) (maxIter : ℤ) (ext : ℕ → Bool)
    (L : ℕ)
    (hbody : ∀ k buf, buf.length = L →
      ∃ buf', renderIteration rc.globals (fun x y => samplePixel rc ToRGB (bounce k x y)) k buf
        = some buf' ∧ buf'.length = L) :
    ∀ (fuel k : ℕ) (buf : List ℚ), buf.length = L →
      (∀ i, k ≤ i → finishSignal maxIter ext i = false) →
      renderLoop rc ToRGB bounce camera maxIter ext fuel k false buf = .running (k + fuel) := by
  intro fuel
  induction fuel with
  | zero => intro k buf _ _; rfl
  | succ fuel ih =>
    intro k buf hbuf hno
    obtain ⟨buf', hb, hl⟩ := hbody k buf hbuf
    have hk := hno k (le_refl _)
    simp only [finishSignal] at hk
    rw [renderLoop]
    simp only [Bool.false_or, Bool.and_false, Bool.false_eq_true, if_false, hb, hk]
    rw [ih (k + 1) buf' hl (fun i hi => hno i (by omega))]
    congr 1
    omega

theorem accumulator_length (XRes YRes : ℤ) (hx : 0 ≤ XRes) (hy : 0 ≤ YRes) :
    (XRes * YRes * 3).toNat = XRes.toNat * YRes.toNat * 3 := by
  obtain ⟨X, rfl⟩ := Int.eq_ofNat_of_zero_le hx
  obtain ⟨Y, rfl⟩ := Int.eq_ofNat_of_zero_le hy
  have hcast : ((X : ℤ) * (Y : ℤ) * 3) = ((X * Y * 3 : ℕ) : ℤ) := by push_cast; ring
  rw [hcast]
  rfl

/-- Every result of `Render` with a camera and an empty finish channel is a completed
render, after the first iteration that saw the finish signal. -/
theorem render_ended (rc : RenderContext α) (ToRGB : ℚ → ℚ × ℚ × ℚ)
    (bounce : ℕ → ℕ → ℕ → ℕ → Bounce) (camera : Node α) (maxIter : ℤ) (ext : ℕ → Bool)
    (fuel : ℕ) (hcam : renderCamera rc = some (some camera)) (hfin : rc.finish = false)
    (out : RenderOutcome α) (h : Render rc ToRGB bounce maxIter ext fuel = some out) :
    ∃ j, out = .done camera (j + 1) ∧ finishSignal maxIter ext j = true ∧
      ∀ i, i < j → finishSignal maxIter ext i = false := by
  unfold Render renderRun at h
  rw [hcam, hfin] at h
  simp only at h
  by_cases hneg : rc.globals.XRes * rc.globals.YRes * 3 < 0 ∨ rc.globals.MaxGoRoutines < 0
  · rw [if_pos hneg] at h
    cases h
  · rw [if_neg hneg] at h
    cases hl : renderLoop rc ToRGB bounce camera maxIter ext fuel 0 false
        (List.replicate (rc.globals.XRes * rc.globals.YRes * 3).toNat 0) with
    | ended out' =>
      rw [hl] at h
      simp only [Option.some.injEq] at h
      subst h
      obtain ⟨j, _, ho, hsig, hbefore⟩ := renderLoop_ended rc ToRGB bounce camera maxIter ext
        fuel 0 _ _ hl
      exact ⟨j, ho, hsig, fun i hi => hbefore i (Nat.zero_le _) hi⟩
    | failed => rw [hl] at h; cases h
    | running k => rw [hl] at h; cases h

/-- With a camera, an empty finish channel, a resolution whose sides are multiples of
the tile size, a worker, and samples that do not panic, the loop of `Render` is the
loop on an accumulator of the right length, every iteration of which completes. -/
theorem renderRun_loop (rc : RenderContext α) (ToRGB : ℚ → ℚ × ℚ × ℚ)
    (bounce : ℕ → ℕ → ℕ → ℕ → Bounce) (camera : Node α) (maxIter : ℤ) (ext : ℕ → Bool)
    (fuel : ℕ) (hcam : renderCamera rc = some (some camera)) (hfin : rc.finish = false)
    (hx : 0 ≤ rc.globals.XRes) (hx64 : rc.globals.XRes % 64 = 0)
    (hy : 0 ≤ rc.globals.YRes) (hy64 : rc.globals.YRes % 64 = 0)
    (hworkers : 1 ≤ rc.globals.MaxGoRoutines)
    (hsample : ∀ k x y, samplePixel rc ToRGB (bounce k x y) ≠ none) :
    (renderRun rc ToRGB bounce maxIter ext fuel
      = renderLoop rc ToRGB bounce camera maxIter ext fuel 0 false
          (List.replicate (rc.globals.XRes.toNat * rc.globals.YRes.toNat * 3) 0)) ∧
    ∀ k buf, buf.length = rc.globals.XRes.toNat * rc.globals.YRes.toNat * 3 →
      ∃ buf', renderIteration rc.globals (fun x y => samplePixel rc ToRGB (bounce k x y)) k buf
        = some buf' ∧ buf'.length = rc.globals.XRes.toNat * rc.globals.YRes.toNat * 3 := by
  refine ⟨?_, ?_⟩
  · unfold renderRun
    rw [hcam, hfin]
    simp only
    have hnn : ¬ (rc.globals.XRes * rc.globals.YRes * 3 < 0 ∨ rc.globals.MaxGoRoutines < 0) := by
      have := mul_nonneg hx hy
      omega
    rw [if_neg hnn, accumulator_length _ _ hx hy]
  · intro k buf hbuf
    exact renderIteration_length rc.globals _ k (hsample k) (by omega) (by omega) hworkers
      buf hbuf

theorem render_signal (rc : RenderContext α) (ToRGB : ℚ → ℚ × ℚ × ℚ)
    (bounce : ℕ → ℕ → ℕ → ℕ → Bounce) (camera : Node α) (maxIter : ℤ) (ext : ℕ → Bool)
    (hcam : renderCamera rc = some (some camera)) (hfin : rc.finish = false)
    (hx : 0 ≤ rc.globals.XRes) (hx64 : rc.globals.XRes % 64 = 0)
    (hy : 0 ≤ rc.globals.YRes) (hy64 : rc.globals.YRes % 64 = 0)
    (hworkers : 1 ≤ rc.globals.MaxGoRoutines)
    (hsample : ∀ k x y, samplePixel rc ToRGB (bounce k x y) ≠ none)
    (j : ℕ) (hj : finishSignal maxIter ext j = true)
    (hbefore : ∀ i, i < j → finishSignal maxIter ext i = false)
    (fuel : ℕ) (hfuel : j + 1 ≤ fuel) :
    Render rc ToRGB bounce maxIter ext fuel = some (.done camera (j + 1)) := by
  obtain ⟨hrun, hbody⟩ := renderRun_loop rc ToRGB bounce camera maxIter ext fuel hcam hfin
    hx hx64 hy hy64 hworkers hsample
  have h := renderLoop_signal rc ToRGB bounce camera maxIter ext
    (rc.globals.XRes.toNat * rc.globals.YRes.toNat * 3) hbody j 0 fuel
    (List.replicate (rc.globals.XRes.toNat * rc.globals.YRes.toNat * 3) 0)
    (List.length_replicate _ _)
    (fun i _ hi => hbefore i (by omega)) (by rw [Nat.zero_add]; exact hj) hfuel
  unfold Render
  rw [hrun, h, Nat.zero_add]

theorem render_running (rc : RenderContext α) (ToRGB : ℚ → ℚ × ℚ × ℚ)
    (bounce : ℕ → ℕ → ℕ → ℕ → Bounce) (camera : Node α) (maxIter : ℤ) (ext : ℕ → Bool)
    (hcam : renderCamera rc = some (some camera)) (hfin : rc.finish = false)
    (hx : 0 ≤ rc.globals.XRes) (hx64 : rc.globals.XRes % 64 = 0)
    (hy : 0 ≤ rc.globals.YRes) (hy64 : rc.globals.YRes % 64 = 0)
    (hworkers : 1 ≤ rc.globals.MaxGoRoutines)
    (hsample : ∀ k x y, samplePixel rc ToRGB (bounce k x y) ≠ none)
    (hno : ∀ i, finishSignal maxIter ext i = false) (fuel : ℕ) :
    renderRun rc ToRGB bounce maxIter ext fuel = .running fuel := by
  obtain ⟨hrun, hbody⟩ := renderRun_loop rc ToRGB bounce camera maxIter ext fuel hcam hfin
    hx hx64 hy hy64 hworkers hsample
  rw [hrun, renderLoop_running rc ToRGB bounce camera maxIter ext
    (rc.globals.XRes.toNat * rc.globals.YRes.toNat * 3) hbody fuel 0
    (List.replicate (rc.globals.XRes.toNat * rc.globals.YRes.toNat * 3) 0)
    (List.length_replicate _ _) (fun i _ => hno i), Nat.zero_add]

theorem exampleMissBounce_sample (rc : RenderContext α) (k x y : ℕ) :
    samplePixel rc exampleToRGB (exampleMissBounce k x y) ≠ none := by
  intro h
  cases h

end RenderLoop

/-- C6 (the claim fails for `maxIter = 0`): with a camera present, the default
resolution of 256 by 256, five workers, samples that do not panic and no external finish
signal, `Render` with `maxIter = 0` returns after one iteration, which is more than
`maxIter`. -/
theorem C6_maxIter_zero_renders_once :
    Render (buildContext [exampleCamera]) exampleToRGB exampleMissBounce 0 (fun _ => false) 1
      = some (.done exampleCamera 1) ∧ ¬ ((1 : ℤ) ≤ 0) := by
  refine ⟨?_, by decide⟩
  exact render_signal (buildContext [exampleCamera]) exampleToRGB exampleMissBounce
    exampleCamera 0 (fun _ => false) rfl rfl (by decide) (by decide) (by decide) (by decide)
    (by decide) (exampleMissBounce_sample _) 0 (by decide)
    (fun i hi => absurd hi (Nat.not_lt_zero i)) 1 (le_refl _)

/-- C6 (amended): when `Render` finds its camera and the finish channel is empty at the
start, then without an external finish signal and for every `maxIter ≥ 0` every return
of `Render` comes after `max maxIter 1` iterations, and for `maxIter < 0` it does not
return. When moreover the sides of the image are non-negative multiples of the tile
size, there is a worker and no sample panics, every iteration completes: for
`maxIter ≥ 0` and without an external finish signal `Render` returns, after
`max maxIter 1` iterations; for `maxIter < 0` it goes on iterating as long as there is no
external finish signal, and returns after iteration `j` when the first external signal
arrives during iteration `j`. -/
theorem C6_render_iterations {α : Type} (rc : RenderContext α) (ToRGB : ℚ → ℚ × ℚ × ℚ)
    (bounce : ℕ → ℕ → ℕ → ℕ → Bounce) (camera : Node α) (maxIter : ℤ)
    (hcam : renderCamera rc = some (some camera)) (hfin : rc.finish = false) :
    (0 ≤ maxIter → ∀ fuel out,
      Render rc ToRGB bounce maxIter (fun _ => false) fuel = some out →
        out = .done camera (max maxIter 1).toNat) ∧
    (maxIter < 0 → ∀ fuel, Render rc ToRGB bounce maxIter (fun _ => false) fuel = none) ∧
    ((0 ≤ rc.globals.XRes ∧ rc.globals.XRes % 64 = 0 ∧
        0 ≤ rc.globals.YRes ∧ rc.globals.YRes % 64 = 0 ∧
        1 ≤ rc.globals.MaxGoRoutines ∧
        ∀ k x y, samplePixel rc ToRGB (bounce k x y) ≠ none) →
      (0 ≤ maxIter → ∀ fuel, (max maxIter 1).toNat ≤ fuel →
        Render rc ToRGB bounce maxIter (fun _ => false) fuel
          = some (.done camera (max maxIter 1).toNat)) ∧
      (maxIter < 0 →
        (∀ fuel, renderRun rc ToRGB bounce maxIter (fun _ => false) fuel = .running fuel) ∧
        ∀ (ext : ℕ → Bool) (j : ℕ), ext j = true → (∀ i, i < j → ext i = false) →
          ∀ fuel, j + 1 ≤ fuel →
            Render rc ToRGB bounce maxIter ext fuel = some (.done camera (j + 1)))) := by
  have hsigF : ∀ i : ℕ, finishSignal maxIter (fun _ => false) i = true ↔
      (0 ≤ maxIter ∧ maxIter - 1 ≤ (i : ℤ)) := by
    intro i
    simp only [finishSignal, Bool.or_false, Bool.and_eq_true, decide_eq_true_eq]
  refine ⟨?_, ?_, ?_⟩
  · intro hpos fuel out h
    obtain ⟨j, ho, hsig, hbefore⟩ := render_ended rc ToRGB bounce camera maxIter
      (fun _ => false) fuel hcam hfin out h
    rw [ho]
    congr 1
    have h1 := (hsigF j).1 hsig
    by_cases hj : j = 0
    · omega
    · have h2 := hbefore (j - 1) (by omega)
      have h3 : ¬ (0 ≤ maxIter ∧ maxIter - 1 ≤ ((j - 1 : ℕ) : ℤ)) := by
        rw [← hsigF, h2]; exact Bool.false_ne_true
      omega
  · intro hneg fuel
    cases h : Render rc ToRGB bounce maxIter (fun _ => false) fuel with
    | none => rfl
    | some out =>
      exfalso
      obtain ⟨j, _, hsig, _⟩ := render_ended rc ToRGB bounce camera maxIter
        (fun _ => false) fuel hcam hfin out h
      have h1 := (hsigF j).1 hsig
      omega
  · rintro ⟨hx, hx64, hy, hy64, hworkers, hsample⟩
    refine ⟨?_, ?_⟩
    · intro hpos fuel hfuel
      have h := render_signal rc ToRGB bounce camera maxIter (fun _ => false) hcam hfin
        hx hx64 hy hy64 hworkers hsample ((max maxIter 1).toNat - 1)
        (by rw [hsigF]; omega)
        (by
          intro i hi
          have : ¬ (0 ≤ maxIter ∧ maxIter - 1 ≤ (i : ℤ)) := by omega
          rw [← hsigF] at this
          simpa using this)
        fuel (by omega)
      rw [h]
      congr 2
      omega
    · intro hneg
      have hnosig : ∀ (ext : ℕ → Bool) (i : ℕ),
          finishSignal maxIter ext i = ext i := by
        intro ext i
        have h0 : decide (0 ≤ maxIter) = false := by
          rw [decide_eq_false_iff_not]; omega
        simp only [finishSignal, h0, Bool.false_and, Bool.false_or]
      refine ⟨?_, ?_⟩
      · intro fuel
        exact render_running rc ToRGB bounce camera maxIter (fun _ => false) hcam hfin
          hx hx64 hy hy64 hworkers hsample (fun i => hnosig _ i) fuel
      · intro ext j hj hbefore fuel hfuel
        exact render_signal rc ToRGB bounce camera maxIter ext hcam hfin
          hx hx64 hy hy64 hworkers hsample j (by rw [hnosig]; exact hj)
          (fun i hi => by rw [hnosig]; exact hbefore i hi) fuel hfuel

/-- Witness for C6 (amended): a context with a camera, the default resolution of 256 by
256 and five workers, samples that do not panic, `maxIter = 3`: `Render` returns
after three iterations. -/
theorem C6_render_iterations_witness :
    (renderCamera (buildContext [exampleCamera]) = some (some exampleCamera) ∧
      (buildContext [exampleCamera]).finish = false ∧
      (0 : ℤ) ≤ 3 ∧
      (0 ≤ (buildContext [exampleCamera]).globals.XRes ∧
        (buildContext [exampleCamera]).globals.XRes % 64 = 0 ∧
        0 ≤ (buildContext [exampleCamera]).globals.YRes ∧
        (buildContext [exampleCamera]).globals.YRes % 64 = 0 ∧
        1 ≤ (buildContext [exampleCamera]).globals.MaxGoRoutines ∧
        ∀ k x y, samplePixel (buildContext [exampleCamera]) exampleToRGB
          (exampleMissBounce k x y) ≠ none)) ∧
    Render (buildContext [exampleCamera]) exampleToRGB exampleMissBounce 3 (fun _ => false) 3
      = some (.done exampleCamera (max (3 : ℤ) 1).toNat) :=
  ⟨⟨rfl, rfl, by decide, by decide, by decide, by decide, by decide, by decide,
      exampleMissBounce_sample _⟩,
    ((C6_render_iterations (buildContext [exampleCamera]) exampleToRGB exampleMissBounce
      exampleCamera 3 rfl rfl).2.2
        ⟨by decide, by decide, by decide, by decide, by decide,
          exampleMissBounce_sample _⟩).1 (by decide) 3 (by decide)⟩

section Camera

variable {α : Type}

theorem AddNode_frames (rc : RenderContext α) (node : Node α) :
    (AddNode rc node).frames = rc.frames := by
  unfold AddNode
  cases node.Case <;> rfl

theorem AddNode_finish (rc : RenderContext α) (node : Node α) :
    (AddNode rc node).finish = rc.finish := by
  unfold AddNode
  cases node.Case <;> rfl

theorem AddNode_nodes (rc : RenderContext α) (node : Node α) :
    ∃ node', (AddNode rc node).nodes = rc.nodes ++ [node'] ∧ StoredAs node node' := by
  obtain ⟨name, case⟩ := node
  cases case with
  | Camera => exact ⟨⟨name, .Camera⟩, rfl, Or.inl rfl⟩
  | Primitive p => exact ⟨⟨name, .Primitive p⟩, rfl, Or.inl rfl⟩
  | Light l => exact ⟨⟨name, .Light l⟩, rfl, Or.inl rfl⟩
  | Material mtl =>
    refine ⟨⟨name, .Material { mtl with Id := toInt32 rc.materials.length }⟩, ?_,
      Or.inr ⟨mtl, toInt32 rc.materials.length, rfl, rfl⟩⟩
    simp only [AddNode, addMaterial]
  | Globals g => exact ⟨⟨name, .Globals g⟩, rfl, Or.inl rfl⟩
  | Other => exact ⟨⟨name, .Other⟩, rfl, Or.inl rfl⟩

theorem storedAs_name {n n' : Node α} (h : StoredAs n n') : n'.Name = n.Name := by
  rcases h with rfl | ⟨mtl, id, _, rfl⟩ <;> rfl

theorem storedAs_camera {n n' : Node α} (h : StoredAs n n') (hc : isCamera n = true) :
    n' = n := by
  rcases h with rfl | ⟨mtl, id, hm, rfl⟩
  · rfl
  · simp [isCamera, hm] at hc

theorem foldl_AddNode_frames (ns : List (Node α)) :
    ∀ rc : RenderContext α, (ns.foldl AddNode rc).frames = rc.frames := by
  induction ns with
  | nil => intro rc; rfl
  | cons n ns ih => intro rc; rw [List.foldl_cons, ih, AddNode_frames]

theorem foldl_AddNode_finish (ns : List (Node α)) :
    ∀ rc : RenderContext α, (ns.foldl AddNode rc).finish = rc.finish := by
  induction ns with
  | nil => intro rc; rfl
  | cons n ns ih => intro rc; rw [List.foldl_cons, ih, AddNode_finish]

theorem foldl_AddNode_nodes (ns : List (Node α)) :
    ∀ rc : RenderContext α, ∃ ns', (ns.foldl AddNode rc).nodes = rc.nodes ++ ns' ∧
      List.Forall₂ StoredAs ns ns' := by
  induction ns with
  | nil => intro rc; exact ⟨[], by simp, List.Forall₂.nil⟩
  | cons n ns ih =>
    intro rc
    obtain ⟨n', hn', hst⟩ := AddNode_nodes rc n
    obtain ⟨ns', hns', hall⟩ := ih (AddNode rc n)
    refine ⟨n' :: ns', ?_, List.Forall₂.cons hst hall⟩
    rw [List.foldl_cons, hns', hn', List.append_assoc, List.singleton_append]

theorem find_storedAs (name : String) {ns ns' : List (Node α)}
    (h : List.Forall₂ StoredAs ns ns') :
    (ns'.find? (fun n => n.Name == name) = none ↔ ∀ n ∈ ns, n.Name ≠ name) ∧
    ∀ c, ns.find? (fun n => n.Name == name) = some c →
      ∃ c', ns'.find? (fun n => n.Name == name) = some c' ∧ StoredAs c c' := by
  induction h with
  | nil => simp
  | @cons n n' ns ns' hst _ ih =>
    obtain ⟨ih1, ih2⟩ := ih
    by_cases hname : n.Name = name
    · have hb : (n.Name == name) = true := by simpa using hname
      have hb' : (n'.Name == name) = true := by rw [storedAs_name hst]; exact hb
      refine ⟨?_, ?_⟩
      · simp only [List.find?_cons, hb']
        constructor
        · intro h; cases h
        · intro h; exact absurd hname (h n (List.mem_cons_self _ _))
      · intro c hc
        simp only [List.find?_cons, hb, Option.some.injEq] at hc
        subst hc
        exact ⟨n', by simp only [List.find?_cons, hb'], hst⟩
    · have hb : (n.Name == name) = false := by simpa using hname
      have hb' : (n'.Name == name) = false := by rw [storedAs_name hst]; exact hb
      refine ⟨?_, ?_⟩
      · simp only [List.find?_cons, hb', List.mem_cons, forall_eq_or_imp]
        rw [ih1]
        exact ⟨fun h => ⟨hname, h⟩, fun h => h.2⟩
      · intro c hc
        simp only [List.find?_cons, hb] at hc
        obtain ⟨c', hc', hst'⟩ := ih2 c hc
        exact ⟨c', by simp only [List.find?_cons, hb', hc'], hst'⟩

theorem renderCamera_camera (rc : RenderContext α) (c : Node α) (hfr : rc.frames = 0)
    (hfind : FindNode rc "camera" = some c) (hcam : isCamera c = true) :
    renderCamera rc = some (some c) := by
  obtain ⟨name, case⟩ := c
  cases case <;> simp [isCamera] at hcam
  simp [renderCamera, hfr, hfind]

end Camera

/-- C7 (the claim fails for a camera registered under another name): after a Camera
node named "cam1" has been added through `AddNode` (it is in `rc.cameras`), `Render`
returns `ErrNoCamera`. -/
theorem C7_camera_under_other_name :
    (buildContext [exampleCameraOtherName]).cameras.length = 1 ∧
    isCamera exampleCameraOtherName = true ∧
    Render (buildContext [exampleCameraOtherName]) exampleToRGB exampleMissBounce 1
      (fun _ => false) 1 = some .ErrNoCamera :=
  ⟨rfl, rfl, rfl⟩

/-- C7 (amended): for a render context built by `AddNode` calls, `Render` returns
`ErrNoCamera` (whatever the fuel, so before any iteration) if and only if no node has
been added under the name "camera"; and when the first node added under the name
"camera" is a Camera, `Render` does not return `ErrNoCamera` and every result it
returns is a completed render that used that node. -/
theorem C7_render_finds_camera_by_name {α : Type} (ns : List (Node α))
    (ToRGB : ℚ → ℚ × ℚ × ℚ) (bounce : ℕ → ℕ → ℕ → ℕ → Bounce) (maxIter : ℤ)
    (ext : ℕ → Bool) (fuel : ℕ) :
    (Render (buildContext ns) ToRGB bounce maxIter ext fuel = some .ErrNoCamera ↔
      ∀ n ∈ ns, n.Name ≠ "camera") ∧
    (∀ c, ns.find? (fun n => n.Name == "camera") = some c → isCamera c = true →
      Render (buildContext ns) ToRGB bounce maxIter ext fuel ≠ some .ErrNoCamera ∧
      ∀ out, Render (buildContext ns) ToRGB bounce maxIter ext fuel = some out →
        ∃ k, out = .done c k) := by
  have hfr : (buildContext ns).frames = 0 := foldl_AddNode_frames ns _
  have hfin : (buildContext ns).finish = false := foldl_AddNode_finish ns _
  obtain ⟨ns', hns', hall⟩ := foldl_AddNode_nodes ns (NewRenderContext α)
  have hnodes : (buildContext ns).nodes = ns' := by
    unfold buildContext; rw [hns']; rfl
  obtain ⟨hnone, hsome⟩ := find_storedAs "camera" hall
  have hfind : FindNode (buildContext ns) "camera" = ns'.find? (fun n => n.Name == "camera") := by
    unfold FindNode; rw [hnodes]
  have hloop : ∀ (c : Node α) (out : RenderOutcome α),
      renderCamera (buildContext ns) = some (some c) →
      Render (buildContext ns) ToRGB bounce maxIter ext fuel = some out →
      ∃ k, out = .done c k := by
    intro c out hrc h
    obtain ⟨j, ho, _, _⟩ := render_ended (buildContext ns) ToRGB bounce c maxIter ext fuel
      hrc hfin out h
    exact ⟨j + 1, ho⟩
  refine ⟨?_, ?_⟩
  · rw [← hnone, ← hfind]
    constructor
    · intro h
      cases hf : FindNode (buildContext ns) "camera" with
      | none => rfl
      | some node =>
        exfalso
        obtain ⟨name, case⟩ := node
        cases case
        case Camera =>
          have hrc : renderCamera (buildContext ns) = some (some ⟨name, .Camera⟩) := by
            simp [renderCamera, hfr, hf]
          obtain ⟨k, hk⟩ := hloop _ _ hrc h
          cases hk
        all_goals (simp [Render, renderRun, renderCamera, hfr, hf] at h)
    · intro h
      simp [Render, renderRun, renderCamera, hfr, h]
  · intro c hc hcam
    obtain ⟨c', hc', hst⟩ := hsome c hc
    rw [storedAs_camera hst hcam] at hc'
    have hrc := renderCamera_camera (buildContext ns) c hfr (by rw [hfind]; exact hc') hcam
    refine ⟨?_, fun out h => hloop c out hrc h⟩
    intro h
    obtain ⟨k, hk⟩ := hloop c _ hrc h
    cases hk

section PreRenderProofs

variable {α : Type}

theorem preRenderNodes_spec (pre : Node α → RenderContext α → Except String (List (Node α))) :
    ∀ (ns : List (Node α)) (rc : RenderContext α) (log : PreRenderLog α)
      (rc' : RenderContext α) (log' : PreRenderLog α),
      preRenderNodes pre ns rc log = .ok (rc', log') →
      log'.calls = log.calls ++ ns ∧
      ∃ new stored, log'.added = log.added ++ new ∧ rc'.nodes = rc.nodes ++ stored ∧
        List.Forall₂ StoredAs new stored := by
  intro ns
  induction ns with
  | nil =>
    intro rc log rc' log' h
    simp only [preRenderNodes, Except.ok.injEq, Prod.mk.injEq] at h
    obtain ⟨rfl, rfl⟩ := h
    exact ⟨by simp, [], [], by simp, by simp, List.Forall₂.nil⟩
  | cons n ns ih =>
    intro rc log rc' log' h
    rw [preRenderNodes] at h
    cases hp : pre n rc with
    | error err => rw [hp] at h; cases h
    | ok new =>
      rw [hp] at h
      obtain ⟨hcalls, new2, stored2, hadd, hnodes, hall⟩ := ih _ _ _ _ h
      obtain ⟨stored1, hst1, hall1⟩ := foldl_AddNode_nodes new rc
      refine ⟨by rw [hcalls]; simp, new ++ new2, stored1 ++ stored2, ?_, ?_, ?_⟩
      · rw [hadd]; simp
      · rw [hnodes, hst1]; simp
      · exact List.rel_append hall1 hall

theorem preRenderLoop_spec (pre : Node α → RenderContext α → Except String (List (Node α)))
    (rc0 : RenderContext α) :
    ∀ (fuel : ℕ) (allnodes : List (Node α)) (rc : RenderContext α) (log : PreRenderLog α)
      (rc' : RenderContext α) (log' : PreRenderLog α),
      preRenderLoop pre fuel allnodes rc log = some (.ok (rc', log')) →
      allnodes = log.calls →
      (∃ stored, allnodes ++ rc.nodes = rc0.nodes ++ stored ∧
        List.Forall₂ StoredAs log.added stored) →
      log'.calls = rc'.nodes ∧
      ∃ stored, rc'.nodes = rc0.nodes ++ stored ∧ List.Forall₂ StoredAs log'.added stored := by
  intro fuel
  induction fuel with
  | zero => intro allnodes rc log rc' log' h; cases h
  | succ fuel ih =>
    intro allnodes rc log rc' log' h hcalls hinv
    rw [preRenderLoop] at h
    cases hn : rc.nodes with
    | nil =>
      rw [hn] at h
      simp only [Option.some.injEq, Except.ok.injEq, Prod.mk.injEq] at h
      obtain ⟨rfl, rfl⟩ := h
      obtain ⟨stored, hst, hall⟩ := hinv
      rw [hn, List.append_nil] at hst
      exact ⟨hcalls.symm, stored, hst, hall⟩
    | cons n ns =>
      rw [hn] at h
      simp only at h
      cases hr : preRenderNodes pre (n :: ns) { rc with nodes := [] } log with
      | error err => rw [hr] at h; cases h
      | ok res =>
        obtain ⟨rc1, log1⟩ := res
        rw [hr] at h
        simp only at h
        obtain ⟨hc1, new, st, hadd, hnodes, hall1⟩ := preRenderNodes_spec pre _ _ _ _ _ hr
        obtain ⟨stored, hst, hall⟩ := hinv
        refine ih _ rc1 log1 rc' log' h (by rw [hc1, hcalls]) ⟨stored ++ st, ?_, ?_⟩
        · rw [hnodes, List.nil_append, ← List.append_assoc, ← hn, hst, List.append_assoc]
        · rw [hadd]; exact List.rel_append hall hall1

end PreRenderProofs

/-- C8: if `PreRender` returns without error, then the nodes on which `PreRender` was
invoked, in order of invocation, are exactly the final `rc.nodes` (so each listed node
was pre-rendered exactly once), and the final `rc.nodes` consists of the nodes
registered before the call followed by the nodes added during the call, in the order
in which `AddNode` was called for them (each round before the nodes it added). -/
theorem C8_PreRender_each_node_once {α : Type}
    (pre : Node α → RenderContext α → Except String (List (Node α)))
    (BuildAccel : BuildAccelFn) (fuel : ℕ) (rc rc' : RenderContext α) (log : PreRenderLog α)
    (h : PreRender pre BuildAccel fuel rc = some (.ok (rc', log))) :
    log.calls = rc'.nodes ∧
    ∃ stored, rc'.nodes = rc.nodes ++ stored ∧ List.Forall₂ StoredAs log.added stored := by
  unfold PreRender at h
  cases hl : preRenderLoop pre fuel [] rc { calls := [], added := [] } with
  | none => rw [hl] at h; cases h
  | some res =>
    rw [hl] at h
    cases res with
    | error err => cases h
    | ok r =>
      obtain ⟨rc1, log1⟩ := r
      simp only at h
      cases hi : initAccel BuildAccel rc1.scene with
      | none => rw [hi] at h; cases h
      | some scene =>
        rw [hi] at h
        simp only [Option.some.injEq, Except.ok.injEq, Prod.mk.injEq] at h
        obtain ⟨rfl, rfl⟩ := h
        exact preRenderLoop_spec pre rc fuel [] rc _ rc1 log1 hl rfl
          ⟨[], by simp, List.Forall₂.nil⟩

/-- Witness for C8: the node "parent" adds the node "child" during its `PreRender`. -/
theorem C8_PreRender_each_node_once_witness :
    ∃ rc' log,
      PreRender examplePre exampleBuildAccel 3 (buildContext [exampleParent])
        = some (.ok (rc', log)) ∧
      log.calls = [exampleParent, exampleChild] ∧
      log.calls = rc'.nodes ∧
      ∃ stored, rc'.nodes = (buildContext [exampleParent]).nodes ++ stored ∧
        List.Forall₂ StoredAs log.added stored :=
  ⟨_, _, rfl, rfl,
    C8_PreRender_each_node_once examplePre exampleBuildAccel 3 (buildContext [exampleParent])
      _ _ rfl⟩

section InitAccel

variable {α : Type}

theorem toInt32_of_lt {m : ℕ} (h : m < 2 ^ 31) : toInt32 m = Int.ofNat m := by
  unfold toInt32
  have h1 : (m + 2 ^ 31) % 2 ^ 32 = m + 2 ^ 31 := Nat.mod_eq_of_lt (by omega)
  rw [h1]
  simp only [Int.ofNat_eq_coe]
  push_cast
  ring

theorem initAccelCollect_indices :
    ∀ (ps : List (Primitive α)) (i : ℕ),
      (initAccelCollect ps i).2.1 = (visiblePositions ps i).map toInt32 := by
  intro ps
  induction ps with
  | nil => intro i; rfl
  | cons p ps ih =>
    intro i
    cases hv : p.Visible
    · simp [initAccelCollect, visiblePositions, hv, ih]
    · simp [initAccelCollect, visiblePositions, hv, ih]

theorem mem_visiblePositions :
    ∀ (ps : List (Primitive α)) (i m : ℕ),
      m ∈ visiblePositions ps i ↔ i ≤ m ∧ ∃ p, ps[m - i]? = some p ∧ p.Visible = true := by
  intro ps
  induction ps with
  | nil => intro i m; simp [visiblePositions]
  | cons p ps ih =>
    intro i m
    have key : ∀ q : Primitive α, i + 1 ≤ m →
        (ps[m - (i + 1)]? = some q ↔ (p :: ps)[m - i]? = some q) := by
      intro q hm
      rw [show m - i = (m - (i + 1)) + 1 by omega, List.getElem?_cons_succ]
    have tail : m ∈ visiblePositions ps (i + 1) ↔
        i + 1 ≤ m ∧ ∃ q, (p :: ps)[m - i]? = some q ∧ q.Visible = true := by
      rw [ih]
      constructor
      · rintro ⟨h1, q, h2, h3⟩; exact ⟨h1, q, (key q h1).1 h2, h3⟩
      · rintro ⟨h1, q, h2, h3⟩; exact ⟨h1, q, (key q h1).2 h2, h3⟩
    cases hv : p.Visible
    · simp only [visiblePositions, hv, Bool.false_eq_true, if_false]
      rw [tail]
      constructor
      · rintro ⟨h1, q, h2, h3⟩; exact ⟨by omega, q, h2, h3⟩
      · rintro ⟨h1, q, h2, h3⟩
        rcases Nat.eq_or_lt_of_le h1 with h | h
        · subst h
          simp only [Nat.sub_self, List.getElem?_cons_zero, Option.some.injEq] at h2
          subst h2
          rw [hv] at h3; cases h3
        · exact ⟨h, q, h2, h3⟩
    · simp only [visiblePositions, hv, if_true, List.mem_cons]
      rw [tail]
      constructor
      · rintro (rfl | ⟨h1, q, h2, h3⟩)
        · exact ⟨le_refl _, p, by simp, hv⟩
        · exact ⟨by omega, q, h2, h3⟩
      · rintro ⟨h1, q, h2, h3⟩
        rcases Nat.eq_or_lt_of_le h1 with h | h
        · exact Or.inl h.symm
        · exact Or.inr ⟨h, q, h2, h3⟩

theorem nodup_visiblePositions :
    ∀ (ps : List (Primitive α)) (i : ℕ), (visiblePositions ps i).Nodup := by
  intro ps
  induction ps with
  | nil => intro i; simp [visiblePositions]
  | cons p ps ih =>
    intro i
    cases hv : p.Visible
    · simp only [visiblePositions, hv, Bool.false_eq_true, if_false]; exact ih (i + 1)
    · simp only [visiblePositions, hv, if_true]
      refine List.nodup_cons.2 ⟨?_, ih (i + 1)⟩
      intro hmem
      have := ((mem_visiblePositions ps (i + 1) i).1 hmem).1
      omega

theorem filterMap_visiblePositions :
    ∀ (ps pre : List (Primitive α)),
      (visiblePositions ps pre.length).filterMap (fun m => (pre ++ ps)[m]?)
        = ps.filter fun p => p.Visible := by
  intro ps
  induction ps with
  | nil => intro pre; simp [visiblePositions]
  | cons p ps ih =>
    intro pre
    have h := ih (pre ++ [p])
    simp only [List.length_append, List.length_singleton, List.append_assoc,
      List.singleton_append] at h
    cases hv : p.Visible
    · simp only [visiblePositions, hv, Bool.false_eq_true, if_false, List.filter_cons]
      exact h
    · simp only [visiblePositions, hv, if_true, List.filter_cons, List.filterMap_cons]
      have hget : (pre ++ p :: ps)[pre.length]? = some p := by
        rw [List.getElem?_append_right (le_refl _)]; simp
      rw [hget]
      simp only
      rw [h]

theorem mapM_primAt (prims : List (Primitive α)) :
    ∀ idx : List ℕ, (∀ i ∈ idx, i < prims.length) →
      ∃ ps, (idx.map Int.ofNat).mapM (primAt prims) = some ps ∧
        ps.map some = idx.map fun i => prims[i]? := by
  intro idx
  induction idx with
  | nil => intro _; exact ⟨[], rfl, rfl⟩
  | cons i idx ih =>
    intro h
    obtain ⟨ps, hps, hmap⟩ := ih fun j hj => h j (List.mem_cons_of_mem _ hj)
    have hi : i < prims.length := h i (List.mem_cons_self _ _)
    refine ⟨prims[i] :: ps, ?_, ?_⟩
    · have hp : primAt prims (Int.ofNat i) = some prims[i] := by
        simp [primAt, List.getElem?_eq_getElem hi]
      simp only [List.map_cons, List.mapM_cons, hp, hps]
      rfl
    · simp [hmap, List.getElem?_eq_getElem hi]

end InitAccel

/-- C10: if `qbvh.BuildAccel` only permutes the index array it is given (and the scene
has at most 2^31 primitives, so that `int32(i)` is exact), `Scene.initAccel` returns a
scene whose primitive sequence is laid out by a list `idx` of original positions:
`idx` is what `BuildAccel` leaves in `indices`, position `i` of the new sequence holds
the primitive whose original position is `idx[i]`, every position of a visible
primitive occurs exactly once in `idx` and no other position occurs; in particular
the new sequence is a permutation of the visible primitives. -/
theorem C10_initAccel_permutes_visible {α : Type} (BuildAccel : BuildAccelFn) (scene : Scene α)
    (hperm : BuildAccelPermutes BuildAccel) (hlen : scene.prims.length ≤ 2 ^ 31) :
    ∃ (scene' : Scene α) (idx : List ℕ),
      initAccel BuildAccel scene = some scene' ∧
      (BuildAccel (initAccelCollect scene.prims 0).1 (initAccelCollect scene.prims 0).2.2
          (initAccelCollect scene.prims 0).2.1 1).2.2 = idx.map Int.ofNat ∧
      scene'.prims.map some = idx.map (fun i => scene.prims[i]?) ∧
      idx.Nodup ∧
      (∀ i, i ∈ idx ↔ ∃ p, scene.prims[i]? = some p ∧ p.Visible = true) ∧
      List.Perm scene'.prims (scene.prims.filter fun p => p.Visible) := by
  have hmemV : ∀ m, m ∈ visiblePositions scene.prims 0 ↔
      ∃ p, scene.prims[m]? = some p ∧ p.Visible = true := by
    intro m
    rw [mem_visiblePositions]
    simp
  have hltV : ∀ m ∈ visiblePositions scene.prims 0, m < scene.prims.length := by
    intro m hm
    obtain ⟨p, hp, _⟩ := (hmemV m).1 hm
    exact (List.getElem?_eq_some_iff.1 hp).1
  have hcollect : (initAccelCollect scene.prims 0).2.1
      = (visiblePositions scene.prims 0).map Int.ofNat := by
    rw [initAccelCollect_indices]
    apply List.map_congr_left
    intro m hm
    exact toInt32_of_lt (by have := hltV m hm; omega)
  have hp := hperm (initAccelCollect scene.prims 0).1 (initAccelCollect scene.prims 0).2.2
    (initAccelCollect scene.prims 0).2.1 1
  have hinit : initAccel BuildAccel scene
      = match (BuildAccel (initAccelCollect scene.prims 0).1
          (initAccelCollect scene.prims 0).2.2
          (initAccelCollect scene.prims 0).2.1 1).2.2.mapM (primAt scene.prims) with
        | none => none
        | some nprims => some { scene with
            nodes := (BuildAccel (initAccelCollect scene.prims 0).1
              (initAccelCollect scene.prims 0).2.2
              (initAccelCollect scene.prims 0).2.1 1).1,
            prims := nprims,
            bounds := (BuildAccel (initAccelCollect scene.prims 0).1
              (initAccelCollect scene.prims 0).2.2
              (initAccelCollect scene.prims 0).2.1 1).2.1 } := rfl
  rw [hinit]
  generalize (BuildAccel (initAccelCollect scene.prims 0).1 (initAccelCollect scene.prims 0).2.2
    (initAccelCollect scene.prims 0).2.1 1) = r at hp ⊢
  rw [hcollect] at hp
  have hnonneg : ∀ z ∈ r.2.2, (0 : ℤ) ≤ z := by
    intro z hz
    obtain ⟨m, _, rfl⟩ := List.mem_map.1 (hp.mem_iff.1 hz)
    exact Int.ofNat_nonneg m
  have hidx : r.2.2 = (r.2.2.map Int.toNat).map Int.ofNat := by
    rw [List.map_map]
    conv_lhs => rw [← List.map_id r.2.2]
    apply List.map_congr_left
    intro z hz
    simp [Int.toNat_of_nonneg (hnonneg z hz)]
  have hpermIdx : List.Perm (r.2.2.map Int.toNat) (visiblePositions scene.prims 0) := by
    have := hp.map Int.toNat
    rw [List.map_map] at this
    have hid : ((visiblePositions scene.prims 0).map (Int.toNat ∘ Int.ofNat))
        = visiblePositions scene.prims 0 := by
      conv_rhs => rw [← List.map_id (visiblePositions scene.prims 0)]
      apply List.map_congr_left
      intro m _
      simp
    rw [hid] at this
    exact this
  have hlt : ∀ i ∈ r.2.2.map Int.toNat, i < scene.prims.length :=
    fun i hi => hltV i (hpermIdx.mem_iff.1 hi)
  obtain ⟨ps, hps, hmap⟩ := mapM_primAt scene.prims (r.2.2.map Int.toNat) hlt
  rw [← hidx] at hps
  refine ⟨{ scene with nodes := r.1, prims := ps, bounds := r.2.1 }, r.2.2.map Int.toNat,
    ?_, hidx, hmap, ?_, ?_, ?_⟩
  · rw [hps]
  · exact hpermIdx.nodup_iff.2 (nodup_visiblePositions _ _)
  · intro i
    rw [hpermIdx.mem_iff, hmemV]
  · have hps2 : ps = (r.2.2.map Int.toNat).filterMap (fun i => scene.prims[i]?) := by
      have h1 : ps = (ps.map some).filterMap id := by
        rw [List.filterMap_map]; simp
      rw [h1, hmap, List.filterMap_map]
      rfl
    rw [hps2]
    have := filterMap_visiblePositions scene.prims []
    simp only [List.length_nil, List.nil_append] at this
    rw [← this]
    exact hpermIdx.filterMap _

theorem exampleReverseBuildAccel_permutes : BuildAccelPermutes exampleReverseBuildAccel := by
  intro boxes centroids indices leafsize
  exact List.reverse_perm indices

/-- Witness for C10: a visible, an invisible and a visible primitive, with a builder
that reverses the indices. -/
theorem C10_initAccel_permutes_visible_witness :
    (BuildAccelPermutes exampleReverseBuildAccel ∧
      exampleUnbuiltScene.prims.length ≤ 2 ^ 31) ∧
    ∃ (scene' : Scene ℤ) (idx : List ℕ),
      initAccel exampleReverseBuildAccel exampleUnbuiltScene = some scene' ∧
      (exampleReverseBuildAccel (initAccelCollect exampleUnbuiltScene.prims 0).1
          (initAccelCollect exampleUnbuiltScene.prims 0).2.2
          (initAccelCollect exampleUnbuiltScene.prims 0).2.1 1).2.2 = idx.map Int.ofNat ∧
      scene'.prims.map some = idx.map (fun i => exampleUnbuiltScene.prims[i]?) ∧
      idx.Nodup ∧
      (∀ i, i ∈ idx ↔ ∃ p, exampleUnbuiltScene.prims[i]? = some p ∧ p.Visible = true) ∧
      List.Perm scene'.prims (exampleUnbuiltScene.prims.filter fun p => p.Visible) :=
  ⟨⟨exampleReverseBuildAccel_permutes, by simp [exampleUnbuiltScene]⟩,
    C10_initAccel_permutes_visible exampleReverseBuildAccel exampleUnbuiltScene
      exampleReverseBuildAccel_permutes (by simp [exampleUnbuiltScene])⟩

/-- C9: on a path that hits an emitting, non-delta material at depths 0 and 1 in a
scene with a light, the hit at depth 0 leaves `direct = false`, and the hit at depth 1,
reached with `direct = false`, still adds the emitted radiance of its material to the
sample (`fullsample` grows from 1 to 2), so that `samplePixel` returns 2 per channel
instead of 1. -/
theorem C9_emission_added_after_direct_sample :
    samplePixelStep exampleLitContext exampleToRGB (examplePath 0)
        { fullsample := 0, contrib := 1, direct := true }
      = .next { fullsample := 1, contrib := 1, direct := false } ∧
    samplePixelStep exampleLitContext exampleToRGB (examplePath 1)
        { fullsample := 1, contrib := 1, direct := false }
      = .next { fullsample := 2, contrib := 1, direct := false } ∧
    samplePixel exampleLitContext exampleToRGB examplePath = some (2, 2, 2) := by
  have hm : GetMaterial exampleLitContext 0
      = some (some { Name := "emitter", Id := 0, HasEDF := true, HasBumpMap := false }) := by
    rfl
  have hl : exampleLitContext.scene.lights.length = 1 := rfl
  refine ⟨?_, ?_, ?_⟩ <;>
    simp [samplePixel, samplePixelFrom, samplePixelStep, examplePath, exampleToRGB,
      directLighting, hm, hl] <;>
    norm_num

section PushOrder

variable {α : Type} [LinearOrder α] [Zero α]

theorem pushOrder_eq_orderOfSigns (D : Fin 3 → α) (pnode : qbvh.Node) :
    pushOrder D pnode = orderOfSigns (decide (D pnode.Axis0 < 0)) (decide (D pnode.Axis1 < 0))
      (decide (D pnode.Axis2 < 0)) := by
  unfold pushOrder orderOfSigns
  by_cases h0 : D pnode.Axis0 < 0 <;> by_cases h1 : D pnode.Axis1 < 0 <;>
    by_cases h2 : D pnode.Axis2 < 0 <;> simp [h0, h1, h2]

theorem orderOfSigns_injective (s0 s1 s2 t0 t1 t2 : Bool) :
    orderOfSigns s0 s1 s2 = orderOfSigns t0 t1 t2 ↔ (s0 = t0 ∧ s1 = t1 ∧ s2 = t2) := by
  revert s0 s1 s2 t0 t1 t2
  decide

theorem pushOrder_reverse (D : Fin 3 → α) (pnode : qbvh.Node) :
    (pushOrder D pnode).reverse = nearFirstOrder D pnode := by
  unfold pushOrder nearFirstOrder
  by_cases h0 : D pnode.Axis0 < 0 <;> by_cases h1 : D pnode.Axis1 < 0 <;>
    by_cases h2 : D pnode.Axis2 < 0 <;> simp [h0, h1, h2]

end PushOrder

/-- C14: `Scene.traceRayAccel` runs its loop from the stack that holds the root alone,
and in an iteration of that loop that pops an inner node `pnode` which is not pruned
(the pushes fitting into `TopLevelStack`), the push order computed is a permutation of
the four children; two directions give the same order exactly when they have the same
three signs on the node's axes (eight orders for the eight sign patterns); and the loop
goes on with the stack on which the children with non-zero occupancy, and only they,
lie above the entries that were there, in near-first order from the top of the stack
down, which is the order in which the following iterations pop them (the head of the
list is the entry that the next iteration pops): the half entered first along `Axis0`
before the other, and within each half the lower-index child first exactly when `D` on
the axis of that half is `>= 0`. -/
theorem C14_push_order_near_first {α : Type} [LinearOrder α] [Zero α]
    (ac : Accel α) (sc : Scene α) (fuel : ℕ) (e : StackEntry α)
    (stack : List (StackEntry α)) (ray : RayData α) (mtlid : ℤ) (pnode : qbvh.Node)
    (hT : ¬ ray.Ray.Tclosest < e.T) (hinner : 0 ≤ e.Node)
    (hn : sc.nodes[e.Node.toNat]? = some pnode) (hcap : stack.length + 4 ≤ ac.StackCap) :
    traceRayAccel ac sc (fuel + 1) ray
      = traceLoop ac sc (fuel + 1) [⟨0, ray.Ray.Tclosest⟩] ray (-1) ∧
    List.Perm (pushOrder ray.Ray.D pnode) [0, 1, 2, 3] ∧
    (∀ (D' : Fin 3 → α) (pnode' : qbvh.Node),
      pushOrder ray.Ray.D pnode = pushOrder D' pnode' ↔
        ((ray.Ray.D pnode.Axis0 < 0 ↔ D' pnode'.Axis0 < 0) ∧
         (ray.Ray.D pnode.Axis1 < 0 ↔ D' pnode'.Axis1 < 0) ∧
         (ray.Ray.D pnode.Axis2 < 0 ↔ D' pnode'.Axis2 < 0))) ∧
    traceLoop ac sc (fuel + 1) (e :: stack) ray mtlid
      = traceLoop ac sc fuel
          (((nearFirstOrder ray.Ray.D pnode).filter fun k =>
              decide ((ac.rayNodeIntersectAllASM ray.Ray e.Node.toNat).1 k ≠ 0)).map
            (fun k => (⟨pnode.Children k,
              (ac.rayNodeIntersectAllASM ray.Ray e.Node.toNat).2 k⟩ : StackEntry α)) ++ stack)
          ray mtlid := by
  refine ⟨?_, ?_, ?_, ?_⟩
  · unfold traceRayAccel
    rw [if_neg (by omega)]
  · rw [pushOrder_eq_orderOfSigns]
    generalize decide (ray.Ray.D pnode.Axis0 < 0) = s0
    generalize decide (ray.Ray.D pnode.Axis1 < 0) = s1
    generalize decide (ray.Ray.D pnode.Axis2 < 0) = s2
    revert s0 s1 s2
    decide
  · intro D' pnode'
    rw [pushOrder_eq_orderOfSigns, pushOrder_eq_orderOfSigns, orderOfSigns_injective]
    simp only [decide_eq_decide]
  · rw [traceLoop_inner ac sc fuel e stack ray mtlid pnode hT hinner hn hcap,
      pushChildren_eq, ← pushOrder_reverse, List.filter_reverse]

/-- Witness for C14: the first iteration of `traceRayAccel` on the example scene pops the
root and goes on with the stack of its four children, child 0, the leaf, on top. -/
theorem C14_push_order_near_first_witness :
    (¬ exampleRay.Ray.Tclosest < (⟨0, exampleRay.Ray.Tclosest⟩ : StackEntry ℤ).T ∧
      (0 : ℤ) ≤ (⟨0, exampleRay.Ray.Tclosest⟩ : StackEntry ℤ).Node ∧
      exampleScene.nodes[(⟨0, exampleRay.Ray.Tclosest⟩ : StackEntry ℤ).Node.toNat]?
        = some exampleRootNode ∧
      ([] : List (StackEntry ℤ)).length + 4 ≤ exampleAccel.StackCap) ∧
    (traceRayAccel exampleAccel exampleScene (5 + 1) exampleRay
      = traceLoop exampleAccel exampleScene (5 + 1) [⟨0, exampleRay.Ray.Tclosest⟩]
          exampleRay (-1) ∧
    List.Perm (pushOrder exampleRay.Ray.D exampleRootNode) [0, 1, 2, 3] ∧
    (∀ (D' : Fin 3 → ℤ) (pnode' : qbvh.Node),
      pushOrder exampleRay.Ray.D exampleRootNode = pushOrder D' pnode' ↔
        ((exampleRay.Ray.D exampleRootNode.Axis0 < 0 ↔ D' pnode'.Axis0 < 0) ∧
         (exampleRay.Ray.D exampleRootNode.Axis1 < 0 ↔ D' pnode'.Axis1 < 0) ∧
         (exampleRay.Ray.D exampleRootNode.Axis2 < 0 ↔ D' pnode'.Axis2 < 0))) ∧
    traceLoop exampleAccel exampleScene (5 + 1) [⟨0, exampleRay.Ray.Tclosest⟩]
        exampleRay (-1)
      = traceLoop exampleAccel exampleScene 5
          (((nearFirstOrder exampleRay.Ray.D exampleRootNode).filter fun k =>
              decide ((exampleAccel.rayNodeIntersectAllASM exampleRay.Ray
                (⟨0, exampleRay.Ray.Tclosest⟩ : StackEntry ℤ).Node.toNat).1 k ≠ 0)).map
            (fun k => (⟨exampleRootNode.Children k,
              (exampleAccel.rayNodeIntersectAllASM exampleRay.Ray
                (⟨0, exampleRay.Ray.Tclosest⟩ : StackEntry ℤ).Node.toNat).2 k⟩ :
                StackEntry ℤ)) ++ [])
          exampleRay (-1)) :=
  ⟨⟨by decide, by decide, rfl, by decide⟩,
    C14_push_order_near_first exampleAccel exampleScene 5 ⟨0, exampleRay.Ray.Tclosest⟩ []
      exampleRay (-1) exampleRootNode (by decide) (by decide) rfl (by decide)⟩

section StackDepth

variable {α : Type} [LinearOrder α]

omit [LinearOrder α] in
theorem traceLeaf_some (sc : Scene α) :
    ∀ (S : List ℕ) (ray : RayData α) (m : ℤ), (∀ i ∈ S, i < sc.prims.length) →
      ∃ r, traceLeaf sc S ray m = some r := by
  intro S
  induction S with
  | nil => intro ray m _; exact ⟨_, rfl⟩
  | cons i S ih =>
    intro ray m hS
    have hi : i < sc.prims.length := hS i (List.mem_cons_self _ _)
    have hS' : ∀ j ∈ S, j < sc.prims.length := fun j hj => hS j (List.mem_cons_of_mem _ hj)
    have hget : sc.prims[i]? = some sc.prims[i] := List.getElem?_eq_getElem hi
    by_cases hm : -1 < (sc.prims[i].TraceRay ray).2
    · obtain ⟨r, hr⟩ := ih { (sc.prims[i].TraceRay ray).1 with ResultPrim := some i }
        (sc.prims[i].TraceRay ray).2 hS'
      exact ⟨r, by simp only [traceLeaf, hget, hm, if_true]; exact hr⟩
    · obtain ⟨r, hr⟩ := ih (sc.prims[i].TraceRay ray).1 m hS'
      exact ⟨r, by simp only [traceLeaf, hget, hm, if_false]; exact hr⟩

omit [LinearOrder α] in
theorem visLeaf_some (ac : Accel α) (sc : Scene α) :
    ∀ (S : List ℕ) (ray : RayData α) (log : List Visit), (∀ i ∈ S, i < sc.prims.length) →
      ∃ ray' log' stop, visLeaf ac sc S ray log = some (ray', log', stop) ∧
        (stop = true → ac.IsVis ray' = false) := by
  intro S
  induction S with
  | nil => intro ray log _; exact ⟨ray, log, false, rfl, fun h => by cases h⟩
  | cons i S ih =>
    intro ray log hS
    have hi : i < sc.prims.length := hS i (List.mem_cons_self _ _)
    have hS' : ∀ j ∈ S, j < sc.prims.length := fun j hj => hS j (List.mem_cons_of_mem _ hj)
    have hget : sc.prims[i]? = some sc.prims[i] := List.getElem?_eq_getElem hi
    cases hv : ac.IsVis (sc.prims[i].VisRay ray) with
    | false =>
      exact ⟨sc.prims[i].VisRay ray, log ++ [Visit.test i], true,
        by simp [visLeaf, hget, hv], fun _ => hv⟩
    | true =>
      obtain ⟨ray', log', stop, hr, hstop⟩ := ih (sc.prims[i].VisRay ray)
        (log ++ [Visit.test i]) hS'
      exact ⟨ray', log', stop, by simp [visLeaf, hget, hv, hr], hstop⟩

omit [LinearOrder α] in
theorem leafRange_valid (ac : Accel α) (sc : Scene α) (ref : ℤ) (hleaf : ref < -1)
    (hr : ref = -1 ∨ ac.LeafBase ref + ac.LeafCount ref ≤ sc.prims.length) :
    ∀ i ∈ leafRange ac ref, i < sc.prims.length := by
  intro i hi
  unfold leafRange at hi
  rw [List.mem_range'_1] at hi
  rcases hr with h1 | h1 <;> omega

omit [LinearOrder α] in
theorem wellFormedRef_cases (ac : Accel α) (sc : Scene α) (h : ℕ) (ref : ℤ)
    (hwf : wellFormedRef ac sc h ref = true) :
    (ref < 0 ∧ (ref = -1 ∨ ac.LeafBase ref + ac.LeafCount ref ≤ sc.prims.length)) ∨
    (0 ≤ ref ∧ ∃ h' pnode, h = h' + 1 ∧ sc.nodes[ref.toNat]? = some pnode ∧
      ∀ k, wellFormedRef ac sc h' (pnode.Children k) = true) := by
  cases h with
  | zero =>
    simp only [wellFormedRef, Bool.and_eq_true, Bool.or_eq_true, decide_eq_true_eq] at hwf
    exact Or.inl hwf
  | succ h' =>
    by_cases hinner : 0 ≤ ref
    · rw [wellFormedRef, if_pos hinner] at hwf
      cases hn : sc.nodes[ref.toNat]? with
      | none => rw [hn] at hwf; cases hwf
      | some pnode =>
        rw [hn] at hwf
        simp only [List.all_eq_true] at hwf
        exact Or.inr ⟨hinner, h', pnode, rfl, rfl, fun k => hwf k (List.mem_finRange k)⟩
    · rw [wellFormedRef, if_neg hinner] at hwf
      simp only [Bool.or_eq_true, decide_eq_true_eq] at hwf
      exact Or.inl ⟨not_le.1 hinner, hwf⟩

end StackDepth

section TraceStack

variable {α : Type} [LinearOrder α] [Zero α]

theorem traceLoopStack_erase (ac : Accel α) (sc : Scene α) :
    ∀ (fuel : ℕ) (stack : List (StackEntry α)) (ray : RayData α) (m : ℤ) (p : ℕ),
      (traceLoopStack ac sc fuel stack ray m p).map (fun r => (r.1, r.2.1))
        = traceLoop ac sc fuel stack ray m := by
  intro fuel
  induction fuel with
  | zero =>
    intro stack ray m p
    cases stack <;> rfl
  | succ fuel ih =>
    intro stack ray m p
    cases stack with
    | nil => rfl
    | cons e stack =>
      rw [traceLoopStack, traceLoop]
      simp only
      generalize (if ray.Ray.Tclosest < e.T then (-1 : ℤ) else e.Node) = node
      by_cases h1 : 0 ≤ node
      · simp only [if_pos h1]
        cases hn : sc.nodes[node.toNat]? with
        | none => rfl
        | some pnode =>
          dsimp only
          split_ifs
          · rfl
          · exact ih _ _ _ _
      · simp only [if_neg h1]
        by_cases h2 : node < -1
        · simp only [if_pos h2]
          cases hl : traceLeaf sc (leafRange ac node) ray m with
          | none => rfl
          | some r => exact ih _ _ _ _
        · simp only [if_neg h2]
          exact ih _ _ _ _

/-- The statement that entries `es`, all well formed for height `h`, on top of a stack
`rest` are worked off by `traceLoopStack` without the stack ever holding more than
`rest.length + es.length + 3 * h` entries. -/
theorem traceLoopStack_entries_of_single {ac : Accel α} {sc : Scene α} (h : ℕ)
    (single : ∀ (e : StackEntry α), wellFormedRef ac sc h e.Node = true →
      ∀ (rest : List (StackEntry α)) (ray : RayData α) (m : ℤ) (p : ℕ),
      rest.length + 1 + 3 * h ≤ ac.StackCap →
      ∃ n ray' m' p',
        (∀ fuel, traceLoopStack ac sc (fuel + n) (e :: rest) ray m p
          = traceLoopStack ac sc fuel rest ray' m' p') ∧
        p' ≤ max p (rest.length + 1 + 3 * h)) :
    ∀ (es : List (StackEntry α)), (∀ e ∈ es, wellFormedRef ac sc h e.Node = true) →
      ∀ (rest : List (StackEntry α)) (ray : RayData α) (m : ℤ) (p : ℕ),
      rest.length + es.length + 3 * h ≤ ac.StackCap →
      ∃ n ray' m' p',
        (∀ fuel, traceLoopStack ac sc (fuel + n) (es ++ rest) ray m p
          = traceLoopStack ac sc fuel rest ray' m' p') ∧
        p' ≤ max p (rest.length + es.length + 3 * h) := by
  intro es
  induction es with
  | nil =>
    intro _ rest ray m p _
    exact ⟨0, ray, m, p, fun _ => rfl, le_max_left _ _⟩
  | cons e es ih =>
    intro hes rest ray m p hcap
    rw [List.length_cons] at hcap
    obtain ⟨n1, ray1, m1, p1, run1, hp1⟩ :=
      single e (hes e (List.mem_cons_self _ _)) (es ++ rest) ray m p
        (by rw [List.length_append]; omega)
    obtain ⟨n2, ray2, m2, p2, run2, hp2⟩ :=
      ih (fun e' he' => hes e' (List.mem_cons_of_mem _ he')) rest ray1 m1 p1 (by omega)
    refine ⟨n2 + n1, ray2, m2, p2, ?_, ?_⟩
    · intro fuel
      rw [← Nat.add_assoc, List.cons_append, run1, run2]
    · simp only [List.length_append, List.length_cons] at hp1 hp2 ⊢
      omega

theorem traceLoopStack_entries {ac : Accel α} {sc : Scene α} :
    ∀ (h : ℕ) (es : List (StackEntry α)), (∀ e ∈ es, wellFormedRef ac sc h e.Node = true) →
      ∀ (rest : List (StackEntry α)) (ray : RayData α) (m : ℤ) (p : ℕ),
      rest.length + es.length + 3 * h ≤ ac.StackCap →
      ∃ n ray' m' p',
        (∀ fuel, traceLoopStack ac sc (fuel + n) (es ++ rest) ray m p
          = traceLoopStack ac sc fuel rest ray' m' p') ∧
        p' ≤ max p (rest.length + es.length + 3 * h) := by
  intro h
  induction h with
  | zero =>
    apply traceLoopStack_entries_of_single
    intro e hwf rest ray m p _
    rcases wellFormedRef_cases ac sc 0 e.Node hwf with ⟨hneg, hr⟩ | ⟨_, h', _, hh, _⟩
    · by_cases hT : ray.Ray.Tclosest < e.T
      · exact ⟨1, ray, m, max p (rest.length + 1), by intro fuel; simp [traceLoopStack, hT],
          by omega⟩
      · by_cases hleaf : e.Node < -1
        · obtain ⟨r, hr'⟩ := traceLeaf_some sc (leafRange ac e.Node) ray m
            (leafRange_valid ac sc e.Node hleaf hr)
          have h0 : ¬ (0 ≤ e.Node) := by omega
          exact ⟨1, r.1, r.2, max p (rest.length + 1),
            by intro fuel; simp [traceLoopStack, hT, hleaf, h0, hr'], by omega⟩
        · have hm1 : e.Node = -1 := by omega
          exact ⟨1, ray, m, max p (rest.length + 1),
            by intro fuel; simp [traceLoopStack, hm1], by omega⟩
    · omega
  | succ h ih =>
    apply traceLoopStack_entries_of_single
    intro e hwf rest ray m p hcap
    by_cases hT : ray.Ray.Tclosest < e.T
    · exact ⟨1, ray, m, max p (rest.length + 1), by intro fuel; simp [traceLoopStack, hT],
        by omega⟩
    rcases wellFormedRef_cases ac sc (h + 1) e.Node hwf with
      ⟨hneg, hr⟩ | ⟨hinner, h', pnode, hh, hn, hch⟩
    · by_cases hleaf : e.Node < -1
      · obtain ⟨r, hr'⟩ := traceLeaf_some sc (leafRange ac e.Node) ray m
          (leafRange_valid ac sc e.Node hleaf hr)
        have h0 : ¬ (0 ≤ e.Node) := by omega
        exact ⟨1, r.1, r.2, max p (rest.length + 1),
          by intro fuel; simp [traceLoopStack, hT, hleaf, h0, hr'], by omega⟩
      · have hm1 : e.Node = -1 := by omega
        exact ⟨1, ray, m, max p (rest.length + 1),
          by intro fuel; simp [traceLoopStack, hm1], by omega⟩
    · have hh' : h' = h := by omega
      subst hh'
      have hpushed : ∀ e' ∈ ((pushOrder ray.Ray.D pnode).filter fun k =>
            decide ((ac.rayNodeIntersectAllASM ray.Ray e.Node.toNat).1 k ≠ 0)).reverse.map
            fun k => (⟨pnode.Children k,
              (ac.rayNodeIntersectAllASM ray.Ray e.Node.toNat).2 k⟩ : StackEntry α),
          wellFormedRef ac sc h' e'.Node = true := by
        intro e' he'
        obtain ⟨k, _, rfl⟩ := List.mem_map.1 he'
        exact hch k
      have hlen := pushed_length_le pnode (ac.rayNodeIntersectAllASM ray.Ray e.Node.toNat).1
        (ac.rayNodeIntersectAllASM ray.Ray e.Node.toNat).2 (pushOrder ray.Ray.D pnode)
      have h4 : (pushOrder ray.Ray.D pnode).length = 4 := by
        rw [← pushOrder_reverse_length]
      obtain ⟨n, ray', m', p', run, hp'⟩ :=
        ih _ hpushed rest ray m (max p (rest.length + 1)) (by omega)
      have hfits : ¬ ac.StackCap < (pushChildren pnode
          (ac.rayNodeIntersectAllASM ray.Ray e.Node.toNat).1
          (ac.rayNodeIntersectAllASM ray.Ray e.Node.toNat).2
          (pushOrder ray.Ray.D pnode) rest).length := by
        rw [pushChildren_eq, List.length_append]; omega
      refine ⟨n + 1, ray', m', p', ?_, by omega⟩
      intro fuel
      rw [← Nat.add_assoc, ← run, ← pushChildren_eq]
      simp [traceLoopStack, hT, hinner, hn, hfits]

end TraceStack

section VisStack

variable {α : Type} [LinearOrder α]

omit [LinearOrder α] in
theorem visLeaf_log_irrelevant (ac : Accel α) (sc : Scene α) :
    ∀ (S : List ℕ) (ray : RayData α) (log log' : List Visit),
      (visLeaf ac sc S ray log).map (fun r => (r.1, r.2.2))
        = (visLeaf ac sc S ray log').map (fun r => (r.1, r.2.2)) := by
  intro S
  induction S with
  | nil => intro ray log log'; rfl
  | cons i S ih =>
    intro ray log log'
    cases hget : sc.prims[i]? with
    | none => simp [visLeaf, hget]
    | some p =>
      cases hv : ac.IsVis (p.VisRay ray) with
      | false => simp [visLeaf, hget, hv]
      | true =>
        simp only [visLeaf, hget, hv, Bool.not_true, Bool.false_eq_true, if_false]
        exact ih _ _ _

theorem visLoopStack_erase (ac : Accel α) (sc : Scene α) :
    ∀ (fuel : ℕ) (stack : List (StackEntry α)) (ray : RayData α) (p : ℕ) (log : List Visit),
      (visLoopStack ac sc fuel stack ray p).map (fun r => r.1)
        = (visLoop ac sc fuel stack ray log).map (fun r => r.1) := by
  intro fuel
  induction fuel with
  | zero =>
    intro stack ray p log
    cases stack <;> rfl
  | succ fuel ih =>
    intro stack ray p log
    cases stack with
    | nil => rfl
    | cons e stack =>
      rw [visLoopStack, visLoop]
      simp only
      generalize (if ray.Ray.Tclosest < e.T then (-1 : ℤ) else e.Node) = node
      by_cases h1 : 0 ≤ node
      · simp only [if_pos h1]
        cases hn : sc.nodes[node.toNat]? with
        | none => rfl
        | some pnode =>
          dsimp only
          split_ifs
          · rfl
          · exact ih _ _ _ _
      · simp only [if_neg h1]
        by_cases h2 : node < -1
        · simp only [if_pos h2]
          have hirr := visLeaf_log_irrelevant ac sc (leafRange ac node) ray []
            (log ++ [Visit.pop e.Node])
          cases hl : visLeaf ac sc (leafRange ac node) ray [] with
          | none =>
            rw [hl] at hirr
            cases hl2 : visLeaf ac sc (leafRange ac node) ray (log ++ [Visit.pop e.Node]) with
            | none => rfl
            | some r2 => rw [hl2] at hirr; cases hirr
          | some r =>
            rw [hl] at hirr
            cases hl2 : visLeaf ac sc (leafRange ac node) ray (log ++ [Visit.pop e.Node]) with
            | none => rw [hl2] at hirr; cases hirr
            | some r2 =>
              rw [hl2] at hirr
              obtain ⟨ray1, log1, stop1⟩ := r
              obtain ⟨ray2, log2, stop2⟩ := r2
              simp only [Option.map_some', Option.some.injEq, Prod.mk.injEq] at hirr
              obtain ⟨rfl, rfl⟩ := hirr
              cases stop1 with
              | true => rfl
              | false => exact ih _ _ _ _
        · simp only [if_neg h2]
          exact ih _ _ _ _

theorem visStackRun_nil (ac : Accel α) (sc : Scene α) (rest : List (StackEntry α))
    (ray : RayData α) (p bound : ℕ) : VisStackRun ac sc [] rest ray p bound :=
  ⟨0, p, le_max_left _ _, Or.inl ⟨ray, fun _ => rfl⟩⟩

theorem visStackRun_entries_of_single {ac : Accel α} {sc : Scene α} (h : ℕ)
    (single : ∀ (e : StackEntry α), wellFormedRef ac sc h e.Node = true →
      ∀ (rest : List (StackEntry α)) (ray : RayData α) (p : ℕ),
        rest.length + 1 + 3 * h ≤ ac.StackCap →
        VisStackRun ac sc [e] rest ray p (rest.length + 1 + 3 * h)) :
    ∀ (es : List (StackEntry α)), (∀ e ∈ es, wellFormedRef ac sc h e.Node = true) →
      ∀ (rest : List (StackEntry α)) (ray : RayData α) (p : ℕ),
        rest.length + es.length + 3 * h ≤ ac.StackCap →
        VisStackRun ac sc es rest ray p (rest.length + es.length + 3 * h) := by
  intro es
  induction es with
  | nil => intro _ rest ray p _; exact visStackRun_nil ac sc rest ray p _
  | cons e es ih =>
    intro hes rest ray p hcap
    rw [List.length_cons] at hcap
    obtain ⟨n1, p1, hp1, hrun1⟩ := single e (hes e (List.mem_cons_self _ _)) (es ++ rest) ray p
      (by rw [List.length_append]; omega)
    simp only [List.length_append] at hp1
    rcases hrun1 with ⟨ray1, run1⟩ | ⟨ray1, final, hv, run1⟩
    · obtain ⟨n2, p2, hp2, hrun2⟩ :=
        ih (fun e' he' => hes e' (List.mem_cons_of_mem _ he')) rest ray1 p1 (by omega)
      refine ⟨n2 + n1, p2, by simp only [List.length_cons]; omega, ?_⟩
      rcases hrun2 with ⟨ray2, run2⟩ | ⟨ray2, final, hv, run2⟩
      · left
        refine ⟨ray2, fun fuel => ?_⟩
        have := run1 (fuel + n2)
        simp only [List.singleton_append] at this
        rw [← Nat.add_assoc, List.cons_append, this, run2]
      · right
        refine ⟨ray2, final, hv, fun fuel => ?_⟩
        have := run1 (fuel + n2)
        simp only [List.singleton_append] at this
        rw [← Nat.add_assoc, List.cons_append, this, run2]
    · refine ⟨n1, p1, by simp only [List.length_cons]; omega, Or.inr ⟨ray1, final, hv, ?_⟩⟩
      intro fuel
      have := run1 fuel
      simp only [List.singleton_append] at this
      rw [List.cons_append, this]

theorem visStackRun_leaf (ac : Accel α) (sc : Scene α) (e : StackEntry α) (h : ℕ)
    (rest : List (StackEntry α)) (ray : RayData α) (p : ℕ)
    (hcase : ray.Ray.Tclosest < e.T ∨
      (e.Node < 0 ∧ (e.Node = -1 ∨ ac.LeafBase e.Node + ac.LeafCount e.Node ≤ sc.prims.length))) :
    VisStackRun ac sc [e] rest ray p (rest.length + 1 + 3 * h) := by
  by_cases hT : ray.Ray.Tclosest < e.T
  · exact ⟨1, max p (rest.length + 1), by omega,
      Or.inl ⟨ray, by intro fuel; simp [visLoopStack, hT]⟩⟩
  · rcases hcase with hT' | ⟨hneg, hr⟩
    · exact absurd hT' hT
    · by_cases hleaf : e.Node < -1
      · have h0 : ¬ (0 ≤ e.Node) := by omega
        obtain ⟨ray', log', stop, hl, hstop⟩ := visLeaf_some ac sc (leafRange ac e.Node) ray []
          (leafRange_valid ac sc e.Node hleaf hr)
        cases stop with
        | true =>
          exact ⟨1, max p (rest.length + 1), by omega,
            Or.inr ⟨ray', rest, hstop rfl,
              by intro fuel; simp [visLoopStack, hT, hleaf, h0, hl]⟩⟩
        | false =>
          exact ⟨1, max p (rest.length + 1), by omega,
            Or.inl ⟨ray', by intro fuel; simp [visLoopStack, hT, hleaf, h0, hl]⟩⟩
      · have hm1 : e.Node = -1 := by omega
        exact ⟨1, max p (rest.length + 1), by omega,
          Or.inl ⟨ray, by intro fuel; simp [visLoopStack, hm1]⟩⟩

theorem visStackRun_entries {ac : Accel α} {sc : Scene α} :
    ∀ (h : ℕ) (es : List (StackEntry α)), (∀ e ∈ es, wellFormedRef ac sc h e.Node = true) →
      ∀ (rest : List (StackEntry α)) (ray : RayData α) (p : ℕ),
        rest.length + es.length + 3 * h ≤ ac.StackCap →
        VisStackRun ac sc es rest ray p (rest.length + es.length + 3 * h) := by
  intro h
  induction h with
  | zero =>
    apply visStackRun_entries_of_single
    intro e hwf rest ray p _
    rcases wellFormedRef_cases ac sc 0 e.Node hwf with hleaf | ⟨_, h', _, hh, _⟩
    · exact visStackRun_leaf ac sc e 0 rest ray p (Or.inr hleaf)
    · omega
  | succ h ih =>
    apply visStackRun_entries_of_single
    intro e hwf rest ray p hcap
    by_cases hT : ray.Ray.Tclosest < e.T
    · exact visStackRun_leaf ac sc e (h + 1) rest ray p (Or.inl hT)
    rcases wellFormedRef_cases ac sc (h + 1) e.Node hwf with
      hleaf | ⟨hinner, h', pnode, hh, hn, hch⟩
    · exact visStackRun_leaf ac sc e (h + 1) rest ray p (Or.inr hleaf)
    · have hh' : h' = h := by omega
      subst hh'
      have hpushed : ∀ e' ∈ (((List.finRange 4).filter fun k =>
            decide ((ac.rayNodeIntersectAllASM ray.Ray e.Node.toNat).1 k ≠ 0)).reverse.map
            fun k => (⟨pnode.Children k,
              (ac.rayNodeIntersectAllASM ray.Ray e.Node.toNat).2 k⟩ : StackEntry α)),
          wellFormedRef ac sc h' e'.Node = true := by
        intro e' he'
        obtain ⟨k, _, rfl⟩ := List.mem_map.1 he'
        exact hch k
      have hlen := pushed_length_le pnode (ac.rayNodeIntersectAllASM ray.Ray e.Node.toNat).1
        (ac.rayNodeIntersectAllASM ray.Ray e.Node.toNat).2 (List.finRange 4)
      have h4 : (List.finRange 4).length = 4 := List.length_finRange 4
      obtain ⟨n, p', hp', hrun⟩ := ih _ hpushed rest ray (max p (rest.length + 1)) (by omega)
      have hfits : ¬ ac.StackCap < (pushChildren pnode
          (ac.rayNodeIntersectAllASM ray.Ray e.Node.toNat).1
          (ac.rayNodeIntersectAllASM ray.Ray e.Node.toNat).2
          (List.finRange 4) rest).length := by
        rw [pushChildren_eq, List.length_append]; omega
      have hstep : ∀ fuel, visLoopStack ac sc (fuel + 1) ([e] ++ rest) ray p
          = visLoopStack ac sc fuel
              ((((List.finRange 4).filter fun k =>
                decide ((ac.rayNodeIntersectAllASM ray.Ray e.Node.toNat).1 k ≠ 0)).reverse.map
                fun k => (⟨pnode.Children k,
                  (ac.rayNodeIntersectAllASM ray.Ray e.Node.toNat).2 k⟩ : StackEntry α)) ++ rest)
              ray (max p (rest.length + 1)) := by
        intro fuel
        rw [← pushChildren_eq]
        simp [visLoopStack, hT, hinner, hn, hfits]
      refine ⟨n + 1, p', by omega, ?_⟩
      rcases hrun with ⟨ray', run⟩ | ⟨ray', final, hv, run⟩
      · exact Or.inl ⟨ray', fun fuel => by rw [← Nat.add_assoc, hstep, run]⟩
      · exact Or.inr ⟨ray', final, hv, fun fuel => by rw [← Nat.add_assoc, hstep, run]⟩

end VisStack

/-- C15 (the claim fails for the early return of `visRayAccel`): on a well-formed tree
of height 1 whose child 3 is a leaf with an occluding primitive, `visRayAccel` pops
child 3 first and returns from the leaf loop while the entries of the children 2, 1 and
0 are still on the stack. -/
theorem C15_visRayAccel_returns_with_entries :
    wellFormedRef exampleAccel exampleSceneLastChild 1 0 = true ∧
    (visRayAccelStack exampleAccel exampleSceneLastChild 10 exampleRay).map
      (fun r => r.2.2.length) = some 3 := by
  decide

/-- C15 (amended): for a well-formed tree whose inner nodes are nested at most `h` levels
deep and a `TopLevelStack` of at least `3 * h + 1` entries, `traceRayAccel` returns (for
every sufficient amount of fuel) with an empty stack and `visRayAccel` returns with an
empty stack or, through the early return of its leaf loop, with the ray marked occluded;
in both the stack never holds more than `3 * h + 1` entries, so no push writes beyond
`TopLevelStack`. The functions with the record of the stack return what `traceRayAccel`
and `visRayAccel` return. -/
theorem C15_stack_bound {α : Type} [LinearOrder α] [Zero α]
    (ac : Accel α) (sc : Scene α) (h : ℕ) (ray : RayData α)
    (hwf : wellFormedRef ac sc h 0 = true) (hcap : 3 * h + 1 ≤ ac.StackCap) :
    (∃ n ray' mtlid peak,
      (∀ fuel, n ≤ fuel → traceRayAccelStack ac sc fuel ray = some (ray', mtlid, peak, [])) ∧
      peak ≤ 3 * h + 1) ∧
    (∃ n ray' peak final,
      (∀ fuel, n ≤ fuel → visRayAccelStack ac sc fuel ray = some (ray', peak, final)) ∧
      peak ≤ 3 * h + 1 ∧ (final = [] ∨ ac.IsVis ray' = false)) ∧
    (∀ fuel, (traceRayAccelStack ac sc fuel ray).map (fun r => (r.1, r.2.1))
      = traceRayAccel ac sc fuel ray) ∧
    (∀ fuel, (visRayAccelStack ac sc fuel ray).map (fun r => r.1)
      = (visRayAccel ac sc fuel ray).map (fun r => r.1)) := by
  have hroot : ∀ e ∈ [(⟨0, ray.Ray.Tclosest⟩ : StackEntry α)],
      wellFormedRef ac sc h e.Node = true := by
    intro e he
    rw [List.mem_singleton] at he
    rw [he]; exact hwf
  refine ⟨?_, ?_, ?_, ?_⟩
  · obtain ⟨n, ray', m', p', run, hp⟩ := traceLoopStack_entries h _ hroot [] ray (-1) 0
      (by simp only [List.length_nil, List.length_singleton]; omega)
    have hp0 : p' ≤ 3 * h + 1 := by
      simp only [List.length_nil, List.length_singleton] at hp
      omega
    refine ⟨n, ray', m', p', ?_, hp0⟩
    intro fuel hfuel
    have hrun := run (fuel - n)
    rw [Nat.sub_add_cancel hfuel] at hrun
    unfold traceRayAccelStack
    rw [List.append_nil] at hrun
    rw [if_neg (by omega), hrun]
    cases (fuel - n) <;> rfl
  · obtain ⟨n, p', hp, hrun⟩ := visStackRun_entries h _ hroot [] ray 0
      (by simp only [List.length_nil, List.length_singleton]; omega)
    have hp' : p' ≤ 3 * h + 1 := by
      simp only [List.length_nil, List.length_singleton] at hp
      omega
    rcases hrun with ⟨ray', run⟩ | ⟨ray', final, hv, run⟩
    · refine ⟨n, ray', p', [], ?_, hp', Or.inl rfl⟩
      intro fuel hfuel
      have hrun := run (fuel - n)
      rw [Nat.sub_add_cancel hfuel] at hrun
      unfold visRayAccelStack
      rw [List.append_nil] at hrun
      rw [if_neg (by omega), hrun]
      cases (fuel - n) <;> rfl
    · refine ⟨n, ray', p', final, ?_, hp', Or.inr hv⟩
      intro fuel hfuel
      have hrun := run (fuel - n)
      rw [Nat.sub_add_cancel hfuel] at hrun
      unfold visRayAccelStack
      rw [List.append_nil] at hrun
      rw [if_neg (by omega)]
      exact hrun
  · intro fuel
    unfold traceRayAccelStack traceRayAccel
    rw [if_neg (by omega), if_neg (by omega)]
    exact traceLoopStack_erase ac sc fuel _ ray (-1) 0
  · intro fuel
    unfold visRayAccelStack visRayAccel
    rw [if_neg (by omega), if_neg (by omega)]
    exact visLoopStack_erase ac sc fuel _ ray 0 []

/-- Witness for C15 (amended) on the example scene, of height 1. -/
theorem C15_stack_bound_witness :
    (wellFormedRef exampleAccel exampleScene 1 0 = true ∧
      3 * 1 + 1 ≤ exampleAccel.StackCap) ∧
    (∃ n ray' mtlid peak,
      (∀ fuel, n ≤ fuel →
        traceRayAccelStack exampleAccel exampleScene fuel exampleRay
          = some (ray', mtlid, peak, [])) ∧
      peak ≤ 3 * 1 + 1) ∧
    (∃ n ray' peak final,
      (∀ fuel, n ≤ fuel →
        visRayAccelStack exampleAccel exampleScene fuel exampleRay = some (ray', peak, final)) ∧
      peak ≤ 3 * 1 + 1 ∧ (final = [] ∨ exampleAccel.IsVis ray' = false)) ∧
    (∀ fuel, (traceRayAccelStack exampleAccel exampleScene fuel exampleRay).map
        (fun r => (r.1, r.2.1))
      = traceRayAccel exampleAccel exampleScene fuel exampleRay) ∧
    (∀ fuel, (visRayAccelStack exampleAccel exampleScene fuel exampleRay).map (fun r => r.1)
      = (visRayAccel exampleAccel exampleScene fuel exampleRay).map (fun r => r.1)) :=
  ⟨⟨by decide, by decide⟩,
    C15_stack_bound exampleAccel exampleScene 1 exampleRay (by decide) (by decide)⟩

section PathProofs

variable {α : Type}

theorem samplePixelFrom_discard (rc : RenderContext α)
    (ToRGB : ℚ → ℚ × ℚ × ℚ) (bounce : ℕ → Bounce) (n depth : ℕ) (st : PathState)
    (hhit : (bounce depth).hit = true)
    (hdiscard : GetMaterial rc (bounce depth).MtlId = some none ∨
      ∃ mtl r, GetMaterial rc (bounce depth).MtlId = some (some mtl) ∧
        directLighting rc (bounce depth)
          (if (true || st.direct) && mtl.HasEDF then
            st.fullsample + (bounce depth).Le * st.contrib
          else st.fullsample) st.contrib st.direct = some r ∧
        (bounce depth).below = true) :
    samplePixelFrom rc ToRGB bounce (n + 1) depth st = some (0, 0, 0) := by
  rw [samplePixelFrom, samplePixelStep]
  rcases hdiscard with hnil | ⟨mtl, r, hmtl, hdl, hbelow⟩
  · simp [hhit, hnil]
  · obtain ⟨fs, d⟩ := r
    simp only [hhit, if_true, hmtl, hdl, hbelow]

/-- The iterations at the depths `depth, …, depth + d - 1` that go on to the next depth
take the loop from the state `st 0` at depth `depth` to the state `st d` at depth
`depth + d`. -/
theorem samplePixelFrom_next (rc : RenderContext α) (ToRGB : ℚ → ℚ × ℚ × ℚ)
    (bounce : ℕ → Bounce) :
    ∀ (d n depth : ℕ) (st : ℕ → PathState),
      (∀ k, k < d →
        samplePixelStep rc ToRGB (bounce (depth + k)) (st k) = .next (st (k + 1))) →
      samplePixelFrom rc ToRGB bounce (n + d) depth (st 0)
        = samplePixelFrom rc ToRGB bounce n (depth + d) (st d) := by
  intro d
  induction d with
  | zero => intro n depth st _; rfl
  | succ d ih =>
    intro n depth st hpath
    have h0 := hpath 0 (Nat.succ_pos d)
    rw [Nat.add_zero] at h0
    have hrest := ih n (depth + 1) (fun k => st (k + 1))
      (fun k hk => by
        have := hpath (k + 1) (Nat.succ_lt_succ hk)
        rw [← Nat.add_assoc, Nat.add_right_comm] at this
        exact this)
    rw [← Nat.add_assoc, samplePixelFrom, h0]
    simp only
    rw [hrest, Nat.add_right_comm depth 1 d, Nat.add_assoc]

end PathProofs

/-- C16: when the path of `samplePixel` reaches a depth `d` below the limit of four (the
iterations at the depths before `d` go on to the next depth, through the states `st` of
`fullsample`, `contrib` and `direct`, whatever they have accumulated) and at depth `d`
the hit has no material (`GetMaterial` returns `nil`), or the hit has a material, the
direct-lighting block completes and the direction sampled from the BSDF lies below the
geometric surface, `samplePixel` returns `(0, 0, 0)`. -/
theorem C16_discarded_path_returns_zero {α : Type} (rc : RenderContext α)
    (ToRGB : ℚ → ℚ × ℚ × ℚ) (bounce : ℕ → Bounce) (d : ℕ) (st : ℕ → PathState)
    (hd : d < 4)
    (hstart : st 0 = { fullsample := 0, contrib := 1, direct := true })
    (hpath : ∀ k, k < d →
      samplePixelStep rc ToRGB (bounce k) (st k) = .next (st (k + 1)))
    (hhit : (bounce d).hit = true)
    (hdiscard : GetMaterial rc (bounce d).MtlId = some none ∨
      ∃ mtl r, GetMaterial rc (bounce d).MtlId = some (some mtl) ∧
        directLighting rc (bounce d)
          (if (true || (st d).direct) && mtl.HasEDF then
            (st d).fullsample + (bounce d).Le * (st d).contrib
          else (st d).fullsample) (st d).contrib (st d).direct = some r ∧
        (bounce d).below = true) :
    samplePixel rc ToRGB bounce = some (0, 0, 0) := by
  obtain ⟨n, hn⟩ : ∃ n, 4 = (n + 1) + d := ⟨3 - d, by omega⟩
  have hchain := samplePixelFrom_next rc ToRGB bounce d (n + 1) 0 st
    (fun k hk => by rw [Nat.zero_add]; exact hpath k hk)
  rw [Nat.zero_add] at hchain
  unfold samplePixel
  rw [← hstart, hn, hchain]
  exact samplePixelFrom_discard rc ToRGB bounce n d (st d) hhit hdiscard

/-- Witness for C16: the path hits the emitting material at depth 0, which brings
`fullsample` to 1, and at depth 1 a surface without material; `samplePixel` returns
zero. -/
theorem C16_discarded_path_returns_zero_witness :
    (1 < 4 ∧
      exampleNoMaterialStates 0 = { fullsample := 0, contrib := 1, direct := true } ∧
      (∀ k, k < 1 →
        samplePixelStep exampleLitContext exampleToRGB (exampleNoMaterialPath k)
          (exampleNoMaterialStates k) = .next (exampleNoMaterialStates (k + 1))) ∧
      (exampleNoMaterialStates 1).fullsample = 1 ∧
      (exampleNoMaterialPath 1).hit = true ∧
      GetMaterial exampleLitContext (exampleNoMaterialPath 1).MtlId = some none) ∧
    samplePixel exampleLitContext exampleToRGB exampleNoMaterialPath = some (0, 0, 0) :=
  ⟨⟨by decide, rfl,
      fun k hk => by
        obtain rfl : k = 0 := by omega
        simp [samplePixelStep, exampleNoMaterialPath, exampleNoMaterialStates, GetMaterial,
          directLighting, exampleLitContext, buildContext, AddNode, addMaterial,
          NewRenderContext],
      rfl, rfl, rfl⟩,
    C16_discarded_path_returns_zero exampleLitContext exampleToRGB exampleNoMaterialPath 1
      exampleNoMaterialStates (by decide) rfl
      (fun k hk => by
        obtain rfl : k = 0 := by omega
        simp [samplePixelStep, exampleNoMaterialPath, exampleNoMaterialStates, GetMaterial,
          directLighting, exampleLitContext, buildContext, AddNode, addMaterial,
          NewRenderContext])
      rfl (Or.inl rfl)⟩

/-- C17: in a render context with one material, `GetMaterial` with the id `-2` passes
the three tests of its guard and indexes `rc.materials` at `-2`, which is out of
range, while the id `-1` yields `nil` and the id `0` the material added first. -/
theorem C17_GetMaterial_negative_id :
    exampleLitContext.materials.length = 1 ∧
    GetMaterial exampleLitContext (-2) = none ∧
    GetMaterial exampleLitContext (-1) = some none ∧
    GetMaterial exampleLitContext 0
      = some (some { Name := "emitter", Id := 0, HasEDF := true, HasBumpMap := false }) :=
  ⟨rfl, rfl, rfl, rfl⟩

/-- C11 (the claim fails for shadow rays and for hits without material): on the example
scene, for a shadow ray that is occluded `TraceProbe` reports an intersection and
`Trace` returns `false`, since the shadow branch never sets `sg.Shader`; and for a
closest-hit ray that hits a primitive whose material is not found `TraceProbe` reports
an intersection and `Trace` returns `false`. -/
theorem C11_Trace_false_despite_intersection :
    ((TraceProbe exampleAccel (fun _ => some exampleMaterial) exampleScene 10 true exampleRay
        { Shader := none }).map (fun r => r.1) = some true ∧
      Trace exampleAccel (fun _ => some exampleMaterial) exampleScene 10 true exampleRay
        = some false) ∧
    ((TraceProbe exampleAccel (fun _ => none) exampleScene 10 false exampleRay
        { Shader := none }).map (fun r => r.1) = some true ∧
      Trace exampleAccel (fun _ => none) exampleScene 10 false exampleRay = some false) := by
  decide

/-- C11 (amended): for a closest-hit ray (not of type `RayShadow`), `Trace` returns
whenever `TraceProbe` does, and it returns `true` exactly when `TraceProbe` reports an
intersection and the material resolved for the hit is not `nil`; that is, exactly when
the traversal returns a shader id other than `-1` for which `GetMaterial` finds a
material. -/
theorem C11_Trace_closest_hit {α : Type} [LinearOrder α] [Zero α] (ac : Accel α)
    (getMaterial : ℤ → Option Material) (sc : Scene α) (fuel : ℕ) (ray : RayData α) :
    (Trace ac getMaterial sc fuel false ray = none ↔
      TraceProbe ac getMaterial sc fuel false ray { Shader := none } = none) ∧
    (Trace ac getMaterial sc fuel false ray = some true ↔
      ∃ ray' sg, TraceProbe ac getMaterial sc fuel false ray { Shader := none }
          = some (true, ray', sg) ∧ sg.Shader ≠ none) ∧
    (Trace ac getMaterial sc fuel false ray = some true ↔
      ∃ ray' mtlid, traceRayAccel ac sc fuel ray = some (ray', mtlid) ∧ mtlid ≠ -1 ∧
        getMaterial mtlid ≠ none) := by
  unfold Trace TraceProbe
  simp only [Bool.false_eq_true, if_false]
  cases ht : traceRayAccel ac sc fuel ray with
  | none => simp
  | some r =>
    obtain ⟨ray', mtlid⟩ := r
    by_cases hm : mtlid = -1
    · simp [hm]
    · cases hg : getMaterial mtlid with
      | none => simp [hm, hg]
      | some mtl =>
        simp only [hm, hg, ne_eq, not_false_eq_true, if_true, Option.isNone_some,
          Bool.false_eq_true, if_false, not_true_eq_false, true_iff, false_iff]
        refine ⟨by simp, ⟨ray', { Shader := some mtl }, rfl, by simp⟩,
          ⟨ray', mtlid, rfl, hm, by simp [hg]⟩⟩

/-- C12: for a mesh with `RayBias = 0`, `Mesh.VisRay` calls two visibility variants, the
non-epsilon one and then the epsilon one (without and with a face index table), whereas
`Mesh.TraceRay` calls only the non-epsilon closest-hit variant. -/
theorem C12_VisRay_calls_two_variants :
    (Mesh.VisRay (fun _ r => r) exampleMesh exampleRay).2
      = [MeshVariant.Accel, MeshVariant.AccelEpsilon] ∧
    (Mesh.VisRay (fun _ r => r) { exampleMesh with faceindex := some [] } exampleRay).2
      = [MeshVariant.AccelIndexed, MeshVariant.AccelIndexedEpsilon] ∧
    (Mesh.TraceRay (fun _ r => (r, -1)) exampleMesh exampleRay).2 = [MeshVariant.Accel] ∧
    (Mesh.TraceRay (fun _ r => (r, -1)) { exampleMesh with faceindex := some [] } exampleRay).2
      = [MeshVariant.AccelIndexed] := by
  simp [Mesh.VisRay, Mesh.TraceRay, exampleMesh]

section MeshBuild

theorem calcBox_three (a b c : Fin 3 → ℚ) :
    ∃ box, calcBox [a, b, c] = some box := by
  exact ⟨_, rfl⟩

theorem trisplit_three (ops : SplitOps) (fuel : ℕ) (a b c : Fin 3 → ℚ) (idx : ℤ)
    (out : SplitOut) (box : BoundingBox) (hbox : calcBox [a, b, c] = some box) :
    trisplit ops (fuel + 1) [a, b, c] idx out
      = some { indexes := out.indexes ++ [idx], boxes := out.boxes ++ [box],
               centroids := out.centroids ++ [vertsCentroid [a, b, c]] } := by
  unfold trisplit
  rw [trisplitLoop]
  simp only [List.length_cons, List.length_nil, hbox]
  simp only [Bool.false_eq_true, if_false]
  have h3 : ¬ (0 + 1 + 1 + 1 < 1) := by omega
  rw [if_neg h3]
  cases fuel <;> rfl

theorem meshCollect_spec (ops : SplitOps) (fuel : ℕ) :
    ∀ (faces : List FaceGeom) (i : ℕ) (out : SplitOut),
      ∃ out', meshCollect ops (fuel + 1) faces i out = some out' ∧
        out'.indexes = out.indexes ++ (List.range' i faces.length).map toInt32 ∧
        out'.boxes.map some
          = out.boxes.map some ++ faces.map (fun f => calcBox [f.V 0, f.V 1, f.V 2]) ∧
        out'.centroids
          = out.centroids ++ faces.map (fun f => vertsCentroid [f.V 0, f.V 1, f.V 2]) := by
  intro faces
  induction faces with
  | nil => intro i out; exact ⟨out, rfl, by simp, by simp, by simp⟩
  | cons f fs ih =>
    intro i out
    obtain ⟨box, hbox⟩ := calcBox_three (f.V 0) (f.V 1) (f.V 2)
    have hsplit := trisplit_three ops fuel (f.V 0) (f.V 1) (f.V 2) (toInt32 i) out box hbox
    obtain ⟨out', hrun, hidx, hboxes, hcent⟩ := ih (i + 1)
      { indexes := out.indexes ++ [toInt32 i], boxes := out.boxes ++ [box],
        centroids := out.centroids ++ [vertsCentroid [f.V 0, f.V 1, f.V 2]] }
    refine ⟨out', ?_, ?_, ?_, ?_⟩
    · rw [meshCollect, hsplit]; exact hrun
    · rw [hidx]; simp [List.range'_succ]
    · rw [hboxes]; simp [hbox]
    · rw [hcent]; simp

end MeshBuild

/-- C13 (the claim fails, the split being disabled): for a mesh whose only face is a thin
triangle 1000 units long, the build emits exactly one index, one box and one centroid
for face 0, and the box is the bounding box of the whole triangle. -/
theorem C13_thin_triangle_not_split :
    (meshCollect exampleSplitOps 5 [exampleThinFace] 0
        { indexes := [], boxes := [], centroids := [] }).map
      (fun out => (out.indexes, out.boxes.length, out.centroids.length)) = some ([0], 1, 1) ∧
    (meshCollect exampleSplitOps 5 [exampleThinFace] 0
        { indexes := [], boxes := [], centroids := [] }).map (fun out => out.boxes.map some)
      = some [calcBox [exampleThinFace.V 0, exampleThinFace.V 1, exampleThinFace.V 2]] := by
  refine ⟨?_, ?_⟩
  · rfl
  · rfl

/-- C13 (amended): for every mesh the build (`trisplit`, called from `Mesh.initAccel` for
each face) emits exactly one index, one box and one centroid per face, in face order:
the index of the face, the bounding box of its three vertices, and their mean; also
for a single triangle `trisplit` appends exactly that one entry. -/
theorem C13_one_entry_per_face (ops : SplitOps) (fuel : ℕ) (faces : List FaceGeom)
    (a b c : Fin 3 → ℚ) (idx : ℤ) (out : SplitOut) :
    (∃ out', meshCollect ops (fuel + 1) faces 0 { indexes := [], boxes := [], centroids := [] }
        = some out' ∧
      out'.indexes = (List.range faces.length).map toInt32 ∧
      out'.boxes.map some = faces.map (fun f => calcBox [f.V 0, f.V 1, f.V 2]) ∧
      out'.centroids = faces.map (fun f => vertsCentroid [f.V 0, f.V 1, f.V 2])) ∧
    (∃ box, calcBox [a, b, c] = some box ∧
      trisplit ops (fuel + 1) [a, b, c] idx out
        = some { indexes := out.indexes ++ [idx], boxes := out.boxes ++ [box],
                 centroids := out.centroids ++ [vertsCentroid [a, b, c]] }) := by
  refine ⟨?_, ?_⟩
  · obtain ⟨out', hrun, hidx, hboxes, hcent⟩ := meshCollect_spec ops fuel faces 0
      { indexes := [], boxes := [], centroids := [] }
    refine ⟨out', hrun, ?_, ?_, ?_⟩
    · rw [hidx, List.range_eq_range']; simp
    · rw [hboxes]; simp
    · rw [hcent]; simp
  · obtain ⟨box, hbox⟩ := calcBox_three a b c
    exact ⟨box, hbox, trisplit_three ops fuel a b c idx out box hbox⟩

end Vermeer
